import Mathlib

/-!
ECT parser (`samsung/ect_parser.c`): shallow embedding and verified properties

The decoder walks a binary "characteristic table" that lives in a mapped
memory region starting at `ect_address`.  The embedding keeps the source's
shape:

* memory is a byte image (`Mem`); an address is a natural number and `NULL`
  is address `0`; a byte that the image does not hold reads as `0`;
* `__raw_readl` assembles a 32-bit word from four bytes, least significant
  byte first (the byte order of the arm64 targets of this driver);
* pointers that the decoder stores into its records (names, value arrays)
  are kept as addresses into the image, exactly as the C code keeps them;
* `kzalloc` is driven by an explicit oracle (`Alloc`) at every call site of
  the block decoders; `ect_parse_ap_thermal_function` does not test the
  result of its `kzalloc` and has no return value where it stores through the
  null pointer; the 16-byte `ect_header` record of `ect_parse_binary_header`
  is kept by value;
* the global `ect_list` / `ect_header_info` pair is an explicit state
  (`EctState`) passed through `ect_parse_binary_header`.
-/

namespace Ect

/-! ## Memory and machine words -/

/-- Byte image of the address space; index = address. -/
abbrev Mem := List Nat

/-- Allocation oracle: outcome of the next `kzalloc` calls, in call order
(`true` = a non-null pointer).  An exhausted oracle answers `true`. -/
abbrev Alloc := List Bool

def EINVAL : Int := 22

def ENOMEM : Int := 12

def ALIGNMENT_SIZE : Nat := 4

def NAME_MAX_LEN : Nat := 20

/-- The byte stored at address `a`. -/
def readb (mem : Mem) (a : Nat) : Nat :=
  mem.getD a 0 % 256

/-- Kernel `__raw_readl`: the 32-bit word at address `a`, low byte first. -/
def raw_readl (mem : Mem) (a : Nat) : Nat :=
  readb mem a + 256 * readb mem (a + 1) + 65536 * readb mem (a + 2)
    + 16777216 * readb mem (a + 3)

/-- The four bytes of a 32-bit word in memory order (low byte first). -/
def word_bytes (w : Nat) : List Nat :=
  [w % 256, w / 256 % 256, w / 65536 % 256, w / 16777216 % 256]

/-- Value of a 32-bit word read as a C `int`. -/
def toInt32 (w : Nat) : Int :=
  if w % 4294967296 < 2147483648 then (w % 4294967296 : Nat)
  else ((w % 4294967296 : Nat) : Int) - 4294967296

/-- The NUL-terminated C string that starts at address `a`, without its
terminator. -/
def cstr (mem : Mem) (a : Nat) : List Nat :=
  ((mem.drop a).map (fun b => b % 256)).takeWhile (fun b => b != 0)

/-- Kernel `kzalloc` as seen by a caller that tests the result. -/
def kzalloc : Alloc → Bool × Alloc
  | [] => (true, [])
  | b :: rest => (b, rest)

/-! ## C library string functions used by the parser -/

/-- C `strncmp` on two NUL-terminated strings given without terminator. -/
def strncmp : List Nat → List Nat → Nat → Int
  | _, _, 0 => 0
  | s1, s2, n + 1 =>
    let c1 := s1.headD 0
    let c2 := s2.headD 0
    if c1 ≠ c2 then (if c1 < c2 then -1 else 1)
    else if c1 = 0 then 0
    else strncmp s1.tail s2.tail n

/-- Does the C string `needle` occur in `hay` starting at its first byte. -/
def starts_with : List Nat → List Nat → Bool
  | _, [] => true
  | [], _ :: _ => false
  | h :: hs, n :: ns => h == n && starts_with hs ns

/-- C `strstr(hay, needle) != NULL`. -/
def strstr_found : List Nat → List Nat → Bool
  | [], needle => needle.isEmpty
  | h :: hs, needle => starts_with (h :: hs) needle || strstr_found hs needle

/-- Source `ect_strcmp` on two NUL-terminated strings given without
terminator. -/
def ect_strcmp : List Nat → List Nat → Int
  | [], [] => 0
  | [], _ :: _ => -1
  | _ :: _, [] => 1
  | a :: as, b :: bs =>
    if a = b then ect_strcmp as bs else (if a < b then -1 else 1)

/-! ## Primitive readers -/

/-- Source `ect_parse_integer`: the value and the advanced cursor. -/
def ect_parse_integer (mem : Mem) (address : Nat) : Nat × Nat :=
  (raw_readl mem address, address + 4)

/-- Source `ect_parse_integer64`: low word first, then the high word. -/
def ect_parse_integer64 (mem : Mem) (address : Nat) : Nat × Nat :=
  let half := raw_readl mem address
  let top := raw_readl mem (address + 4)
  ((top <<< 32) ||| half, address + 4 + 4)

/-- Result of `ect_parse_string`: return code, pointer to the string body,
reported length and the advanced cursor. -/
structure ParsedString where
  ret : Int
  value : Nat
  length : Nat
  address : Nat
  deriving DecidableEq, Repr

/-- Source `ect_parse_string`; `length` is an `unsigned int`, so both the
increment and the padded advance wrap at `2 ^ 32`. -/
def ect_parse_string (mem : Mem) (address : Nat) : ParsedString :=
  let r := ect_parse_integer mem address
  let length := (r.1 + 1) % 4294967296
  let value := r.2
  let address1 :=
    if length % ALIGNMENT_SIZE ≠ 0 then
      r.2 + (length + ALIGNMENT_SIZE - length % ALIGNMENT_SIZE) % 4294967296
    else r.2 + length
  { ret := 0, value := value, length := length, address := address1 }

/-! ## Declarations of `soc/samsung/ect_parser.h` -/

/-- Modelled from the spec: the constants of `soc/samsung/ect_parser.h`, a
header that is not among the sources.  The block-name string literals, the
two DVFS mode selectors, the PMIC step multiplier and the size of one
`struct ect_dvfs_level` are parameters of the embedding. -/
structure ect_config where
  BLOCK_AP_THERMAL : List Nat
  BLOCK_ASV : List Nat
  BLOCK_DVFS : List Nat
  BLOCK_MARGIN : List Nat
  BLOCK_PLL : List Nat
  BLOCK_MINLOCK : List Nat
  BLOCK_GEN_PARAM : List Nat
  BLOCK_NEW_TIMING_PARAM : List Nat
  e_dvfs_mode_clock_name : Nat
  e_dvfs_mode_sfr_address : Nat
  PMIC_VOLTAGE_STEP : Nat
  sizeof_ect_dvfs_level : Nat
  deriving DecidableEq, Repr

/-- Modelled from the spec: `struct ect_header` (signature, format version,
total size and directory count, each one 32-bit word of the blob). -/
structure ect_header where
  sign : Nat
  version : Nat
  total_size : Nat
  num_of_header : Nat
  deriving DecidableEq, Repr

/-- Modelled from the spec: `struct ect_dvfs_domain`; pointers are
addresses, `none` is `NULL`, counts are unsigned 32-bit words. -/
structure ect_dvfs_domain where
  domain_name : Nat
  domain_offset : Nat
  max_frequency : Nat
  min_frequency : Nat
  boot_level_idx : Int
  resume_level_idx : Int
  mode : Nat
  num_of_clock : Nat
  num_of_level : Nat
  list_clock : Option (List Nat)
  list_sfr : Option Nat
  list_level : Option Nat
  list_dvfs_value : Option Nat
  deriving DecidableEq, Repr

structure ect_dvfs_header where
  parser_version : Nat
  version : Nat
  num_of_domain : Nat
  domain_list : List ect_dvfs_domain
  deriving DecidableEq, Repr

/-- One `struct ect_pll_frequency` of a borrowed frequency list. -/
structure ect_pll_frequency where
  frequency : Nat
  p : Nat
  m : Nat
  s : Nat
  k : Nat
  deriving DecidableEq, Repr

structure ect_pll where
  pll_name : Nat
  pll_offset : Nat
  frequency_list : Option Nat
  type_pll : Nat
  num_of_frequency : Nat
  deriving DecidableEq, Repr

structure ect_pll_header where
  parser_version : Nat
  version : Nat
  num_of_pll : Nat
  pll_list : List ect_pll
  deriving DecidableEq, Repr

structure ect_voltage_table where
  table_version : Nat
  boot_level_idx : Int
  resume_level_idx : Int
  level_en : Option Nat
  voltages : Option Nat
  voltages_step : Option Nat
  volt_step : Nat
  deriving DecidableEq, Repr

structure ect_voltage_domain where
  domain_name : Nat
  domain_offset : Nat
  num_of_group : Nat
  num_of_level : Nat
  num_of_table : Nat
  level_list : Option Nat
  table_list : List ect_voltage_table
  deriving DecidableEq, Repr

structure ect_voltage_header where
  parser_version : Nat
  version : Nat
  num_of_domain : Nat
  domain_list : List ect_voltage_domain
  deriving DecidableEq, Repr

structure ect_ap_thermal_range where
  lower_bound_temperature : Nat
  upper_bound_temperature : Nat
  max_frequency : Nat
  sw_trip : Nat
  flag : Nat
  deriving DecidableEq, Repr

structure ect_ap_thermal_function where
  function_name : Nat
  function_offset : Nat
  num_of_range : Nat
  range_list : List ect_ap_thermal_range
  deriving DecidableEq, Repr

structure ect_ap_thermal_header where
  parser_version : Nat
  version : Nat
  num_of_function : Nat
  function_list : List ect_ap_thermal_function
  deriving DecidableEq, Repr

structure ect_margin_domain where
  domain_name : Nat
  domain_offset : Nat
  num_of_group : Nat
  num_of_level : Nat
  offset : Option Nat
  offset_compact : Option Nat
  volt_step : Nat
  deriving DecidableEq, Repr

structure ect_margin_header where
  parser_version : Nat
  version : Nat
  num_of_domain : Nat
  domain_list : List ect_margin_domain
  deriving DecidableEq, Repr

structure ect_minlock_domain where
  domain_name : Nat
  domain_offset : Nat
  num_of_level : Nat
  level : Option Nat
  deriving DecidableEq, Repr

structure ect_minlock_header where
  parser_version : Nat
  version : Nat
  num_of_domain : Nat
  domain_list : List ect_minlock_domain
  deriving DecidableEq, Repr

structure ect_gen_param_table where
  table_name : Nat
  offset : Nat
  num_of_col : Nat
  num_of_row : Nat
  parameter : Option Nat
  deriving DecidableEq, Repr

structure ect_gen_param_header where
  parser_version : Nat
  version : Nat
  num_of_table : Nat
  table_list : List ect_gen_param_table
  deriving DecidableEq, Repr

structure ect_new_timing_param_size where
  parameter_key : Nat
  offset : Nat
  mode : Nat
  num_of_timing_param : Nat
  num_of_level : Nat
  timing_parameter : Option Nat
  deriving DecidableEq, Repr

structure ect_new_timing_param_header where
  parser_version : Nat
  version : Nat
  num_of_size : Nat
  size_list : List ect_new_timing_param_size
  deriving DecidableEq, Repr

/-- What a `void *block_handle` of the registry points to. -/
inductive BlockHandle where
  | dvfs (h : ect_dvfs_header)
  | pll (h : ect_pll_header)
  | voltage (h : ect_voltage_header)
  | ap_thermal (h : ect_ap_thermal_header)
  | margin (h : ect_margin_header)
  | minlock (h : ect_minlock_header)
  | gen_param (h : ect_gen_param_header)
  | new_timing_param (h : ect_new_timing_param_header)
  deriving DecidableEq, Repr

/-- The `parser` function pointer of a registry entry. -/
inductive ParserId where
  | ap_thermal_header
  | voltage_header
  | dvfs_header
  | margin_header
  | pll_header
  | minlock_header
  | gen_param_header
  | new_timing_param_header
  deriving DecidableEq, Repr

/-- Source `struct ect_info`, without the dump plumbing. -/
structure ect_info where
  block_name : List Nat
  block_name_length : Nat
  parser : ParserId
  block_handle : Option BlockHandle
  block_precedence : Int
  deriving DecidableEq, Repr

/-! ## Block decoders -/

/-- Pointer arithmetic with a signed displacement. -/
def ptr_add (address : Nat) (d : Int) : Nat :=
  Int.toNat ((address : Int) + d)

/-- The first loop of every name-indexed block decoder: `count` times a
padded name string followed by a 32-bit offset; yields the (name pointer,
offset) pairs in stored order and the cursor after the table. -/
def ect_parse_name_offset_list (mem : Mem) : Nat → Nat → Int × List (Nat × Nat) × Nat
  | 0, address => (0, [], address)
  | n + 1, address =>
    let s := ect_parse_string mem address
    if s.ret ≠ 0 then (-EINVAL, [], s.address)
    else
      let o := ect_parse_integer mem s.address
      let r := ect_parse_name_offset_list mem n o.2
      (r.1, (s.value, o.1) :: r.2.1, r.2.2)

/-- The second loop of every block decoder: decode the record bodies in list
order and stop at the first body decoder that reports a failure. -/
def ect_parse_bodies {α : Type} (f : α → Alloc → Int × α × Alloc) :
    List α → Alloc → Int × List α × Alloc
  | [], al => (0, [], al)
  | x :: xs, al =>
    let r := f x al
    if r.1 ≠ 0 then (-EINVAL, r.2.1 :: xs, r.2.2)
    else
      let rs := ect_parse_bodies f xs r.2.2
      (rs.1, r.2.1 :: rs.2.1, rs.2.2)

/-- The clock-name loop of `ect_parse_dvfs_domain`. -/
def ect_parse_clock_names (mem : Mem) : Nat → Nat → Int × List Nat × Nat
  | 0, address => (0, [], address)
  | n + 1, address =>
    let s := ect_parse_string mem address
    if s.ret ≠ 0 then (-EINVAL, [], s.address)
    else
      let r := ect_parse_clock_names mem n s.address
      (r.1, s.value :: r.2.1, r.2.2)

/-- The tail of `ect_parse_dvfs_domain` after the clock/SFR list. -/
def ect_parse_dvfs_levels (cfg : ect_config) (address : Nat) (domain : ect_dvfs_domain) :
    ect_dvfs_domain :=
  { domain with
    list_level := some address
    list_dvfs_value := some (address + cfg.sizeof_ect_dvfs_level * domain.num_of_level) }

/-- Source `ect_parse_dvfs_domain`. -/
def ect_parse_dvfs_domain (cfg : ect_config) (mem : Mem) (parser_version : Int)
    (address : Nat) (domain : ect_dvfs_domain) (al : Alloc) :
    Int × ect_dvfs_domain × Alloc :=
  let maxf := ect_parse_integer mem address
  let minf := ect_parse_integer mem maxf.2
  let boot := ect_parse_integer mem minf.2
  let resume := ect_parse_integer mem boot.2
  let boot_level_idx : Int := if parser_version ≥ 2 then toInt32 boot.1 else -1
  let resume_level_idx : Int := if parser_version ≥ 2 then toInt32 resume.1 else -1
  let a1 := if parser_version ≥ 2 then resume.2 else minf.2
  let m := ect_parse_integer mem a1
  let mode := if parser_version ≥ 3 then m.1 else cfg.e_dvfs_mode_clock_name
  let a2 := if parser_version ≥ 3 then m.2 else a1
  let nclock := ect_parse_integer mem a2
  let nlevel := ect_parse_integer mem nclock.2
  let d : ect_dvfs_domain :=
    { domain with
      max_frequency := maxf.1
      min_frequency := minf.1
      boot_level_idx := boot_level_idx
      resume_level_idx := resume_level_idx
      mode := mode
      num_of_clock := nclock.1
      num_of_level := nlevel.1 }
  if mode = cfg.e_dvfs_mode_sfr_address then
    (0, ect_parse_dvfs_levels cfg (nlevel.2 + 4 * nclock.1)
          { d with list_sfr := some nlevel.2, list_clock := none }, al)
  else if mode = cfg.e_dvfs_mode_clock_name then
    let k := kzalloc al
    if k.1 = false then (-ENOMEM, { d with list_clock := none, list_sfr := none }, k.2)
    else
      let c := ect_parse_clock_names mem nclock.1 nlevel.2
      if c.1 ≠ 0 then (-EINVAL, { d with list_clock := none, list_sfr := none }, k.2)
      else
        (0, ect_parse_dvfs_levels cfg c.2.2
              { d with list_clock := some c.2.1, list_sfr := none }, k.2)
  else
    (0, ect_parse_dvfs_levels cfg nlevel.2 d, al)

/-- A zeroed `struct ect_dvfs_domain` with its name and offset filled in. -/
def ect_dvfs_domain_named (e : Nat × Nat) : ect_dvfs_domain :=
  { domain_name := e.1, domain_offset := e.2, max_frequency := 0, min_frequency := 0,
    boot_level_idx := 0, resume_level_idx := 0, mode := 0, num_of_clock := 0,
    num_of_level := 0, list_clock := none, list_sfr := none, list_level := none,
    list_dvfs_value := none }

/-- Source `ect_parse_pll`. -/
def ect_parse_pll (mem : Mem) (_parser_version : Int) (address : Nat) (pll : ect_pll) :
    Int × ect_pll :=
  let t := ect_parse_integer mem address
  let n := ect_parse_integer mem t.2
  (0, { pll with type_pll := t.1, num_of_frequency := n.1, frequency_list := some n.2 })

/-- A zeroed `struct ect_pll` with its name and offset filled in. -/
def ect_pll_named (e : Nat × Nat) : ect_pll :=
  { pll_name := e.1, pll_offset := e.2, frequency_list := none, type_pll := 0,
    num_of_frequency := 0 }

/-- Source `ect_parse_voltage_table`; also returns the advanced cursor. -/
def ect_parse_voltage_table (cfg : ect_config) (mem : Mem) (parser_version : Int)
    (address : Nat) (domain : ect_voltage_domain) (table : ect_voltage_table) :
    Int × Nat × ect_voltage_table :=
  let num_of_data : Int := toInt32 (domain.num_of_group * domain.num_of_level)
  let tv := ect_parse_integer mem address
  let boot := ect_parse_integer mem tv.2
  let resume := ect_parse_integer mem boot.2
  let t1 : ect_voltage_table :=
    if parser_version ≥ 2 then
      { table with
        table_version := tv.1
        boot_level_idx := toInt32 boot.1
        resume_level_idx := toInt32 resume.1
        level_en := some resume.2 }
    else
      { table with
        table_version := tv.1, boot_level_idx := -1, resume_level_idx := -1, level_en := none }
  let a1 := if parser_version ≥ 2 then resume.2 + 4 * domain.num_of_level else tv.2
  if parser_version ≥ 3 then
    (0, ptr_add a1 (1 * num_of_data),
      { t1 with voltages := none, voltages_step := some a1, volt_step := cfg.PMIC_VOLTAGE_STEP })
  else
    (0, ptr_add a1 (4 * num_of_data),
      { t1 with voltages := some a1, voltages_step := none, volt_step := 0 })

/-- A zeroed `struct ect_voltage_table`. -/
def ect_voltage_table_zero : ect_voltage_table :=
  { table_version := 0, boot_level_idx := 0, resume_level_idx := 0, level_en := none,
    voltages := none, voltages_step := none, volt_step := 0 }

/-- The table loop of `ect_parse_voltage_domain`: `n` tables back to back. -/
def ect_parse_voltage_tables (cfg : ect_config) (mem : Mem) (parser_version : Int)
    (domain : ect_voltage_domain) : Nat → Nat → Int × List ect_voltage_table × Nat
  | 0, address => (0, [], address)
  | n + 1, address =>
    let t := ect_parse_voltage_table cfg mem parser_version address domain ect_voltage_table_zero
    if t.1 ≠ 0 then (-EINVAL, [], t.2.1)
    else
      let r := ect_parse_voltage_tables cfg mem parser_version domain n t.2.1
      (r.1, t.2.2 :: r.2.1, r.2.2)

/-- Source `ect_parse_voltage_domain`. -/
def ect_parse_voltage_domain (cfg : ect_config) (mem : Mem) (parser_version : Int)
    (address : Nat) (domain : ect_voltage_domain) (al : Alloc) :
    Int × ect_voltage_domain × Alloc :=
  let g := ect_parse_integer mem address
  let l := ect_parse_integer mem g.2
  let t := ect_parse_integer mem l.2
  let d : ect_voltage_domain :=
    { domain with
      num_of_group := g.1, num_of_level := l.1, num_of_table := t.1, level_list := some t.2 }
  let a1 := t.2 + 4 * l.1
  let k := kzalloc al
  if k.1 = false then (-ENOMEM, d, k.2)
  else
    let r := ect_parse_voltage_tables cfg mem parser_version d t.1 a1
    if r.1 ≠ 0 then (-EINVAL, d, k.2)
    else (0, { d with table_list := r.2.1 }, k.2)

/-- A zeroed `struct ect_voltage_domain` with its name and offset filled in. -/
def ect_voltage_domain_named (e : Nat × Nat) : ect_voltage_domain :=
  { domain_name := e.1, domain_offset := e.2, num_of_group := 0, num_of_level := 0,
    num_of_table := 0, level_list := none, table_list := [] }

/-- The range loop of `ect_parse_ap_thermal_function`: five words a range. -/
def ect_parse_ap_thermal_ranges (mem : Mem) : Nat → Nat → List ect_ap_thermal_range
  | 0, _ => []
  | n + 1, address =>
    let lo := ect_parse_integer mem address
    let up := ect_parse_integer mem lo.2
    let mf := ect_parse_integer mem up.2
    let sw := ect_parse_integer mem mf.2
    let fl := ect_parse_integer mem sw.2
    { lower_bound_temperature := lo.1, upper_bound_temperature := up.1, max_frequency := mf.1,
      sw_trip := sw.1, flag := fl.1 } :: ect_parse_ap_thermal_ranges mem n fl.2

/-- Source `ect_parse_ap_thermal_function`.  The result of the `kzalloc` of
`range_list` is not tested: when it is `NULL` and the body has at least one
range, the loop stores the first range through the null pointer and the
function does not return (return value `none`); otherwise it returns 0. -/
def ect_parse_ap_thermal_function (mem : Mem) (_parser_version : Int) (address : Nat)
    (function : ect_ap_thermal_function) (al : Alloc) :
    Option Int × ect_ap_thermal_function × Alloc :=
  let n := ect_parse_integer mem address
  let k := kzalloc al
  if k.1 = false ∧ n.1 ≠ 0 then
    (none, { function with num_of_range := n.1, range_list := [] }, k.2)
  else
    (some 0,
      { function with
        num_of_range := n.1, range_list := ect_parse_ap_thermal_ranges mem n.1 n.2 }, k.2)

/-- A zeroed `struct ect_ap_thermal_function` with name and offset filled in. -/
def ect_ap_thermal_function_named (e : Nat × Nat) : ect_ap_thermal_function :=
  { function_name := e.1, function_offset := e.2, num_of_range := 0, range_list := [] }

/-- Source `ect_parse_margin_domain`. -/
def ect_parse_margin_domain (cfg : ect_config) (mem : Mem) (parser_version : Int)
    (address : Nat) (domain : ect_margin_domain) : Int × ect_margin_domain :=
  let g := ect_parse_integer mem address
  let l := ect_parse_integer mem g.2
  if parser_version ≥ 2 then
    (0, { domain with
          num_of_group := g.1, num_of_level := l.1, offset := none,
          offset_compact := some l.2, volt_step := cfg.PMIC_VOLTAGE_STEP })
  else
    (0, { domain with
          num_of_group := g.1, num_of_level := l.1, offset := some l.2,
          offset_compact := none })

/-- A zeroed `struct ect_margin_domain` with its name and offset filled in. -/
def ect_margin_domain_named (e : Nat × Nat) : ect_margin_domain :=
  { domain_name := e.1, domain_offset := e.2, num_of_group := 0, num_of_level := 0,
    offset := none, offset_compact := none, volt_step := 0 }

/-- Source `ect_parse_minlock_domain`. -/
def ect_parse_minlock_domain (mem : Mem) (_parser_version : Int) (address : Nat)
    (domain : ect_minlock_domain) : Int × ect_minlock_domain :=
  let n := ect_parse_integer mem address
  (0, { domain with num_of_level := n.1, level := some n.2 })

/-- A zeroed `struct ect_minlock_domain` with its name and offset filled in. -/
def ect_minlock_domain_named (e : Nat × Nat) : ect_minlock_domain :=
  { domain_name := e.1, domain_offset := e.2, num_of_level := 0, level := none }

/-- Source `ect_parse_gen_param_table`. -/
def ect_parse_gen_param_table (mem : Mem) (_parser_version : Int) (address : Nat)
    (size : ect_gen_param_table) : Int × ect_gen_param_table :=
  let c := ect_parse_integer mem address
  let r := ect_parse_integer mem c.2
  (0, { size with num_of_col := c.1, num_of_row := r.1, parameter := some r.2 })

/-- A zeroed `struct ect_gen_param_table` with its name and offset filled in. -/
def ect_gen_param_table_named (e : Nat × Nat) : ect_gen_param_table :=
  { table_name := e.1, offset := e.2, num_of_col := 0, num_of_row := 0, parameter := none }

/-- Source `ect_parse_new_timing_param_size`. -/
def ect_parse_new_timing_param_size (mem : Mem) (_parser_version : Int) (address : Nat)
    (size : ect_new_timing_param_size) : Int × ect_new_timing_param_size :=
  let m := ect_parse_integer mem address
  let p := ect_parse_integer mem m.2
  let l := ect_parse_integer mem p.2
  (0, { size with
        mode := m.1, num_of_timing_param := p.1, num_of_level := l.1,
        timing_parameter := some l.2 })

/-- The first loop of `ect_parse_new_timing_param_header`: `count` times a
64-bit key followed by a 32-bit offset. -/
def ect_parse_key_offset_list (mem : Mem) : Nat → Nat → List ect_new_timing_param_size
  | 0, _ => []
  | n + 1, address =>
    let k := ect_parse_integer64 mem address
    let o := ect_parse_integer mem k.2
    { parameter_key := k.1, offset := o.1, mode := 0, num_of_timing_param := 0,
      num_of_level := 0, timing_parameter := none } :: ect_parse_key_offset_list mem n o.2

/-- The common frame of the seven name-indexed header decoders
(`ect_parse_dvfs_header`, `ect_parse_pll_header`, ...): null test, the two
tested allocations with their error codes `e1` and `e2`, the three header
words, the name/offset loop and the body loop; `mk` builds the handle that
is stored in `info->block_handle` on success. -/
def ect_parse_named_header {α : Type} (mem : Mem) (e1 e2 : Int) (named : Nat × Nat → α)
    (body : Int → α → Alloc → Int × α × Alloc)
    (mk : Nat → Nat → Nat → List α → BlockHandle)
    (address : Nat) (info : ect_info) (al : Alloc) : Int × ect_info × Alloc :=
  if address = 0 then (-EINVAL, info, al)
  else
    let k1 := kzalloc al
    if k1.1 = false then (e1, info, k1.2)
    else
      let pv := ect_parse_integer mem address
      let v := ect_parse_integer mem pv.2
      let n := ect_parse_integer mem v.2
      let k2 := kzalloc k1.2
      if k2.1 = false then (e2, info, k2.2)
      else
        let names := ect_parse_name_offset_list mem n.1 n.2
        if names.1 ≠ 0 then (-EINVAL, info, k2.2)
        else
          let bodies := ect_parse_bodies (body (toInt32 pv.1)) (names.2.1.map named) k2.2
          if bodies.1 ≠ 0 then (-EINVAL, info, bodies.2.2)
          else
            (0, { info with block_handle := some (mk pv.1 v.1 n.1 bodies.2.1) }, bodies.2.2)

/-- Source `ect_parse_dvfs_header`. -/
def ect_parse_dvfs_header (cfg : ect_config) (mem : Mem) (address : Nat) (info : ect_info)
    (al : Alloc) : Int × ect_info × Alloc :=
  ect_parse_named_header mem (-ENOMEM) (-EINVAL) ect_dvfs_domain_named
    (fun pv d a => ect_parse_dvfs_domain cfg mem pv (address + d.domain_offset) d a)
    (fun pv v n l => BlockHandle.dvfs
      { parser_version := pv, version := v, num_of_domain := n, domain_list := l })
    address info al

/-- Source `ect_parse_pll_header`. -/
def ect_parse_pll_header (mem : Mem) (address : Nat) (info : ect_info) (al : Alloc) :
    Int × ect_info × Alloc :=
  ect_parse_named_header mem (-ENOMEM) (-ENOMEM) ect_pll_named
    (fun pv p a =>
      let r := ect_parse_pll mem pv (address + p.pll_offset) p
      (r.1, r.2, a))
    (fun pv v n l => BlockHandle.pll
      { parser_version := pv, version := v, num_of_pll := n, pll_list := l })
    address info al

/-- Source `ect_parse_voltage_header`. -/
def ect_parse_voltage_header (cfg : ect_config) (mem : Mem) (address : Nat) (info : ect_info)
    (al : Alloc) : Int × ect_info × Alloc :=
  ect_parse_named_header mem (-EINVAL) (-ENOMEM) ect_voltage_domain_named
    (fun pv d a => ect_parse_voltage_domain cfg mem pv (address + d.domain_offset) d a)
    (fun pv v n l => BlockHandle.voltage
      { parser_version := pv, version := v, num_of_domain := n, domain_list := l })
    address info al

/-- Source `ect_parse_ap_thermal_header`.  Where
`ect_parse_ap_thermal_function` stores through a null `range_list` the
source has no continuation; the decoder ends there as for a failed function
body, so that such a run is never a successful decode. -/
def ect_parse_ap_thermal_header (mem : Mem) (address : Nat) (info : ect_info) (al : Alloc) :
    Int × ect_info × Alloc :=
  ect_parse_named_header mem (-EINVAL) (-ENOMEM) ect_ap_thermal_function_named
    (fun pv f a =>
      let r := ect_parse_ap_thermal_function mem pv (address + f.function_offset) f a
      (r.1.getD (-EINVAL), r.2.1, r.2.2))
    (fun pv v n l => BlockHandle.ap_thermal
      { parser_version := pv, version := v, num_of_function := n, function_list := l })
    address info al

/-- Source `ect_parse_margin_header`. -/
def ect_parse_margin_header (cfg : ect_config) (mem : Mem) (address : Nat) (info : ect_info)
    (al : Alloc) : Int × ect_info × Alloc :=
  ect_parse_named_header mem (-EINVAL) (-ENOMEM) ect_margin_domain_named
    (fun pv d a =>
      let r := ect_parse_margin_domain cfg mem pv (address + d.domain_offset) d
      (r.1, r.2, a))
    (fun pv v n l => BlockHandle.margin
      { parser_version := pv, version := v, num_of_domain := n, domain_list := l })
    address info al

/-- Source `ect_parse_minlock_header`. -/
def ect_parse_minlock_header (mem : Mem) (address : Nat) (info : ect_info) (al : Alloc) :
    Int × ect_info × Alloc :=
  ect_parse_named_header mem (-ENOMEM) (-ENOMEM) ect_minlock_domain_named
    (fun pv d a =>
      let r := ect_parse_minlock_domain mem pv (address + d.domain_offset) d
      (r.1, r.2, a))
    (fun pv v n l => BlockHandle.minlock
      { parser_version := pv, version := v, num_of_domain := n, domain_list := l })
    address info al

/-- Source `ect_parse_gen_param_header`. -/
def ect_parse_gen_param_header (mem : Mem) (address : Nat) (info : ect_info) (al : Alloc) :
    Int × ect_info × Alloc :=
  ect_parse_named_header mem (-ENOMEM) (-ENOMEM) ect_gen_param_table_named
    (fun pv t a =>
      let r := ect_parse_gen_param_table mem pv (address + t.offset) t
      (r.1, r.2, a))
    (fun pv v n l => BlockHandle.gen_param
      { parser_version := pv, version := v, num_of_table := n, table_list := l })
    address info al

/-- Source `ect_parse_new_timing_param_header`. -/
def ect_parse_new_timing_param_header (mem : Mem) (address : Nat) (info : ect_info)
    (al : Alloc) : Int × ect_info × Alloc :=
  if address = 0 then (-EINVAL, info, al)
  else
    let k1 := kzalloc al
    if k1.1 = false then (-ENOMEM, info, k1.2)
    else
      let pv := ect_parse_integer mem address
      let v := ect_parse_integer mem pv.2
      let n := ect_parse_integer mem v.2
      let k2 := kzalloc k1.2
      if k2.1 = false then (-ENOMEM, info, k2.2)
      else
        let bodies := ect_parse_bodies
          (fun s a =>
            let r := ect_parse_new_timing_param_size mem (toInt32 pv.1) (address + s.offset) s
            (r.1, r.2, a))
          (ect_parse_key_offset_list mem n.1 n.2) k2.2
        if bodies.1 ≠ 0 then (-EINVAL, info, bodies.2.2)
        else
          (0, { info with
                block_handle := some (BlockHandle.new_timing_param
                  { parser_version := pv.1, version := v.1, num_of_size := n.1,
                    size_list := bodies.2.1 }) }, bodies.2.2)

/-! ## Registry and directory dispatch -/

/-- Call through the `parser` function pointer of a registry entry. -/
def invoke_decoder (cfg : ect_config) (mem : Mem) : ParserId → Nat → ect_info → Alloc →
    Int × ect_info × Alloc
  | .ap_thermal_header => ect_parse_ap_thermal_header mem
  | .voltage_header => ect_parse_voltage_header cfg mem
  | .dvfs_header => ect_parse_dvfs_header cfg mem
  | .margin_header => ect_parse_margin_header cfg mem
  | .pll_header => ect_parse_pll_header mem
  | .minlock_header => ect_parse_minlock_header mem
  | .gen_param_header => ect_parse_gen_param_header mem
  | .new_timing_param_header => ect_parse_new_timing_param_header mem

/-- One initial registry entry: no handle, precedence `-1`. -/
def ect_info_init (block_name : List Nat) (p : ParserId) : ect_info :=
  { block_name := block_name, block_name_length := block_name.length, parser := p,
    block_handle := none, block_precedence := -1 }

/-- Source `ect_list`, in declaration order, as initialised at load time. -/
def ect_list (cfg : ect_config) : List ect_info :=
  [ ect_info_init cfg.BLOCK_AP_THERMAL .ap_thermal_header,
    ect_info_init cfg.BLOCK_ASV .voltage_header,
    ect_info_init cfg.BLOCK_DVFS .dvfs_header,
    ect_info_init cfg.BLOCK_MARGIN .margin_header,
    ect_info_init cfg.BLOCK_PLL .pll_header,
    ect_info_init cfg.BLOCK_MINLOCK .minlock_header,
    ect_info_init cfg.BLOCK_GEN_PARAM .gen_param_header,
    ect_info_init cfg.BLOCK_NEW_TIMING_PARAM .new_timing_param_header ]

/-- The global state the parser writes: `ect_list` and the `block_handle` of
`ect_header_info`. -/
structure EctState where
  ect_list : List ect_info
  ect_header_info : Option ect_header
  deriving DecidableEq, Repr

/-- The state at load time. -/
def EctState.init (cfg : ect_config) : EctState :=
  { ect_list := Ect.ect_list cfg, ect_header_info := none }

/-- One call through a registry `parser` pointer: directory position `i`,
registry position `j` and the block base that was passed. -/
structure ParserCall where
  i : Nat
  j : Nat
  address : Nat
  deriving DecidableEq, Repr

/-- Outcome of the dispatch loops: return code, registry, remaining
allocation oracle and the decoder calls made, in call order. -/
structure DispatchResult where
  ret : Int
  list : List ect_info
  alloc : Alloc
  calls : List ParserCall
  deriving DecidableEq, Repr

/-- The inner `for (j ...)` loop of `ect_parse_binary_header` for directory
entry `i`, from registry position `j` on. -/
def ect_dispatch (cfg : ect_config) (mem : Mem) (block_name : List Nat) (address : Nat)
    (i : Nat) : Nat → List ect_info → Alloc → DispatchResult
  | _, [], al => { ret := 0, list := [], alloc := al, calls := [] }
  | j, e :: rest, al =>
    if strncmp block_name e.block_name e.block_name_length ≠ 0 then
      let r := ect_dispatch cfg mem block_name address i (j + 1) rest al
      { ret := r.ret, list := e :: r.list, alloc := r.alloc, calls := r.calls }
    else
      let p := invoke_decoder cfg mem e.parser address e al
      if p.1 ≠ 0 then
        { ret := -EINVAL, list := p.2.1 :: rest, alloc := p.2.2,
          calls := [{ i := i, j := j, address := address }] }
      else
        let r := ect_dispatch cfg mem block_name address i (j + 1) rest p.2.2
        { ret := r.ret
          list := { p.2.1 with block_precedence := (i : Int) } :: r.list
          alloc := r.alloc
          calls := { i := i, j := j, address := address } :: r.calls }

/-- The outer `for (i ...)` loop of `ect_parse_binary_header`: `n` directory
entries are left, the next one has position `i` and starts at `address`. -/
def ect_parse_directory (cfg : ect_config) (mem : Mem) (ect_address : Nat) :
    Nat → Nat → Nat → List ect_info → Alloc → DispatchResult
  | 0, _, _, l, al => { ret := 0, list := l, alloc := al, calls := [] }
  | n + 1, i, address, l, al =>
    let s := ect_parse_string mem address
    if s.ret ≠ 0 then { ret := -EINVAL, list := l, alloc := al, calls := [] }
    else
      let o := ect_parse_integer mem s.address
      let d := ect_dispatch cfg mem (cstr mem s.value) (ect_address + o.1) i 0 l al
      if d.ret ≠ 0 then d
      else
        let r := ect_parse_directory cfg mem ect_address n (i + 1) o.2 d.list d.alloc
        { ret := r.ret, list := r.list, alloc := r.alloc, calls := d.calls ++ r.calls }

/-- Source `ect_signature`: the bytes of `"PARA"`. -/
def ect_signature : List Nat := [80, 65, 82, 65]

/-- Outcome of `ect_parse_binary_header`. -/
structure ParseResult where
  ret : Int
  state : EctState
  alloc : Alloc
  calls : List ParserCall
  deriving DecidableEq, Repr

/-- Source `ect_parse_binary_header`, on the memory image `mem` with the
mapped table at `ect_address`, from the global state `st`. -/
def ect_parse_binary_header (cfg : ect_config) (mem : Mem) (ect_address : Nat)
    (st : EctState) (al : Alloc) : ParseResult :=
  if ect_address = 0 then { ret := -EINVAL, state := st, alloc := al, calls := [] }
  else
    let sign := ect_parse_integer mem ect_address
    let version := ect_parse_integer mem sign.2
    let total_size := ect_parse_integer mem version.2
    let num_of_header := ect_parse_integer mem total_size.2
    let hdr : ect_header :=
      { sign := sign.1, version := version.1, total_size := total_size.1,
        num_of_header := num_of_header.1 }
    if word_bytes hdr.sign ≠ ect_signature then
      { ret := -EINVAL, state := st, alloc := al, calls := [] }
    else
      let d := ect_parse_directory cfg mem ect_address hdr.num_of_header 0 num_of_header.2
        st.ect_list al
      if d.ret ≠ 0 then
        { ret := d.ret, state := { st with ect_list := d.list }, alloc := d.alloc,
          calls := d.calls }
      else
        { ret := 0, state := { ect_list := d.list, ect_header_info := some hdr },
          alloc := d.alloc, calls := d.calls }

/-! ## Lookup -/

/-- Source `ect_get_block` over the registry `l`; `none` is `NULL`. -/
def ect_get_block (l : List ect_info) (block_name : List Nat) : Option BlockHandle :=
  match l with
  | [] => none
  | e :: rest =>
    if ect_strcmp block_name e.block_name = 0 then e.block_handle
    else ect_get_block rest block_name

/-- The scan of `ect_pll_get_pll` over the records of a PLL block. -/
def ect_pll_scan (mem : Mem) (pll_name : List Nat) : List ect_pll → Option ect_pll
  | [] => none
  | pll :: rest =>
    if strstr_found pll_name (cstr mem pll.pll_name) then some pll
    else ect_pll_scan mem pll_name rest

/-- Source `ect_pll_get_pll`; `block` is the handle cast to a PLL header and a
`none` argument is a `NULL` pointer. -/
def ect_pll_get_pll (mem : Mem) (block : Option ect_pll_header)
    (pll_name : Option (List Nat)) : Option ect_pll :=
  match block, pll_name with
  | some header, some name => ect_pll_scan mem name (header.pll_list.take header.num_of_pll)
  | _, _ => none

/-- The cast `(struct ect_pll_header *)block` of a registry handle. -/
def BlockHandle.as_pll : Option BlockHandle → Option ect_pll_header
  | some (.pll h) => some h
  | _ => none

/-- Entry `k` of a borrowed `frequency_list`: five consecutive words. -/
def ect_pll_frequency_at (mem : Mem) (frequency_list : Nat) (k : Nat) : ect_pll_frequency :=
  let a := frequency_list + 20 * k
  { frequency := raw_readl mem a, p := raw_readl mem (a + 4), m := raw_readl mem (a + 8),
    s := raw_readl mem (a + 12), k := raw_readl mem (a + 16) }


/-- Every pending allocation succeeds. -/
def AllOk (al : Alloc) : Prop := ∀ b ∈ al, b = true

/-- The handle a decoder publishes when no allocation fails. -/
def block_value (cfg : ect_config) (mem : Mem) (p : ParserId) (address : Nat) :
    Option BlockHandle :=
  (invoke_decoder cfg mem p address (ect_info_init [] p) []).2.1.block_handle

/-- The `strncmp` test of the dispatch loop: registry entry `e` is selected
for the directory name `name`. -/
def ect_match (name : List Nat) (e : ect_info) : Bool :=
  decide (strncmp name e.block_name e.block_name_length = 0)

/-- The directory as the outer loop reads it: `n` entries from `address` on,
each a name and a block offset. -/
def ect_directory (mem : Mem) : Nat → Nat → List (List Nat × Nat)
  | 0, _ => []
  | n + 1, address =>
    let s := ect_parse_string mem address
    let o := ect_parse_integer mem s.address
    (cstr mem s.value, o.1) :: ect_directory mem n o.2

/-- Effect of one successfully dispatched directory entry on one registry
entry. -/
def publish (cfg : ect_config) (mem : Mem) (name : List Nat) (address : Nat) (i : Nat)
    (e : ect_info) : ect_info :=
  if ect_match name e then
    { e with block_handle := block_value cfg mem e.parser address, block_precedence := (i : Int) }
  else e

/-- Effect of a successfully dispatched directory, whose first entry has
position `i`, on one registry entry. -/
def publish_fold (cfg : ect_config) (mem : Mem) (ect_address : Nat) :
    List (List Nat × Nat) → Nat → ect_info → ect_info
  | [], _, e => e
  | d :: rest, i, e =>
    publish_fold cfg mem ect_address rest (i + 1) (publish cfg mem d.1 (ect_address + d.2) i e)

/-- The decoder calls one directory entry causes when every decoder
succeeds: one for each selected registry entry, in registry order. -/
def dispatch_calls (name : List Nat) (address : Nat) (i : Nat) :
    Nat → List ect_info → List ParserCall
  | _, [] => []
  | j, e :: rest =>
    if ect_match name e then
      { i := i, j := j, address := address } :: dispatch_calls name address i (j + 1) rest
    else dispatch_calls name address i (j + 1) rest

/-- The decoder calls a whole directory causes when every decoder succeeds. -/
def directory_calls (ect_address : Nat) :
    List (List Nat × Nat) → Nat → List ect_info → List ParserCall
  | [], _, _ => []
  | d :: rest, i, l =>
    dispatch_calls d.1 (ect_address + d.2) i 0 l ++ directory_calls ect_address rest (i + 1) l

/-- The four bytes at the start of the table, in memory order. -/
def sign_bytes (mem : Mem) (ect_address : Nat) : List Nat :=
  [readb mem ect_address, readb mem (ect_address + 1), readb mem (ect_address + 2),
    readb mem (ect_address + 3)]

/-- The header record `ect_parse_binary_header` builds from the first four
words of the table. -/
def ect_header_at (mem : Mem) (ect_address : Nat) : ect_header :=
  { sign := raw_readl mem ect_address, version := raw_readl mem (ect_address + 4),
    total_size := raw_readl mem (ect_address + 4 + 4),
    num_of_header := raw_readl mem (ect_address + 4 + 4 + 4) }

/-- A 32-bit word as four bytes, low byte first. -/
def le32 (w : Nat) : List Nat := word_bytes w

/-- Block names and constants used in the worked scenarios. -/
def scenario_config : ect_config :=
  { BLOCK_AP_THERMAL := [84, 72, 69, 82, 77, 65, 76]
    BLOCK_ASV := [65, 83, 86]
    BLOCK_DVFS := [68, 86, 70, 83]
    BLOCK_MARGIN := [77, 65, 82, 71, 73, 78]
    BLOCK_PLL := [80, 76, 76]
    BLOCK_MINLOCK := [77, 73, 78, 76, 79, 67, 75]
    BLOCK_GEN_PARAM := [71, 69, 78]
    BLOCK_NEW_TIMING_PARAM := [78, 69, 87, 84, 73, 77, 73, 78, 71]
    e_dvfs_mode_clock_name := 0
    e_dvfs_mode_sfr_address := 1
    PMIC_VOLTAGE_STEP := 6250
    sizeof_ect_dvfs_level := 8 }

/-- The PLL block of the spec's scenario: parser version 1, version "0001",
one PLL "CPU_PLL" of type 0 with the single frequency entry
{1600000, 3, 100, 2, 0}. -/
def scenario_pll_block : List Nat :=
  le32 1 ++ [48, 48, 48, 49] ++ le32 1
  ++ le32 7 ++ [67, 80, 85, 95, 80, 76, 76, 0] ++ le32 28
  ++ le32 0 ++ le32 1
  ++ le32 1600000 ++ le32 3 ++ le32 100 ++ le32 2 ++ le32 0

/-- The blob of the spec's scenario with the stated `total_size` word: magic
"PARA", version "0001", one directory entry "PLL" at offset 28. -/
def scenario_blob (total_size : Nat) : List Nat :=
  [80, 65, 82, 65] ++ [48, 48, 48, 49] ++ le32 total_size ++ le32 1
  ++ le32 3 ++ [80, 76, 76, 0] ++ le32 28
  ++ scenario_pll_block

/-- The scenario blob (total_size 64) mapped at address 16. -/
def scenario_mem : Mem := List.replicate 16 0 ++ scenario_blob 64

/-- The scenario blob with its first signature byte corrupted. -/
def bad_sign_mem : Mem := scenario_mem.set 16 88

/-- The scenario blob with a `total_size` of 16: every block lies beyond it. -/
def small_total_mem : Mem := List.replicate 16 0 ++ scenario_blob 16

instance (al : Alloc) : Decidable (AllOk al) := by
  unfold AllOk
  infer_instance

/-- A table with two directory entries, "PLL" at offset 40 and "GEN" at
offset 96: the scenario's PLL block followed by an empty generic-parameter
block. -/
def two_block_mem : Mem :=
  List.replicate 16 0
  ++ [80, 65, 82, 65] ++ [48, 48, 48, 49] ++ le32 108 ++ le32 2
  ++ le32 3 ++ [80, 76, 76, 0] ++ le32 40
  ++ le32 3 ++ [71, 69, 78, 0] ++ le32 96
  ++ scenario_pll_block
  ++ le32 1 ++ [48, 48, 48, 49] ++ le32 0

/-- A table whose only directory entry is named "GEN_T" and points at an
empty block (offset 32). -/
def gen_t_mem : Mem :=
  List.replicate 16 0
  ++ [80, 65, 82, 65] ++ [48, 48, 48, 49] ++ le32 44 ++ le32 1
  ++ le32 5 ++ [71, 69, 78, 95, 84, 0, 0, 0] ++ le32 32
  ++ le32 1 ++ [48, 48, 48, 49] ++ le32 0

/-- The directory of the table at `ect_address`, as read by the outer loop. -/
def ect_directory_at (mem : Mem) (ect_address : Nat) : List (List Nat × Nat) :=
  ect_directory mem (ect_header_at mem ect_address).num_of_header (ect_address + 4 + 4 + 4 + 4)

/-- The outer loop of `ect_parse_binary_header` over a directory that has
already been read, given as (name, block base) pairs. -/
def run_directory (cfg : ect_config) (mem : Mem) :
    List (List Nat × Nat) → Nat → List ect_info → Alloc → DispatchResult
  | [], _, l, al => { ret := 0, list := l, alloc := al, calls := [] }
  | d :: rest, i, l, al =>
    let r := ect_dispatch cfg mem d.1 d.2 i 0 l al
    if r.ret ≠ 0 then r
    else
      let r1 := run_directory cfg mem rest (i + 1) r.list r.alloc
      { ret := r1.ret, list := r1.list, alloc := r1.alloc, calls := r.calls ++ r1.calls }

/-- The directory of the table at `ect_address` with each offset resolved to
the block base `ect_address + offset`. -/
def ect_blocks_at (mem : Mem) (ect_address : Nat) : List (List Nat × Nat) :=
  (ect_directory_at mem ect_address).map (fun d => (d.1, ect_address + d.2))

/-- A registry entry without its precedence. -/
def ect_info.published (e : ect_info) : List Nat × Nat × ParserId × Option BlockHandle :=
  (e.block_name, e.block_name_length, e.parser, e.block_handle)
/-- Two tables in one image: at address 4 a table with the directory
"XYZ" (known to no decoder), "PLL"; at address 44 a table with the directory
"PLL"; both PLL entries point at the scenario's PLL block at address 72. -/
def two_table_mem : Mem :=
  List.replicate 4 0
  ++ [80, 65, 82, 65] ++ [48, 48, 48, 49] ++ le32 124 ++ le32 2
  ++ le32 3 ++ [88, 89, 90, 0] ++ le32 0
  ++ le32 3 ++ [80, 76, 76, 0] ++ le32 68
  ++ [80, 65, 82, 65] ++ [48, 48, 48, 49] ++ le32 84 ++ le32 1
  ++ le32 3 ++ [80, 76, 76, 0] ++ le32 28
  ++ scenario_pll_block

/-- A table with the "PARA" signature and an empty directory, at address 16. -/
def empty_mem : Mem :=
  List.replicate 16 0 ++ [80, 65, 82, 65] ++ [48, 48, 48, 49] ++ le32 16 ++ le32 0
/-- The registry entry of the PLL block after the scenario table at address
16 has been decoded. -/
def scenario_pll_info : ect_info :=
  { ect_info_init [80, 76, 76] .pll_header with
    block_handle := some (BlockHandle.pll
      { parser_version := 1, version := 825241648, num_of_pll := 1,
        pll_list := [{ pll_name := 60, pll_offset := 28, frequency_list := some 80,
                       type_pll := 0, num_of_frequency := 1 }] })
    block_precedence := 0 }

/-- The record `ect_parse_pll_header` builds for a stored (name pointer,
sub-offset) pair of the block at `address`. -/
def ect_pll_at (mem : Mem) (address : Nat) (p : Nat × Nat) : ect_pll :=
  { pll_name := p.1, pll_offset := p.2, frequency_list := some (address + p.2 + 4 + 4),
    type_pll := raw_readl mem (address + p.2),
    num_of_frequency := raw_readl mem (address + p.2 + 4) }

/-- The PLL block handle published by decoding the scenario table. -/
def scenario_pll_header : ect_pll_header :=
  { parser_version := 1, version := 825241648, num_of_pll := 1,
    pll_list := [{ pll_name := 60, pll_offset := 28, frequency_list := some 80,
                   type_pll := 0, num_of_frequency := 1 }] }

/-! ## Name and key lookups -/

/-- Modelled from the spec: the platform identity `ect_rename` reads, that
is the fields `product_id` and `main_rev` of the global `exynos_soc_info`,
and the constant `EXYNOSAUTOV920_SOC_ID`; both are declared in
`linux/soc/samsung/exynos-soc.h`, which is not among the sources. -/
structure exynos_soc_info where
  product_id : Nat
  main_rev : Nat
  EXYNOSAUTOV920_SOC_ID : Nat
  deriving DecidableEq, Repr

/-- Source `ect_rename`: the string written to `dest`.  The source copies
with `strcpy` and `strcat` without a bound: the string and its terminator
are written whatever the size of the array behind `dest`, which the callers
account for. -/
def ect_rename (soc : exynos_soc_info) (src : List Nat) : List Nat :=
  if soc.product_id = soc.EXYNOSAUTOV920_SOC_ID ∧ soc.main_rev = 0 then src ++ [95, 69, 48]
  else src

/-- The scan loop of the lookups: the first record, in list order, that
passes the test of the loop body; `none` when the loop runs to its end. -/
def ect_scan {α : Type} (test : α → Bool) : List α → Option α
  | [] => none
  | x :: rest => if test x then some x else ect_scan test rest

/-- Result of a function that first copies its query into the local array
`char compare_name[NAME_MAX_LEN]`: `ok r` when the copied string and its
terminator fit the array and the function returns `r`; `overrun` when
`ect_rename` writes past the end of the array, where the source defines no
result. -/
inductive Buffered (α : Type) where
  | ok (r : α)
  | overrun
  deriving DecidableEq, Repr

/-- Source `ect_dvfs_get_domain`; a `none` argument is a `NULL` pointer.  The
null tests and the `strlen(domain_name) >= NAME_MAX_LEN` test come first;
`ect_rename` then writes the renamed string and its terminator, that is
`(ect_rename soc name).length + 1` bytes, into `compare_name[NAME_MAX_LEN]`. -/
def ect_dvfs_get_domain (soc : exynos_soc_info) (mem : Mem) (block : Option ect_dvfs_header)
    (domain_name : Option (List Nat)) : Buffered (Option ect_dvfs_domain) :=
  match block, domain_name with
  | some header, some name =>
    if name.length ≥ NAME_MAX_LEN then .ok none
    else if (ect_rename soc name).length + 1 > NAME_MAX_LEN then .overrun
    else
      .ok (ect_scan
        (fun d => decide (ect_strcmp (ect_rename soc name) (cstr mem d.domain_name) = 0))
        (header.domain_list.take header.num_of_domain))
  | _, _ => .ok none

/-- Source `ect_asv_get_domain`; the same tests and the same copy into
`compare_name[NAME_MAX_LEN]` as `ect_dvfs_get_domain`. -/
def ect_asv_get_domain (soc : exynos_soc_info) (mem : Mem) (block : Option ect_voltage_header)
    (domain_name : Option (List Nat)) : Buffered (Option ect_voltage_domain) :=
  match block, domain_name with
  | some header, some name =>
    if name.length ≥ NAME_MAX_LEN then .ok none
    else if (ect_rename soc name).length + 1 > NAME_MAX_LEN then .overrun
    else
      .ok (ect_scan
        (fun d => decide (ect_strcmp (ect_rename soc name) (cstr mem d.domain_name) = 0))
        (header.domain_list.take header.num_of_domain))
  | _, _ => .ok none

/-- Source `ect_ap_thermal_get_function`. -/
def ect_ap_thermal_get_function (mem : Mem) (block : Option ect_ap_thermal_header)
    (function_name : Option (List Nat)) : Option ect_ap_thermal_function :=
  match block, function_name with
  | some header, some name =>
    ect_scan (fun f => decide (ect_strcmp name (cstr mem f.function_name) = 0))
      (header.function_list.take header.num_of_function)
  | _, _ => none

/-- Source `ect_margin_get_domain`. -/
def ect_margin_get_domain (mem : Mem) (block : Option ect_margin_header)
    (domain_name : Option (List Nat)) : Option ect_margin_domain :=
  match block, domain_name with
  | some header, some name =>
    ect_scan (fun d => decide (ect_strcmp name (cstr mem d.domain_name) = 0))
      (header.domain_list.take header.num_of_domain)
  | _, _ => none

/-- Source `ect_minlock_get_domain`. -/
def ect_minlock_get_domain (mem : Mem) (block : Option ect_minlock_header)
    (domain_name : Option (List Nat)) : Option ect_minlock_domain :=
  match block, domain_name with
  | some header, some name =>
    ect_scan (fun d => decide (ect_strcmp name (cstr mem d.domain_name) = 0))
      (header.domain_list.take header.num_of_domain)
  | _, _ => none

/-- Source `ect_gen_param_get_table`; the source tests only `block` against
`NULL`, the query is a string. -/
def ect_gen_param_get_table (mem : Mem) (block : Option ect_gen_param_header)
    (table_name : List Nat) : Option ect_gen_param_table :=
  match block with
  | some header =>
    ect_scan (fun t => decide (ect_strcmp (cstr mem t.table_name) table_name = 0))
      (header.table_list.take header.num_of_table)
  | none => none

/-- Source `ect_new_timing_param_get_key`; `key` is an `unsigned long long`. -/
def ect_new_timing_param_get_key (block : Option ect_new_timing_param_header) (key : Nat) :
    Option ect_new_timing_param_size :=
  match block with
  | some header =>
    ect_scan (fun s => decide (key = s.parameter_key)) (header.size_list.take header.num_of_size)
  | none => none

/-- A platform that is not the special SoC revision. -/
def plain_soc : exynos_soc_info :=
  { product_id := 1, main_rev := 0, EXYNOSAUTOV920_SOC_ID := 2 }

/-- The special SoC variant at silicon revision 0. -/
def special_soc : exynos_soc_info :=
  { product_id := 2, main_rev := 0, EXYNOSAUTOV920_SOC_ID := 2 }

/-- An image that holds, from address 1 on, the NUL-terminated string of
twenty bytes "A" followed by "_E0", and from address 30 on the string of
twenty bytes "A". -/
def long_name_mem : Mem :=
  [0] ++ List.replicate 20 65 ++ [95, 69, 48, 0] ++ List.replicate 5 0
    ++ List.replicate 20 65 ++ [0]

/-- A DVFS block with a single domain whose name pointer is `name`. -/
def dvfs_block_named (name : Nat) : ect_dvfs_header :=
  { parser_version := 1, version := 0, num_of_domain := 1,
    domain_list := [ect_dvfs_domain_named (name, 0)] }

/-- An image with the strings "CPU" at address 1 and "CPU_E0" at address 5. -/
def short_name_mem : Mem :=
  [0, 67, 80, 85, 0, 67, 80, 85, 95, 69, 48, 0]

/-! ## The format's encoding of the primitives

The parser has no encoder; these three definitions follow the format as the
specification words it and are only used to state the round trip. -/

/-- Encoding of a 32-bit value: four bytes, low byte first. -/
def enc_u32 (v : Nat) : List Nat := le32 v

/-- Encoding of a 64-bit value: the low word, then the high word. -/
def enc_u64 (w : Nat) : List Nat := le32 (w % 4294967296) ++ le32 (w / 4294967296)

/-- Encoding of a string: the length word `|s|`, the bytes of `s`, a
terminator and zero padding up to a 4-byte boundary. -/
def enc_string (s : List Nat) : List Nat :=
  le32 s.length ++ s ++ [0] ++ List.replicate ((4 - (s.length + 1) % 4) % 4) 0

/-! ## Record bodies and cell reads -/

/-- A five-byte image: the length word 100 followed by one byte. -/
def truncated_string_mem : Mem := le32 100 ++ [65]

/-- A DVFS domain body for parser version 3 whose mode word is 2: the
words max 1000, min 100, boot 0, resume 0, mode 2, no clock, no level. -/
def dvfs_mode2_mem : Mem :=
  le32 1000 ++ le32 100 ++ le32 0 ++ le32 0 ++ le32 2 ++ le32 0 ++ le32 0

/-- A DVFS domain body for parser version 3 in clock-name mode: the words
max 1000, min 100, boot 1, resume 2, mode 0, one clock, no level, and the
clock name "M". -/
def dvfs_clock_mem : Mem :=
  le32 1000 ++ le32 100 ++ le32 1 ++ le32 2 ++ le32 0 ++ le32 1 ++ le32 0
  ++ le32 1 ++ [77, 0, 0, 0]

/-- Source `ect_read_value64`: `index` is a C `int` and is doubled in
32-bit arithmetic; the cell is the word pair `address[index]`,
`address[index + 1]` of an `unsigned int` array. -/
def ect_read_value64 (mem : Mem) (address : Nat) (index : Int) : Nat :=
  let index2 : Int := toInt32 (Int.toNat ((index * 2) % 4294967296))
  let half := raw_readl mem (ptr_add address (4 * index2))
  let top := raw_readl mem (ptr_add address (4 * (index2 + 1)))
  (top <<< 32) ||| half

/-- The cell read of `ect_dump_new_timing_parameter` in extended mode: row
`j`, column `k` of the matrix of `size`. -/
def ect_timing_cell64 (mem : Mem) (size : ect_new_timing_param_size) (j k : Nat) : Nat :=
  ect_read_value64 mem (size.timing_parameter.getD 0) (toInt32 (j * size.num_of_timing_param + k))

/-! ## Dump of all blocks -/

/-- One call of a `dump` function pointer by `ect_dump_all`: the header's or
that of registry position `j`. -/
inductive DumpVisit where
  | header
  | block (j : Nat)
  deriving DecidableEq, Repr

/-- The inner loop of `ect_dump_all` for the precedence value `i`: the
registry positions whose `block_precedence` is `i`, in ascending order. -/
def ect_dump_row (l : List ect_info) (i : Nat) : List Nat :=
  (List.range l.length).filter
    (fun j => decide ((l[j]?).map (fun e => e.block_precedence) = some (i : Int)))

/-- The registry positions `ect_dump_all` dumps, in call order: the outer
loop runs `i` over `0 .. ARRAY_SIZE32(ect_list) - 1`. -/
def ect_dump_order (l : List ect_info) : List Nat :=
  (List.range l.length).flatMap (ect_dump_row l)

/-- Source `ect_dump_all` over the registry `l`: return code and the dump
calls made.  Every dump function of the source returns 0, so no call ends
the loops early. -/
def ect_dump_all (l : List ect_info) : Int × List DumpVisit :=
  (0, DumpVisit.header :: (ect_dump_order l).map DumpVisit.block)

/-- A table at address 16 whose directory has nine entries: eight times
"XYZ" (known to no decoder, offset 0) and then "PLL" at offset 124, the
scenario's PLL block. -/
def nine_entry_mem : Mem :=
  List.replicate 16 0
  ++ [80, 65, 82, 65] ++ [48, 48, 48, 49] ++ le32 180 ++ le32 9
  ++ le32 3 ++ [88, 89, 90, 0] ++ le32 0
  ++ le32 3 ++ [88, 89, 90, 0] ++ le32 0
  ++ le32 3 ++ [88, 89, 90, 0] ++ le32 0
  ++ le32 3 ++ [88, 89, 90, 0] ++ le32 0
  ++ le32 3 ++ [88, 89, 90, 0] ++ le32 0
  ++ le32 3 ++ [88, 89, 90, 0] ++ le32 0
  ++ le32 3 ++ [88, 89, 90, 0] ++ le32 0
  ++ le32 3 ++ [88, 89, 90, 0] ++ le32 0
  ++ le32 3 ++ [80, 76, 76, 0] ++ le32 124
  ++ scenario_pll_block

/-! ## Relocation of a block -/

/-- A pointer into the block with base `a`, re-expressed for the base `b`. -/
def rebase (a b p : Nat) : Nat := p - a + b

/-- The bytes `ect_parse_string` advances past the string body, as a
function of the stored length word. -/
def string_advance (n : Nat) : Nat :=
  if (n + 1) % 4294967296 % ALIGNMENT_SIZE ≠ 0 then
    ((n + 1) % 4294967296 + ALIGNMENT_SIZE - (n + 1) % 4294967296 % ALIGNMENT_SIZE) % 4294967296
  else (n + 1) % 4294967296

/-- The (name pointer, sub-offset) pairs of a name-indexed block at
`address`, as its decoder reads them before any record body. -/
def ect_names_at (mem : Mem) (address : Nat) : List (Nat × Nat) :=
  (ect_parse_name_offset_list mem (raw_readl mem (address + 4 + 4)) (address + 4 + 4 + 4)).2.1

def ect_dvfs_domain.relocate (f : Nat → Nat) (d : ect_dvfs_domain) : ect_dvfs_domain :=
  { d with
    domain_name := f d.domain_name
    list_clock := d.list_clock.map (List.map f)
    list_sfr := d.list_sfr.map f
    list_level := d.list_level.map f
    list_dvfs_value := d.list_dvfs_value.map f }

def ect_pll.relocate (f : Nat → Nat) (p : ect_pll) : ect_pll :=
  { p with pll_name := f p.pll_name, frequency_list := p.frequency_list.map f }

def ect_voltage_table.relocate (f : Nat → Nat) (t : ect_voltage_table) : ect_voltage_table :=
  { t with
    level_en := t.level_en.map f
    voltages := t.voltages.map f
    voltages_step := t.voltages_step.map f }

def ect_voltage_domain.relocate (f : Nat → Nat) (d : ect_voltage_domain) :
    ect_voltage_domain :=
  { d with
    domain_name := f d.domain_name
    level_list := d.level_list.map f
    table_list := d.table_list.map (ect_voltage_table.relocate f) }

def ect_ap_thermal_function.relocate (f : Nat → Nat) (x : ect_ap_thermal_function) :
    ect_ap_thermal_function :=
  { x with function_name := f x.function_name }

def ect_margin_domain.relocate (f : Nat → Nat) (d : ect_margin_domain) : ect_margin_domain :=
  { d with
    domain_name := f d.domain_name
    offset := d.offset.map f
    offset_compact := d.offset_compact.map f }

def ect_minlock_domain.relocate (f : Nat → Nat) (d : ect_minlock_domain) : ect_minlock_domain :=
  { d with domain_name := f d.domain_name, level := d.level.map f }

def ect_gen_param_table.relocate (f : Nat → Nat) (t : ect_gen_param_table) :
    ect_gen_param_table :=
  { t with table_name := f t.table_name, parameter := t.parameter.map f }

def ect_new_timing_param_size.relocate (f : Nat → Nat) (s : ect_new_timing_param_size) :
    ect_new_timing_param_size :=
  { s with timing_parameter := s.timing_parameter.map f }

/-- A decoded block with every pointer it holds mapped by `f`; counts,
versions, keys, sub-offsets and decoded values are kept. -/
def BlockHandle.relocate (f : Nat → Nat) : BlockHandle → BlockHandle
  | .dvfs h => .dvfs { h with domain_list := h.domain_list.map (ect_dvfs_domain.relocate f) }
  | .pll h => .pll { h with pll_list := h.pll_list.map (ect_pll.relocate f) }
  | .voltage h =>
    .voltage { h with domain_list := h.domain_list.map (ect_voltage_domain.relocate f) }
  | .ap_thermal h =>
    .ap_thermal
      { h with function_list := h.function_list.map (ect_ap_thermal_function.relocate f) }
  | .margin h => .margin { h with domain_list := h.domain_list.map (ect_margin_domain.relocate f) }
  | .minlock h =>
    .minlock { h with domain_list := h.domain_list.map (ect_minlock_domain.relocate f) }
  | .gen_param h =>
    .gen_param { h with table_list := h.table_list.map (ect_gen_param_table.relocate f) }
  | .new_timing_param h =>
    .new_timing_param
      { h with size_list := h.size_list.map (ect_new_timing_param_size.relocate f) }

/-- No voltage domain of the ASV block at `address` has a data size
`num_of_group * num_of_level` that is negative as a C `int`: the table
cursor never steps backwards. -/
def voltage_sizes_ok (mem : Mem) (address : Nat) : Prop :=
  ∀ e ∈ ect_names_at mem address,
    0 ≤ toInt32 (raw_readl mem (address + e.2) * raw_readl mem (address + e.2 + 4))

instance (mem : Mem) (address : Nat) : Decidable (voltage_sizes_ok mem address) := by
  unfold voltage_sizes_ok
  infer_instance

/-- The block at `address` as the two passes of its decoder build it: the
three header words, then the table of names (or keys) and sub-offsets, and
after that table has been read each record body, decoded at
`address + sub_offset`. -/
def ect_two_pass (cfg : ect_config) (mem : Mem) : ParserId → Nat → BlockHandle
  | .ap_thermal_header, a =>
    .ap_thermal
      { parser_version := raw_readl mem a, version := raw_readl mem (a + 4),
        num_of_function := raw_readl mem (a + 4 + 4),
        function_list := (ect_names_at mem a).map (fun e =>
          (ect_parse_ap_thermal_function mem (toInt32 (raw_readl mem a)) (a + e.2)
            (ect_ap_thermal_function_named e) []).2.1) }
  | .voltage_header, a =>
    .voltage
      { parser_version := raw_readl mem a, version := raw_readl mem (a + 4),
        num_of_domain := raw_readl mem (a + 4 + 4),
        domain_list := (ect_names_at mem a).map (fun e =>
          (ect_parse_voltage_domain cfg mem (toInt32 (raw_readl mem a)) (a + e.2)
            (ect_voltage_domain_named e) []).2.1) }
  | .dvfs_header, a =>
    .dvfs
      { parser_version := raw_readl mem a, version := raw_readl mem (a + 4),
        num_of_domain := raw_readl mem (a + 4 + 4),
        domain_list := (ect_names_at mem a).map (fun e =>
          (ect_parse_dvfs_domain cfg mem (toInt32 (raw_readl mem a)) (a + e.2)
            (ect_dvfs_domain_named e) []).2.1) }
  | .margin_header, a =>
    .margin
      { parser_version := raw_readl mem a, version := raw_readl mem (a + 4),
        num_of_domain := raw_readl mem (a + 4 + 4),
        domain_list := (ect_names_at mem a).map (fun e =>
          (ect_parse_margin_domain cfg mem (toInt32 (raw_readl mem a)) (a + e.2)
            (ect_margin_domain_named e)).2) }
  | .pll_header, a =>
    .pll
      { parser_version := raw_readl mem a, version := raw_readl mem (a + 4),
        num_of_pll := raw_readl mem (a + 4 + 4),
        pll_list := (ect_names_at mem a).map (fun e =>
          (ect_parse_pll mem (toInt32 (raw_readl mem a)) (a + e.2) (ect_pll_named e)).2) }
  | .minlock_header, a =>
    .minlock
      { parser_version := raw_readl mem a, version := raw_readl mem (a + 4),
        num_of_domain := raw_readl mem (a + 4 + 4),
        domain_list := (ect_names_at mem a).map (fun e =>
          (ect_parse_minlock_domain mem (toInt32 (raw_readl mem a)) (a + e.2)
            (ect_minlock_domain_named e)).2) }
  | .gen_param_header, a =>
    .gen_param
      { parser_version := raw_readl mem a, version := raw_readl mem (a + 4),
        num_of_table := raw_readl mem (a + 4 + 4),
        table_list := (ect_names_at mem a).map (fun e =>
          (ect_parse_gen_param_table mem (toInt32 (raw_readl mem a)) (a + e.2)
            (ect_gen_param_table_named e)).2) }
  | .new_timing_param_header, a =>
    .new_timing_param
      { parser_version := raw_readl mem a, version := raw_readl mem (a + 4),
        num_of_size := raw_readl mem (a + 4 + 4),
        size_list :=
          (ect_parse_key_offset_list mem (raw_readl mem (a + 4 + 4)) (a + 4 + 4 + 4)).map
            (fun s =>
              (ect_parse_new_timing_param_size mem (toInt32 (raw_readl mem a)) (a + s.offset)
                s).2) }

/-- An ASV block of parser version 1 with one domain "A" at sub-offset 24:
`num_of_group` is `0xFFFFFFF4`, `num_of_level` 1 and `num_of_table` 2, so
the data size `num_of_group * num_of_level` is `-12` as a C `int`; one level
word and the `table_version` 7 of the first table follow. -/
def asv_backward_block : List Nat :=
  le32 1 ++ [48, 48, 48, 49] ++ le32 1
  ++ le32 1 ++ [65, 0, 0, 0] ++ le32 24
  ++ le32 4294967284 ++ le32 1 ++ le32 2
  ++ le32 0
  ++ le32 7

/-- The block `asv_backward_block` at address 64, preceded by the word 1. -/
def asv_backward_mem_a : Mem := List.replicate 60 0 ++ le32 1 ++ asv_backward_block

/-- The block `asv_backward_block` at address 68, preceded by the word 2. -/
def asv_backward_mem_b : Mem := List.replicate 64 0 ++ le32 2 ++ asv_backward_block

/-! ## Matrices and table layout -/

/-- The cell read of `ect_dump_gen_parameter`,
`table->parameter[j * table->num_of_col + k]`: the index is computed in
unsigned 32-bit arithmetic and selects a word of the borrowed matrix. -/
def ect_gen_param_cell (mem : Mem) (table : ect_gen_param_table) (j k : Nat) : Nat :=
  raw_readl mem (table.parameter.getD 0 + 4 * ((j * table.num_of_col + k) % 4294967296))

/-- The bytes one voltage table occupies by the layout of the format: the
`table_version` word, from parser version 2 on the boot and resume words and
`num_of_level` mask words, and the matrix of `num_of_group * num_of_level`
cells, one byte each from parser version 3 on and four bytes each before. -/
def voltage_table_size (parser_version : Int) (num_of_group num_of_level : Nat) : Nat :=
  4 + (if parser_version ≥ 2 then 8 + 4 * num_of_level else 0)
    + (if parser_version ≥ 3 then num_of_group * num_of_level
       else 4 * (num_of_group * num_of_level))

/-- A voltage domain body with `num_of_group` = `num_of_level` = 65536 and
two tables: the product of the two counts is `2 ^ 32`. -/
def wide_domain_mem : Mem := le32 65536 ++ le32 65536 ++ le32 2

/-- A voltage domain body of parser version 3 with one group, one level and
two tables: the level word 500, then the tables (version 7, cell 11) and
(version 9, cell 12), each five bytes long. -/
def byte_matrix_mem : Mem :=
  le32 1 ++ le32 1 ++ le32 2 ++ le32 500
  ++ le32 7 ++ le32 0 ++ le32 0 ++ le32 1 ++ [11]
  ++ le32 9 ++ le32 0 ++ le32 0 ++ le32 1 ++ [12]

/-! ## The lookup interface on a platform -/

/-- One call of the lookup interface with its arguments. -/
inductive EctLookup where
  | dvfs_get_domain (block : Option ect_dvfs_header) (domain_name : Option (List Nat))
  | pll_get_pll (block : Option ect_pll_header) (pll_name : Option (List Nat))
  | asv_get_domain (block : Option ect_voltage_header) (domain_name : Option (List Nat))
  | ap_thermal_get_function (block : Option ect_ap_thermal_header)
      (function_name : Option (List Nat))
  | margin_get_domain (block : Option ect_margin_header) (domain_name : Option (List Nat))
  | minlock_get_domain (block : Option ect_minlock_header) (domain_name : Option (List Nat))
  | gen_param_get_table (block : Option ect_gen_param_header) (table_name : List Nat)
  | new_timing_param_get_key (block : Option ect_new_timing_param_header) (key : Nat)

/-- The outcome of a lookup call; `none` is `NULL`. -/
inductive EctFound where
  | dvfs_domain (r : Buffered (Option ect_dvfs_domain))
  | pll (r : Option ect_pll)
  | voltage_domain (r : Buffered (Option ect_voltage_domain))
  | ap_thermal_function (r : Option ect_ap_thermal_function)
  | margin_domain (r : Option ect_margin_domain)
  | minlock_domain (r : Option ect_minlock_domain)
  | gen_param_table (r : Option ect_gen_param_table)
  | new_timing_param_size (r : Option ect_new_timing_param_size)
  deriving DecidableEq

/-- A lookup call run while the global `exynos_soc_info` holds `soc`. -/
def ect_lookup (soc : exynos_soc_info) (mem : Mem) : EctLookup → EctFound
  | .dvfs_get_domain b n => .dvfs_domain (ect_dvfs_get_domain soc mem b n)
  | .pll_get_pll b n => .pll (ect_pll_get_pll mem b n)
  | .asv_get_domain b n => .voltage_domain (ect_asv_get_domain soc mem b n)
  | .ap_thermal_get_function b n => .ap_thermal_function (ect_ap_thermal_get_function mem b n)
  | .margin_get_domain b n => .margin_domain (ect_margin_get_domain mem b n)
  | .minlock_get_domain b n => .minlock_domain (ect_minlock_get_domain mem b n)
  | .gen_param_get_table b n => .gen_param_table (ect_gen_param_get_table mem b n)
  | .new_timing_param_get_key b k => .new_timing_param_size (ect_new_timing_param_get_key b k)

/-- The calls whose function passes the query through `ect_rename`. -/
def EctLookup.renames : EctLookup → Bool
  | .dvfs_get_domain _ _ => true
  | .asv_get_domain _ _ => true
  | _ => false

/-- A margin block with a single domain whose name pointer is `name`. -/
def margin_block_named (name : Nat) : ect_margin_header :=
  { parser_version := 1, version := 0, num_of_domain := 1,
    domain_list := [ect_margin_domain_named (name, 0)] }

/-- A table at address 16 with two directory entries named "PLL": the first
at offset 40, the scenario's PLL block, the second at offset 96, a PLL block
of parser version 1 without any PLL. -/
def twice_pll_mem : Mem :=
  List.replicate 16 0
  ++ [80, 65, 82, 65] ++ [48, 48, 48, 49] ++ le32 108 ++ le32 2
  ++ le32 3 ++ [80, 76, 76, 0] ++ le32 40
  ++ le32 3 ++ [80, 76, 76, 0] ++ le32 96
  ++ scenario_pll_block
  ++ le32 1 ++ [48, 48, 48, 49] ++ le32 0

/-- The invariants of the source's registry table that the dispatch relies
on: each `block_name_length` is the length of the entry's name
(`sizeof(name) - 1`), no name holds a NUL byte, and no entry's name is a
prefix of another entry's name (so no two entries share a name either). -/
def registry_names_apart (l : List ect_info) : Prop :=
  (∀ e ∈ l, e.block_name_length = e.block_name.length ∧ ∀ b ∈ e.block_name, b ≠ 0)
    ∧ l.Pairwise
        (fun x y => ¬ x.block_name <+: y.block_name ∧ ¬ y.block_name <+: x.block_name)

instance (l : List ect_info) : Decidable (registry_names_apart l) := by
  unfold registry_names_apart
  infer_instance

theorem kzalloc_allok {al : Alloc} (h : AllOk al) :
    (kzalloc al).1 = true ∧ AllOk (kzalloc al).2 := by
  cases al with
  | nil => exact ⟨rfl, h⟩
  | cons b rest =>
    refine ⟨h b (List.mem_cons_self _ _), fun c hc => h c (List.mem_cons_of_mem _ hc)⟩

theorem allok_nil : AllOk [] := fun _ h => absurd h (List.not_mem_nil _)

theorem name_offset_list_ret (mem : Mem) (n address : Nat) :
    (ect_parse_name_offset_list mem n address).1 = 0 := by
  induction n generalizing address with
  | zero => rfl
  | succ n ih => simp [ect_parse_name_offset_list, ect_parse_string, ih]

theorem clock_names_ret (mem : Mem) (n address : Nat) :
    (ect_parse_clock_names mem n address).1 = 0 := by
  induction n generalizing address with
  | zero => rfl
  | succ n ih => simp [ect_parse_clock_names, ect_parse_string, ih]

theorem voltage_tables_ret (cfg : ect_config) (mem : Mem) (pv : Int) (d : ect_voltage_domain)
    (n address : Nat) : (ect_parse_voltage_tables cfg mem pv d n address).1 = 0 := by
  induction n generalizing address with
  | zero => rfl
  | succ n ih =>
    have h : (ect_parse_voltage_table cfg mem pv address d ect_voltage_table_zero).1 = 0 := by
      unfold ect_parse_voltage_table
      dsimp only
      split_ifs <;> rfl
    simp [ect_parse_voltage_tables, h, ih]

theorem bodies_ok {α : Type} (f : α → Alloc → Int × α × Alloc)
    (hf : ∀ x al, AllOk al → (f x al).1 = 0 ∧ AllOk (f x al).2.2) (xs : List α) (al : Alloc)
    (h : AllOk al) :
    (ect_parse_bodies f xs al).1 = 0 ∧ AllOk (ect_parse_bodies f xs al).2.2 := by
  induction xs generalizing al with
  | nil => exact ⟨rfl, h⟩
  | cons x xs ih =>
    have h1 := hf x al h
    simp only [ect_parse_bodies, h1.1, ne_eq, not_true_eq_false, if_false]
    exact ih _ h1.2

theorem bodies_val {α : Type} (f : α → Alloc → Int × α × Alloc) (g : α → α)
    (hf : ∀ x al, (f x al).1 = 0 → (f x al).2.1 = g x) (xs : List α) (al : Alloc)
    (h : (ect_parse_bodies f xs al).1 = 0) :
    (ect_parse_bodies f xs al).2.1 = xs.map g := by
  induction xs generalizing al with
  | nil => rfl
  | cons x xs ih =>
    by_cases h1 : (f x al).1 = 0
    · simp only [ect_parse_bodies, h1, ne_eq, not_true_eq_false, if_false] at h ⊢
      rw [ih _ h, hf x al h1]; rfl
    · simp [ect_parse_bodies, h1, EINVAL] at h


section NamedHeader

variable {α : Type} (mem : Mem) (e1 e2 : Int) (named : Nat × Nat → α)
  (body : Int → α → Alloc → Int × α × Alloc) (mk : Nat → Nat → Nat → List α → BlockHandle)
  (address : Nat)

theorem named_header_fail (e : ect_info) (al : Alloc)
    (h : (ect_parse_named_header mem e1 e2 named body mk address e al).1 ≠ 0) :
    (ect_parse_named_header mem e1 e2 named body mk address e al).2.1 = e := by
  revert h
  unfold ect_parse_named_header
  dsimp only
  split_ifs <;> simp

theorem named_header_info (e e' : ect_info) (al : Alloc) :
    (ect_parse_named_header mem e1 e2 named body mk address e al).1
        = (ect_parse_named_header mem e1 e2 named body mk address e' al).1
      ∧ (ect_parse_named_header mem e1 e2 named body mk address e al).2.2
        = (ect_parse_named_header mem e1 e2 named body mk address e' al).2.2 := by
  unfold ect_parse_named_header
  dsimp only
  split_ifs <;> simp

theorem named_header_allok
    (hB : ∀ pv x al, AllOk al → (body pv x al).1 = 0 ∧ AllOk (body pv x al).2.2)
    (ha : address ≠ 0) (e : ect_info) (al : Alloc) (hal : AllOk al) :
    (ect_parse_named_header mem e1 e2 named body mk address e al).1 = 0
      ∧ AllOk (ect_parse_named_header mem e1 e2 named body mk address e al).2.2 := by
  have k1 := kzalloc_allok hal
  have k2 := kzalloc_allok k1.2
  have hb := bodies_ok (body (toInt32 (ect_parse_integer mem address).1)) (hB _)
    ((ect_parse_name_offset_list mem
      (ect_parse_integer mem (ect_parse_integer mem (ect_parse_integer mem address).2).2).1
      (ect_parse_integer mem (ect_parse_integer mem (ect_parse_integer mem address).2).2).2).2.1.map
        named) _ k2.2
  unfold ect_parse_named_header
  dsimp only
  simp only [ha, k1.1, k2.1, name_offset_list_ret, hb.1, if_false, ne_eq, not_true_eq_false,
    Bool.true_eq_false]
  exact ⟨trivial, hb.2⟩

theorem named_header_nil
    (hB : ∀ pv x al, AllOk al → (body pv x al).1 = 0 ∧ AllOk (body pv x al).2.2)
    (hV : ∀ pv x al, (body pv x al).1 = 0 → (body pv x al).2.1 = (body pv x []).2.1)
    (ha : address ≠ 0) (e0 : ect_info) :
    (ect_parse_named_header mem e1 e2 named body mk address e0 []).2.1.block_handle
      = some (mk (ect_parse_integer mem address).1
          (ect_parse_integer mem (ect_parse_integer mem address).2).1
          (ect_parse_integer mem (ect_parse_integer mem (ect_parse_integer mem address).2).2).1
          (((ect_parse_name_offset_list mem
            (ect_parse_integer mem (ect_parse_integer mem (ect_parse_integer mem address).2).2).1
            (ect_parse_integer mem
              (ect_parse_integer mem (ect_parse_integer mem address).2).2).2).2.1.map named).map
            (fun x => (body (toInt32 (ect_parse_integer mem address).1) x []).2.1))) := by
  have hb0 := bodies_ok (body (toInt32 (ect_parse_integer mem address).1)) (hB _)
    ((ect_parse_name_offset_list mem
      (ect_parse_integer mem (ect_parse_integer mem (ect_parse_integer mem address).2).2).1
      (ect_parse_integer mem (ect_parse_integer mem (ect_parse_integer mem address).2).2).2).2.1.map
        named) [] allok_nil
  have hv0 := bodies_val (body (toInt32 (ect_parse_integer mem address).1))
    (fun x => (body (toInt32 (ect_parse_integer mem address).1) x []).2.1) (hV _) _ _ hb0.1
  unfold ect_parse_named_header
  dsimp only
  simp only [ha, kzalloc, name_offset_list_ret, hb0.1, hv0, if_false, ne_eq, not_true_eq_false,
    Bool.true_eq_false]

theorem named_header_value (he1 : e1 ≠ 0) (he2 : e2 ≠ 0)
    (hB : ∀ pv x al, AllOk al → (body pv x al).1 = 0 ∧ AllOk (body pv x al).2.2)
    (hV : ∀ pv x al, (body pv x al).1 = 0 → (body pv x al).2.1 = (body pv x []).2.1)
    (e e0 : ect_info) (al : Alloc)
    (h : (ect_parse_named_header mem e1 e2 named body mk address e al).1 = 0) :
    (ect_parse_named_header mem e1 e2 named body mk address e al).2.1
      = { e with block_handle :=
            (ect_parse_named_header mem e1 e2 named body mk address e0 []).2.1.block_handle } := by
  by_cases ha : address = 0
  · simp [ect_parse_named_header, ha, EINVAL] at h
  · rw [named_header_nil mem e1 e2 named body mk address hB hV ha e0]
    revert h
    unfold ect_parse_named_header
    dsimp only
    rw [if_neg ha]
    cases hk1 : (kzalloc al).1 with
    | false => simp [he1]
    | true =>
      rw [if_neg (by simp)]
      cases hk2 : (kzalloc (kzalloc al).2).1 with
      | false => simp [he2]
      | true =>
        rw [if_neg (by simp), if_neg (by simp [name_offset_list_ret])]
        split_ifs with hb
        · simp [EINVAL]
        · intro _
          have hb' := not_not.mp hb
          have hv := bodies_val (body (toInt32 (ect_parse_integer mem address).1))
            (fun x => (body (toInt32 (ect_parse_integer mem address).1) x []).2.1) (hV _) _ _ hb'
          simp [hv]

end NamedHeader


theorem dvfs_domain_allok (cfg : ect_config) (mem : Mem) (pv : Int) (a : Nat)
    (d : ect_dvfs_domain) (al : Alloc) (h : AllOk al) :
    (ect_parse_dvfs_domain cfg mem pv a d al).1 = 0
      ∧ AllOk (ect_parse_dvfs_domain cfg mem pv a d al).2.2 := by
  have k := kzalloc_allok h
  unfold ect_parse_dvfs_domain
  dsimp only
  split_ifs <;> simp_all [clock_names_ret]

theorem dvfs_domain_value (cfg : ect_config) (mem : Mem) (pv : Int) (a : Nat)
    (d : ect_dvfs_domain) (al : Alloc) (h : (ect_parse_dvfs_domain cfg mem pv a d al).1 = 0) :
    (ect_parse_dvfs_domain cfg mem pv a d al).2.1
      = (ect_parse_dvfs_domain cfg mem pv a d []).2.1 := by
  revert h
  unfold ect_parse_dvfs_domain
  dsimp only
  split_ifs <;> simp_all [clock_names_ret, kzalloc, ENOMEM, EINVAL]

theorem voltage_domain_allok (cfg : ect_config) (mem : Mem) (pv : Int) (a : Nat)
    (d : ect_voltage_domain) (al : Alloc) (h : AllOk al) :
    (ect_parse_voltage_domain cfg mem pv a d al).1 = 0
      ∧ AllOk (ect_parse_voltage_domain cfg mem pv a d al).2.2 := by
  have k := kzalloc_allok h
  unfold ect_parse_voltage_domain
  dsimp only
  split_ifs <;> simp_all [voltage_tables_ret]

theorem voltage_domain_value (cfg : ect_config) (mem : Mem) (pv : Int) (a : Nat)
    (d : ect_voltage_domain) (al : Alloc)
    (h : (ect_parse_voltage_domain cfg mem pv a d al).1 = 0) :
    (ect_parse_voltage_domain cfg mem pv a d al).2.1
      = (ect_parse_voltage_domain cfg mem pv a d []).2.1 := by
  revert h
  unfold ect_parse_voltage_domain
  dsimp only
  split_ifs <;> simp_all [voltage_tables_ret, kzalloc, ENOMEM, EINVAL]

theorem margin_domain_ret (cfg : ect_config) (mem : Mem) (pv : Int) (a : Nat)
    (d : ect_margin_domain) : (ect_parse_margin_domain cfg mem pv a d).1 = 0 := by
  unfold ect_parse_margin_domain
  dsimp only
  split_ifs <;> rfl


theorem ap_thermal_allok (mem : Mem) (pv : Int) (a : Nat) (x : ect_ap_thermal_function)
    (al : Alloc) (h : AllOk al) :
    (ect_parse_ap_thermal_function mem pv a x al).1 = some 0
      ∧ AllOk (ect_parse_ap_thermal_function mem pv a x al).2.2 := by
  have k := kzalloc_allok h
  simp only [ect_parse_ap_thermal_function, k.1, Bool.true_eq_false, false_and, if_false]
  exact ⟨trivial, k.2⟩

theorem ap_thermal_value (mem : Mem) (pv : Int) (a : Nat) (x : ect_ap_thermal_function)
    (al : Alloc) (h : (ect_parse_ap_thermal_function mem pv a x al).1.getD (-EINVAL) = 0) :
    (ect_parse_ap_thermal_function mem pv a x al).2.1
      = (ect_parse_ap_thermal_function mem pv a x []).2.1 := by
  revert h
  simp only [ect_parse_ap_thermal_function, kzalloc, Bool.true_eq_false, false_and, if_false]
  split_ifs
  · intro h
    simp [EINVAL] at h
  · intro _
    rfl

theorem key_bodies_ret (mem : Mem) (pv : Int) (address : Nat)
    (xs : List ect_new_timing_param_size) (al : Alloc) :
    (ect_parse_bodies (fun s a =>
        ((ect_parse_new_timing_param_size mem pv (address + s.offset) s).1,
          (ect_parse_new_timing_param_size mem pv (address + s.offset) s).2, a)) xs al).1 = 0
    ∧ (ect_parse_bodies (fun s a =>
        ((ect_parse_new_timing_param_size mem pv (address + s.offset) s).1,
          (ect_parse_new_timing_param_size mem pv (address + s.offset) s).2, a)) xs al).2.1
      = xs.map (fun s => (ect_parse_new_timing_param_size mem pv (address + s.offset) s).2)
    ∧ (ect_parse_bodies (fun s a =>
        ((ect_parse_new_timing_param_size mem pv (address + s.offset) s).1,
          (ect_parse_new_timing_param_size mem pv (address + s.offset) s).2, a)) xs al).2.2 = al := by
  induction xs with
  | nil => exact ⟨rfl, rfl, rfl⟩
  | cons x xs ih =>
    simp only [ect_parse_bodies, ect_parse_new_timing_param_size, ne_eq, not_true_eq_false,
      if_false, List.map_cons] at ih ⊢
    exact ⟨ih.1, by rw [ih.2.1], ih.2.2⟩

theorem invoke_decoder_fail (cfg : ect_config) (mem : Mem) (p : ParserId) (address : Nat)
    (e : ect_info) (al : Alloc) (h : (invoke_decoder cfg mem p address e al).1 ≠ 0) :
    (invoke_decoder cfg mem p address e al).2.1 = e := by
  cases p
  case new_timing_param_header =>
    revert h
    simp only [invoke_decoder, ect_parse_new_timing_param_header]
    split_ifs <;> simp
  all_goals
    simp only [invoke_decoder, ect_parse_dvfs_header, ect_parse_pll_header, ect_parse_voltage_header,
      ect_parse_ap_thermal_header, ect_parse_margin_header, ect_parse_minlock_header,
      ect_parse_gen_param_header] at h ⊢
    exact named_header_fail _ _ _ _ _ _ _ e al h

theorem invoke_decoder_info (cfg : ect_config) (mem : Mem) (p : ParserId) (address : Nat)
    (e e' : ect_info) (al : Alloc) :
    (invoke_decoder cfg mem p address e al).1 = (invoke_decoder cfg mem p address e' al).1
      ∧ (invoke_decoder cfg mem p address e al).2.2 = (invoke_decoder cfg mem p address e' al).2.2 := by
  cases p
  case new_timing_param_header =>
    simp only [invoke_decoder, ect_parse_new_timing_param_header]
    split_ifs <;> simp
  all_goals
    simp only [invoke_decoder, ect_parse_dvfs_header, ect_parse_pll_header, ect_parse_voltage_header,
      ect_parse_ap_thermal_header, ect_parse_margin_header, ect_parse_minlock_header,
      ect_parse_gen_param_header]
    exact named_header_info _ _ _ _ _ _ _ e e' al

theorem invoke_decoder_allok (cfg : ect_config) (mem : Mem) (p : ParserId) (address : Nat)
    (ha : address ≠ 0) (e : ect_info) (al : Alloc) (hal : AllOk al) :
    (invoke_decoder cfg mem p address e al).1 = 0
      ∧ AllOk (invoke_decoder cfg mem p address e al).2.2 := by
  cases p
  case new_timing_param_header =>
    have k1 := kzalloc_allok hal
    have k2 := kzalloc_allok k1.2
    simp only [invoke_decoder, ect_parse_new_timing_param_header, ha, k1.1, k2.1, if_false,
      Bool.true_eq_false, (key_bodies_ret mem _ address _ _).1, (key_bodies_ret mem _ address _ _).2.2,
      ne_eq, not_true_eq_false]
    exact ⟨trivial, k2.2⟩
  case dvfs_header =>
    simp only [invoke_decoder, ect_parse_dvfs_header]
    exact named_header_allok _ _ _ _ _ _ _
      (fun pv x al h => dvfs_domain_allok cfg mem pv _ x al h) ha e al hal
  case voltage_header =>
    simp only [invoke_decoder, ect_parse_voltage_header]
    exact named_header_allok _ _ _ _ _ _ _
      (fun pv x al h => voltage_domain_allok cfg mem pv _ x al h) ha e al hal
  case margin_header =>
    simp only [invoke_decoder, ect_parse_margin_header]
    exact named_header_allok _ _ _ _ _ _ _
      (fun pv x al h => ⟨margin_domain_ret cfg mem pv _ x, h⟩) ha e al hal
  case ap_thermal_header =>
    simp only [invoke_decoder, ect_parse_ap_thermal_header]
    exact named_header_allok _ _ _ _ _ _ _
      (fun pv x al h =>
        ⟨by rw [(ap_thermal_allok mem pv _ x al h).1]; rfl, (ap_thermal_allok mem pv _ x al h).2⟩)
      ha e al hal
  all_goals
    simp only [invoke_decoder, ect_parse_pll_header,
      ect_parse_minlock_header, ect_parse_gen_param_header]
    exact named_header_allok _ _ _ _ _ _ _ (fun pv x al h => ⟨rfl, h⟩) ha e al hal

theorem neg_enomem_ne : -ENOMEM ≠ 0 := by decide

theorem neg_einval_ne : -EINVAL ≠ 0 := by decide

theorem invoke_decoder_value (cfg : ect_config) (mem : Mem) (p : ParserId) (address : Nat)
    (e : ect_info) (al : Alloc) (h : (invoke_decoder cfg mem p address e al).1 = 0) :
    (invoke_decoder cfg mem p address e al).2.1
      = { e with block_handle := block_value cfg mem p address } := by
  unfold block_value
  cases p
  case new_timing_param_header =>
    by_cases ha : address = 0
    · simp [invoke_decoder, ect_parse_new_timing_param_header, ha, EINVAL] at h
    · have h0 : (ect_parse_new_timing_param_header mem address
          (ect_info_init [] .new_timing_param_header) []).2.1.block_handle
          = some (BlockHandle.new_timing_param
              { parser_version := (ect_parse_integer mem address).1
                version := (ect_parse_integer mem (ect_parse_integer mem address).2).1
                num_of_size :=
                  (ect_parse_integer mem (ect_parse_integer mem (ect_parse_integer mem address).2).2).1
                size_list := (ect_parse_key_offset_list mem
                  (ect_parse_integer mem (ect_parse_integer mem (ect_parse_integer mem address).2).2).1
                  (ect_parse_integer mem
                    (ect_parse_integer mem (ect_parse_integer mem address).2).2).2).map
                  (fun s => (ect_parse_new_timing_param_size mem
                    (toInt32 (ect_parse_integer mem address).1) (address + s.offset) s).2) }) := by
        simp only [ect_parse_new_timing_param_header, kzalloc, ha, if_false,
          (key_bodies_ret mem _ address _ _).1, (key_bodies_ret mem _ address _ _).2.1,
          Bool.true_eq_false, ne_eq, not_true_eq_false]
      simp only [invoke_decoder] at h ⊢
      rw [h0]
      revert h
      simp only [ect_parse_new_timing_param_header, ha, if_false,
        (key_bodies_ret mem _ address _ _).1, (key_bodies_ret mem _ address _ _).2.1,
        ne_eq, not_true_eq_false]
      cases hk1 : (kzalloc al).1 with
      | false => simp [ENOMEM]
      | true =>
        cases hk2 : (kzalloc (kzalloc al).2).1 with
        | false => simp [ENOMEM]
        | true => simp
  case dvfs_header =>
    simp only [invoke_decoder, ect_parse_dvfs_header] at h ⊢
    refine named_header_value _ _ _ _ _ _ _ ?_ ?_ ?_ ?_ e _ al h
    · exact neg_enomem_ne
    · exact neg_einval_ne
    · exact fun pv x al h => dvfs_domain_allok cfg mem pv _ x al h
    · exact fun pv x al h => dvfs_domain_value cfg mem pv _ x al h
  case voltage_header =>
    simp only [invoke_decoder, ect_parse_voltage_header] at h ⊢
    refine named_header_value _ _ _ _ _ _ _ ?_ ?_ ?_ ?_ e _ al h
    · exact neg_einval_ne
    · exact neg_enomem_ne
    · exact fun pv x al h => voltage_domain_allok cfg mem pv _ x al h
    · exact fun pv x al h => voltage_domain_value cfg mem pv _ x al h
  case margin_header =>
    simp only [invoke_decoder, ect_parse_margin_header] at h ⊢
    refine named_header_value _ _ _ _ _ _ _ ?_ ?_ ?_ ?_ e _ al h
    · exact neg_einval_ne
    · exact neg_enomem_ne
    · exact fun pv x al h => ⟨margin_domain_ret cfg mem pv _ x, h⟩
    · exact fun _ _ _ _ => rfl
  case ap_thermal_header =>
    simp only [invoke_decoder, ect_parse_ap_thermal_header] at h ⊢
    refine named_header_value _ _ _ _ _ _ _ ?_ ?_ ?_ ?_ e _ al h
    · exact neg_einval_ne
    · exact neg_enomem_ne
    · exact fun pv x al h =>
        ⟨by rw [(ap_thermal_allok mem pv _ x al h).1]; rfl, (ap_thermal_allok mem pv _ x al h).2⟩
    · exact fun pv x al h => ap_thermal_value mem pv _ x al h
  all_goals
    simp only [invoke_decoder, ect_parse_pll_header,
      ect_parse_minlock_header, ect_parse_gen_param_header] at h ⊢
    refine named_header_value _ _ _ _ _ _ _ ?_ ?_ ?_ ?_ e _ al h
    · exact neg_enomem_ne
    · exact neg_enomem_ne
    · exact fun pv x al h => ⟨rfl, h⟩
    · exact fun _ _ _ _ => rfl


/-! ## The dispatch loops -/

theorem publish_name (cfg : ect_config) (mem : Mem) (name : List Nat) (address i : Nat)
    (e : ect_info) :
    (publish cfg mem name address i e).block_name = e.block_name
      ∧ (publish cfg mem name address i e).block_name_length = e.block_name_length
      ∧ (publish cfg mem name address i e).parser = e.parser := by
  unfold publish
  split <;> exact ⟨rfl, rfl, rfl⟩

theorem match_publish (cfg : ect_config) (mem : Mem) (name name' : List Nat) (address i : Nat)
    (e : ect_info) : ect_match name' (publish cfg mem name address i e) = ect_match name' e := by
  have h := publish_name cfg mem name address i e
  simp only [ect_match, h.1, h.2.1]

theorem dispatch_ret (cfg : ect_config) (mem : Mem) (name : List Nat) (address i j : Nat)
    (l : List ect_info) (al : Alloc) :
    (ect_dispatch cfg mem name address i j l al).ret = 0
      ∨ (ect_dispatch cfg mem name address i j l al).ret = -EINVAL := by
  induction l generalizing j al with
  | nil => exact Or.inl rfl
  | cons e rest ih =>
    simp only [ect_dispatch]
    split_ifs
    · exact ih _ _
    · exact Or.inr rfl
    · exact ih _ _

theorem dispatch_ok (cfg : ect_config) (mem : Mem) (name : List Nat) (address i j : Nat)
    (l : List ect_info) (al : Alloc)
    (h : (ect_dispatch cfg mem name address i j l al).ret = 0) :
    (ect_dispatch cfg mem name address i j l al).list = l.map (publish cfg mem name address i)
      ∧ (ect_dispatch cfg mem name address i j l al).calls
          = dispatch_calls name address i j l := by
  induction l generalizing j al with
  | nil => exact ⟨rfl, rfl⟩
  | cons e rest ih =>
    revert h
    simp only [ect_dispatch, List.map_cons, dispatch_calls, publish, ect_match]
    by_cases hm : strncmp name e.block_name e.block_name_length = 0
    · simp only [hm, ne_eq, not_true_eq_false, if_false, decide_True, if_true]
      by_cases hp : (invoke_decoder cfg mem e.parser address e al).1 = 0
      · simp only [hp, not_true_eq_false, if_false]
        intro h
        have := ih (j + 1) _ h
        rw [this.1, this.2, invoke_decoder_value cfg mem e.parser address e al hp]
        exact ⟨rfl, rfl⟩
      · simp [hp, EINVAL]
    · simp only [hm, ne_eq, not_false_eq_true, if_true, decide_False, if_false]
      intro h
      have := ih (j + 1) _ h
      rw [this.1, this.2]
      exact ⟨rfl, rfl⟩

theorem dispatch_allok (cfg : ect_config) (mem : Mem) (name : List Nat) (address i j : Nat)
    (ha : address ≠ 0) (l : List ect_info) (al : Alloc) (hal : AllOk al) :
    (ect_dispatch cfg mem name address i j l al).ret = 0
      ∧ AllOk (ect_dispatch cfg mem name address i j l al).alloc := by
  induction l generalizing j al with
  | nil => exact ⟨rfl, hal⟩
  | cons e rest ih =>
    have hp := invoke_decoder_allok cfg mem e.parser address ha e al hal
    simp only [ect_dispatch]
    by_cases hm : strncmp name e.block_name e.block_name_length = 0
    · simp only [hm, hp.1, ne_eq, not_true_eq_false, if_false]
      exact ih _ _ hp.2
    · simp only [hm, ne_eq, not_false_eq_true, if_true]
      exact ih _ _ hal

theorem dispatch_calls_publish (cfg : ect_config) (mem : Mem) (name name' : List Nat)
    (address address' i i' j : Nat) (l : List ect_info) :
    dispatch_calls name address i j (l.map (publish cfg mem name' address' i'))
      = dispatch_calls name address i j l := by
  induction l generalizing j with
  | nil => rfl
  | cons e rest ih => simp only [List.map_cons, dispatch_calls, match_publish, ih]

theorem directory_calls_publish (cfg : ect_config) (mem : Mem) (base : Nat) (name' : List Nat)
    (address' i' : Nat) (dir : List (List Nat × Nat)) (i : Nat) (l : List ect_info) :
    directory_calls base dir i (l.map (publish cfg mem name' address' i'))
      = directory_calls base dir i l := by
  induction dir generalizing i with
  | nil => rfl
  | cons d rest ih => simp only [directory_calls, dispatch_calls_publish, ih]

theorem directory_ret (cfg : ect_config) (mem : Mem) (base n i address : Nat)
    (l : List ect_info) (al : Alloc) :
    (ect_parse_directory cfg mem base n i address l al).ret = 0
      ∨ (ect_parse_directory cfg mem base n i address l al).ret = -EINVAL := by
  induction n generalizing i address l al with
  | zero => exact Or.inl rfl
  | succ n ih =>
    simp only [ect_parse_directory]
    split_ifs
    · exact Or.inr rfl
    · exact dispatch_ret _ _ _ _ _ _ _ _
    · exact ih _ _ _ _

theorem directory_ok (cfg : ect_config) (mem : Mem) (base n i address : Nat)
    (l : List ect_info) (al : Alloc)
    (h : (ect_parse_directory cfg mem base n i address l al).ret = 0) :
    (ect_parse_directory cfg mem base n i address l al).list
        = l.map (publish_fold cfg mem base (ect_directory mem n address) i)
      ∧ (ect_parse_directory cfg mem base n i address l al).calls
        = directory_calls base (ect_directory mem n address) i l := by
  induction n generalizing i address l al with
  | zero => simp [ect_parse_directory, ect_directory, publish_fold, directory_calls]
  | succ n ih =>
    revert h
    simp only [ect_parse_directory, ect_directory, publish_fold, directory_calls]
    have hs : (ect_parse_string mem address).ret = 0 := rfl
    simp only [hs, ne_eq, not_true_eq_false, if_false]
    by_cases hd : (ect_dispatch cfg mem (cstr mem (ect_parse_string mem address).value)
        (base + (ect_parse_integer mem (ect_parse_string mem address).address).1) i 0 l al).ret = 0
    · simp only [hd, not_true_eq_false, if_false]
      intro h
      have hd' := dispatch_ok _ _ _ _ _ _ _ _ hd
      have := ih _ _ _ _ h
      rw [this.1, this.2, hd'.1, hd'.2, List.map_map]
      refine ⟨rfl, ?_⟩
      rw [directory_calls_publish]
    · simp only [hd, not_false_eq_true, if_true]
      intro h
      exact h.elim


/-! ## `ect_parse_binary_header` -/

theorem readb_lt (mem : Mem) (a : Nat) : readb mem a < 256 :=
  Nat.mod_lt _ (by decide)

theorem word_bytes_readl (mem : Mem) (a : Nat) :
    word_bytes (raw_readl mem a) = sign_bytes mem a := by
  have h0 := readb_lt mem a
  have h1 := readb_lt mem (a + 1)
  have h2 := readb_lt mem (a + 2)
  have h3 := readb_lt mem (a + 3)
  simp only [word_bytes, raw_readl, sign_bytes, List.cons.injEq, and_true]
  refine ⟨by omega, by omega, by omega, by omega⟩

theorem parse_bad (cfg : ect_config) (mem : Mem) (a : Nat) (st : EctState) (al : Alloc)
    (h : a = 0 ∨ sign_bytes mem a ≠ ect_signature) :
    ect_parse_binary_header cfg mem a st al
      = { ret := -EINVAL, state := st, alloc := al, calls := [] } := by
  unfold ect_parse_binary_header
  by_cases ha : a = 0
  · simp [ha]
  · have hs : sign_bytes mem a ≠ ect_signature := h.resolve_left ha
    simp only [ha, if_false, ect_parse_integer, word_bytes_readl]
    simp [hs]

theorem parse_good (cfg : ect_config) (mem : Mem) (a : Nat) (st : EctState) (al : Alloc)
    (ha : a ≠ 0) (hs : sign_bytes mem a = ect_signature) :
    ect_parse_binary_header cfg mem a st al
      = (let d := ect_parse_directory cfg mem a (ect_header_at mem a).num_of_header 0
            (a + 4 + 4 + 4 + 4) st.ect_list al
         if d.ret ≠ 0 then
           { ret := d.ret, state := { st with ect_list := d.list }, alloc := d.alloc,
             calls := d.calls }
         else
           { ret := 0, state := { ect_list := d.list, ect_header_info := some (ect_header_at mem a) },
             alloc := d.alloc, calls := d.calls }) := by
  unfold ect_parse_binary_header
  simp only [ha, if_false, ect_parse_integer, word_bytes_readl, hs, ne_eq, not_true_eq_false,
    ect_header_at]

theorem parse_ok_inv (cfg : ect_config) (mem : Mem) (a : Nat) (st : EctState) (al : Alloc)
    (h : (ect_parse_binary_header cfg mem a st al).ret = 0) :
    a ≠ 0 ∧ sign_bytes mem a = ect_signature := by
  by_contra hc
  have hb : a = 0 ∨ sign_bytes mem a ≠ ect_signature := by
    by_cases ha : a = 0
    · exact Or.inl ha
    · exact Or.inr (fun hs => hc ⟨ha, hs⟩)
  rw [parse_bad cfg mem a st al hb] at h
  exact absurd h neg_einval_ne

/-- C1: a table whose first four bytes are not "PARA" makes
`ect_parse_binary_header` return `-EINVAL` without calling any block decoder
and without changing the header handle or any registry entry. -/
theorem C1_bad_signature_rejected (cfg : ect_config) (mem : Mem) (ect_address : Nat)
    (st : EctState) (al : Alloc) (h : sign_bytes mem ect_address ≠ ect_signature) :
    (ect_parse_binary_header cfg mem ect_address st al).ret = -EINVAL
      ∧ (ect_parse_binary_header cfg mem ect_address st al).calls = []
      ∧ (ect_parse_binary_header cfg mem ect_address st al).state = st := by
  rw [parse_bad cfg mem ect_address st al (Or.inr h)]
  exact ⟨rfl, rfl, rfl⟩

theorem C1_bad_signature_rejected_witness :
    sign_bytes bad_sign_mem 16 ≠ ect_signature
      ∧ (ect_parse_binary_header scenario_config bad_sign_mem 16
          (EctState.init scenario_config) []).ret = -EINVAL
      ∧ (ect_parse_binary_header scenario_config bad_sign_mem 16
          (EctState.init scenario_config) []).calls = []
      ∧ (ect_parse_binary_header scenario_config bad_sign_mem 16
          (EctState.init scenario_config) []).state = EctState.init scenario_config :=
  ⟨by decide, C1_bad_signature_rejected scenario_config bad_sign_mem 16
    (EctState.init scenario_config) [] (by decide)⟩

theorem directory_allok (cfg : ect_config) (mem : Mem) (base n i address : Nat)
    (hb : base ≠ 0) (l : List ect_info) (al : Alloc) (hal : AllOk al) :
    (ect_parse_directory cfg mem base n i address l al).ret = 0
      ∧ AllOk (ect_parse_directory cfg mem base n i address l al).alloc := by
  induction n generalizing i address l al with
  | zero => exact ⟨rfl, hal⟩
  | succ n ih =>
    have hd := dispatch_allok cfg mem (cstr mem (ect_parse_string mem address).value)
      (base + (ect_parse_integer mem (ect_parse_string mem address).address).1) i 0
      (by omega) l al hal
    have hs : (ect_parse_string mem address).ret = 0 := rfl
    simp only [ect_parse_directory, hs, hd.1, ne_eq, not_true_eq_false, if_false]
    exact ih _ _ _ _ hd.2

theorem parse_allok (cfg : ect_config) (mem : Mem) (a : Nat) (st : EctState)
    (al : Alloc) (ha : a ≠ 0) (hs : sign_bytes mem a = ect_signature) (hal : AllOk al) :
    (ect_parse_binary_header cfg mem a st al).ret = 0
      ∧ (ect_parse_binary_header cfg mem a st al).state.ect_header_info
        = some (ect_header_at mem a) := by
  have hd := directory_allok cfg mem a (ect_header_at mem a).num_of_header 0
    (a + 4 + 4 + 4 + 4) ha st.ect_list al hal
  rw [parse_good cfg mem a st al ha hs]
  simp only [hd.1, ne_eq, not_true_eq_false, if_false]
  exact ⟨trivial, trivial⟩

theorem dispatch_fail_calls (cfg : ect_config) (mem : Mem) (name : List Nat)
    (address i j : Nat) (l : List ect_info) (al : Alloc)
    (h : (ect_dispatch cfg mem name address i j l al).ret ≠ 0) :
    (ect_dispatch cfg mem name address i j l al).calls ≠ [] := by
  induction l generalizing j al with
  | nil => exact absurd rfl h
  | cons e rest ih =>
    revert h
    simp only [ect_dispatch]
    split_ifs
    · exact fun h => ih _ _ h
    · exact fun _ => List.cons_ne_nil _ _
    · exact fun _ => List.cons_ne_nil _ _

theorem dispatch_fail_frame (cfg : ect_config) (mem : Mem) (name : List Nat)
    (address i j : Nat) (l : List ect_info) (al : Alloc)
    (h : (ect_dispatch cfg mem name address i j l al).ret ≠ 0)
    (hc : (ect_dispatch cfg mem name address i j l al).calls.length ≤ 1) :
    (ect_dispatch cfg mem name address i j l al).list = l := by
  induction l generalizing j al with
  | nil => rfl
  | cons e rest ih =>
    revert h hc
    simp only [ect_dispatch]
    by_cases hm : strncmp name e.block_name e.block_name_length = 0
    · simp only [hm, ne_eq, not_true_eq_false, if_false]
      by_cases hp : (invoke_decoder cfg mem e.parser address e al).1 = 0
      · simp only [hp, not_true_eq_false, if_false, List.length_cons]
        intro h hc
        have := dispatch_fail_calls _ _ _ _ _ _ _ _ h
        have := List.length_pos.mpr this
        omega
      · simp only [hp, not_false_eq_true, if_true]
        intro _ _
        rw [invoke_decoder_fail cfg mem e.parser address e al hp]
    · simp only [hm, ne_eq, not_false_eq_true, if_true]
      intro h hc
      rw [ih _ _ h hc]

theorem dispatch_calls_nil (cfg : ect_config) (mem : Mem) (name : List Nat) (address i j : Nat)
    (l : List ect_info) (h : dispatch_calls name address i j l = []) :
    l.map (publish cfg mem name address i) = l := by
  induction l generalizing j with
  | nil => rfl
  | cons e rest ih =>
    revert h
    simp only [dispatch_calls, List.map_cons, publish]
    split_ifs
    · intro h
      exact h.elim
    · intro h
      rw [ih _ h]

theorem directory_fail_calls (cfg : ect_config) (mem : Mem) (base n i address : Nat)
    (l : List ect_info) (al : Alloc)
    (h : (ect_parse_directory cfg mem base n i address l al).ret ≠ 0) :
    (ect_parse_directory cfg mem base n i address l al).calls ≠ [] := by
  induction n generalizing i address l al with
  | zero => exact absurd rfl h
  | succ n ih =>
    revert h
    have hs : (ect_parse_string mem address).ret = 0 := rfl
    simp only [ect_parse_directory, hs, ne_eq, not_true_eq_false, if_false]
    split_ifs with hd
    · intro h
      have := ih _ _ _ _ h
      simp [this]
    · intro h
      exact dispatch_fail_calls _ _ _ _ _ _ _ _ h

theorem directory_fail_frame (cfg : ect_config) (mem : Mem) (base n i address : Nat)
    (l : List ect_info) (al : Alloc)
    (h : (ect_parse_directory cfg mem base n i address l al).ret ≠ 0)
    (hc : (ect_parse_directory cfg mem base n i address l al).calls.length ≤ 1) :
    (ect_parse_directory cfg mem base n i address l al).list = l := by
  induction n generalizing i address l al with
  | zero => rfl
  | succ n ih =>
    revert h hc
    have hs : (ect_parse_string mem address).ret = 0 := rfl
    simp only [ect_parse_directory, hs, ne_eq, not_true_eq_false, if_false]
    by_cases hd : (ect_dispatch cfg mem (cstr mem (ect_parse_string mem address).value)
        (base + (ect_parse_integer mem (ect_parse_string mem address).address).1) i 0 l al).ret = 0
    · simp only [hd, not_true_eq_false, if_false, List.length_append]
      intro h hc
      have h1 := List.length_pos.mpr (directory_fail_calls _ _ _ _ _ _ _ _ h)
      have hok := dispatch_ok _ _ _ _ _ _ _ _ hd
      have h0 : (ect_dispatch cfg mem (cstr mem (ect_parse_string mem address).value)
          (base + (ect_parse_integer mem (ect_parse_string mem address).address).1) i 0 l
          al).calls = [] := List.length_eq_zero.mp (by omega)
      have hl := dispatch_calls_nil cfg mem _ _ _ _ _ (hok.2 ▸ h0)
      rw [ih _ _ _ _ h (by omega), hok.1, hl]
    · simp only [hd, not_false_eq_true, if_true]
      intro _ hc
      exact dispatch_fail_frame _ _ _ _ _ _ _ _ hd hc

theorem get_block_init (cfg : ect_config) (name : List Nat) :
    ect_get_block (ect_list cfg) name = none := by
  simp only [ect_list, ect_get_block, ect_info_init]
  split_ifs <;> rfl

/-- C3 (counterexample): the PLL entry decodes, the allocation of the next
block's header fails, `ect_parse_binary_header` returns `-EINVAL`, and
`ect_get_block` still returns the PLL block decoded before the failure. -/
theorem C3_counterexample :
    (ect_parse_binary_header scenario_config two_block_mem 16
        (EctState.init scenario_config) [true, true, false]).ret = -EINVAL
      ∧ ect_get_block (ect_parse_binary_header scenario_config two_block_mem 16
          (EctState.init scenario_config) [true, true, false]).state.ect_list [80, 76, 76]
        = some (BlockHandle.pll
            { parser_version := 1, version := 825241648, num_of_pll := 1,
              pll_list := [{ pll_name := 16 + 56, pll_offset := 28,
                             frequency_list := some (16 + 76), type_pll := 0,
                             num_of_frequency := 1 }] }) := by
  decide

/-- C3 (amended): when `ect_parse_binary_header` returns an error from the
initial registry, the header handle is not published, and if no decoder had
succeeded before the error (the call trace holds at most the failing call,
as for a bad signature) `ect_get_block` returns not-found for every block
name. -/
theorem C3_error_publishes_no_new_block (cfg : ect_config) (mem : Mem) (ect_address : Nat)
    (al : Alloc)
    (h : (ect_parse_binary_header cfg mem ect_address (EctState.init cfg) al).ret ≠ 0) :
    (ect_parse_binary_header cfg mem ect_address (EctState.init cfg) al).state.ect_header_info
        = none
      ∧ ((ect_parse_binary_header cfg mem ect_address (EctState.init cfg) al).calls.length ≤ 1 →
          ∀ name, ect_get_block
            (ect_parse_binary_header cfg mem ect_address (EctState.init cfg) al).state.ect_list
            name = none) := by
  by_cases hb : ect_address = 0 ∨ sign_bytes mem ect_address ≠ ect_signature
  · rw [parse_bad cfg mem ect_address _ al hb]
    exact ⟨rfl, fun _ name => get_block_init cfg name⟩
  · have ha : ect_address ≠ 0 := fun h0 => hb (Or.inl h0)
    have hs : sign_bytes mem ect_address = ect_signature := by
      by_contra hne
      exact hb (Or.inr hne)
    rw [parse_good cfg mem ect_address _ al ha hs] at h ⊢
    revert h
    dsimp only
    split_ifs with hd
    · intro _
      refine ⟨rfl, fun hc name => ?_⟩
      have := directory_fail_frame cfg mem ect_address _ 0 _ _ al hd hc
      simp only [this]
      exact get_block_init cfg name
    · intro h
      exact absurd rfl h

theorem C3_error_publishes_no_new_block_witness :
    (ect_parse_binary_header scenario_config two_block_mem 16
        (EctState.init scenario_config) [false]).state.ect_header_info = none
      ∧ ((ect_parse_binary_header scenario_config two_block_mem 16
            (EctState.init scenario_config) [false]).calls.length ≤ 1 →
          ∀ name, ect_get_block
            (ect_parse_binary_header scenario_config two_block_mem 16
              (EctState.init scenario_config) [false]).state.ect_list name = none) :=
  C3_error_publishes_no_new_block scenario_config two_block_mem 16 [false] (by decide)

theorem strncmp_eq_zero_iff (r s : List Nat) (hr : ∀ b ∈ r, b ≠ 0) :
    strncmp s r r.length = 0 ↔ r <+: s := by
  induction r generalizing s with
  | nil => simp [strncmp]
  | cons b bs ih =>
    have hb : b ≠ 0 := hr b (List.mem_cons_self _ _)
    have hbs : ∀ c ∈ bs, c ≠ 0 := fun c hc => hr c (List.mem_cons_of_mem _ hc)
    cases s with
    | nil =>
      simp only [List.length_cons, strncmp, List.headD_nil, List.headD_cons]
      have : (0 : Nat) ≠ b := fun h => hb h.symm
      simp only [this, ne_eq, not_false_eq_true, if_true]
      constructor
      · intro h
        split_ifs at h
        simp at h
      · intro h
        exact absurd (List.IsPrefix.length_le h) (by simp)
    | cons a as =>
      simp only [List.length_cons, strncmp, List.headD_cons, List.tail_cons]
      by_cases hab : a = b
      · subst hab
        simp only [ne_eq, not_true_eq_false, if_false, hb, ih as hbs]
        constructor
        · intro h
          exact (List.prefix_cons_inj a).mpr h
        · intro h
          exact (List.prefix_cons_inj a).mp h
      · simp only [ne_eq, hab, not_false_eq_true, if_true]
        constructor
        · intro h
          split_ifs at h
          simp at h
        · intro h
          obtain ⟨t, ht⟩ := h
          simp only [List.cons_append, List.cons.injEq] at ht
          exact absurd ht.1.symm hab

theorem dispatch_calls_length (name : List Nat) (address i j : Nat) (l : List ect_info) :
    (dispatch_calls name address i j l).length = (l.filter (ect_match name)).length := by
  induction l generalizing j with
  | nil => rfl
  | cons e rest ih =>
    simp only [dispatch_calls, List.filter_cons]
    split_ifs <;> simp [ih]

theorem parse_directory_run (cfg : ect_config) (mem : Mem) (base n i address : Nat)
    (l : List ect_info) (al : Alloc) :
    ect_parse_directory cfg mem base n i address l al
      = run_directory cfg mem ((ect_directory mem n address).map (fun d => (d.1, base + d.2)))
          i l al := by
  induction n generalizing i address l al with
  | zero => rfl
  | succ n ih =>
    have hs : (ect_parse_string mem address).ret = 0 := rfl
    simp only [ect_parse_directory, ect_directory, List.map_cons, run_directory, hs, ne_eq,
      not_true_eq_false, if_false, ih]

theorem match_published (name : List Nat) (e e' : ect_info)
    (h : e.published = e'.published) : ect_match name e = ect_match name e' := by
  simp only [ect_info.published, Prod.mk.injEq] at h
  simp only [ect_match, h.1, h.2.1]

theorem dispatch_published (cfg : ect_config) (mem : Mem) (name : List Nat)
    (address i i' j j' : Nat) (l l' : List ect_info) (al : Alloc)
    (h : l.map ect_info.published = l'.map ect_info.published) :
    (ect_dispatch cfg mem name address i j l al).ret
        = (ect_dispatch cfg mem name address i' j' l' al).ret
      ∧ (ect_dispatch cfg mem name address i j l al).alloc
        = (ect_dispatch cfg mem name address i' j' l' al).alloc
      ∧ (ect_dispatch cfg mem name address i j l al).list.map ect_info.published
        = (ect_dispatch cfg mem name address i' j' l' al).list.map ect_info.published := by
  induction l generalizing l' j j' al with
  | nil =>
    cases l' with
    | nil => exact ⟨rfl, rfl, rfl⟩
    | cons e' rest' => simp at h
  | cons e rest ih =>
    cases l' with
    | nil => simp at h
    | cons e' rest' =>
      simp only [List.map_cons, List.cons.injEq] at h
      have hk := h.1
      simp only [ect_info.published, Prod.mk.injEq] at hk
      have hinfo := invoke_decoder_info cfg mem e.parser address e e' al
      simp only [ect_dispatch]
      rw [← hk.1, ← hk.2.1, ← hk.2.2.1]
      by_cases hm : strncmp name e.block_name e.block_name_length = 0
      · simp only [hm, ne_eq, not_true_eq_false, if_false]
        by_cases hp : (invoke_decoder cfg mem e.parser address e al).1 = 0
        · have hp' : (invoke_decoder cfg mem e.parser address e' al).1 = 0 := hinfo.1 ▸ hp
          have hr := ih (j + 1) (j' + 1) rest' (invoke_decoder cfg mem e.parser address e al).2.2 h.2
          simp only [hp, hp', not_true_eq_false, if_false, List.map_cons, ← hinfo.2]
          refine ⟨hr.1, hr.2.1, ?_⟩
          rw [hr.2.2, invoke_decoder_value cfg mem e.parser address e al hp,
            invoke_decoder_value cfg mem e.parser address e' al hp']
          simp only [ect_info.published, hk.1, hk.2.1, hk.2.2.1]
        · have hp' : ¬ (invoke_decoder cfg mem e.parser address e' al).1 = 0 := hinfo.1 ▸ hp
          simp only [hp, hp', not_false_eq_true, if_true, List.map_cons, ← hinfo.2]
          refine ⟨trivial, trivial, ?_⟩
          rw [invoke_decoder_fail cfg mem e.parser address e al hp,
            invoke_decoder_fail cfg mem e.parser address e' al hp', h.1, h.2]
      · have hr := ih (j + 1) (j' + 1) rest' al h.2
        simp only [hm, ne_eq, not_false_eq_true, if_true, List.map_cons]
        exact ⟨hr.1, hr.2.1, by rw [hr.2.2, h.1]⟩

theorem run_published (cfg : ect_config) (mem : Mem) (dir : List (List Nat × Nat))
    (i i' : Nat) (l l' : List ect_info) (al : Alloc)
    (h : l.map ect_info.published = l'.map ect_info.published) :
    (run_directory cfg mem dir i l al).ret = (run_directory cfg mem dir i' l' al).ret
      ∧ (run_directory cfg mem dir i l al).alloc = (run_directory cfg mem dir i' l' al).alloc
      ∧ (run_directory cfg mem dir i l al).list.map ect_info.published
        = (run_directory cfg mem dir i' l' al).list.map ect_info.published := by
  induction dir generalizing i i' l l' al with
  | nil => exact ⟨rfl, rfl, h⟩
  | cons d rest ih =>
    have hd := dispatch_published cfg mem d.1 d.2 i i' 0 0 l l' al h
    simp only [run_directory]
    by_cases hr : (ect_dispatch cfg mem d.1 d.2 i 0 l al).ret = 0
    · have hr' : (ect_dispatch cfg mem d.1 d.2 i' 0 l' al).ret = 0 := hd.1 ▸ hr
      simp only [hr, hr', ne_eq, not_true_eq_false, if_false]
      rw [← hd.2.1]
      exact ih _ _ _ _ _ hd.2.2
    · have hr' : ¬ (ect_dispatch cfg mem d.1 d.2 i' 0 l' al).ret = 0 := hd.1 ▸ hr
      simp only [hr, hr', ne_eq, not_false_eq_true, if_true]
      exact hd

theorem dispatch_unmatched (cfg : ect_config) (mem : Mem) (name : List Nat)
    (address i j : Nat) (l : List ect_info) (al : Alloc)
    (h : ∀ e ∈ l, ect_match name e = false) :
    ect_dispatch cfg mem name address i j l al
      = { ret := 0, list := l, alloc := al, calls := [] } := by
  induction l generalizing j with
  | nil => rfl
  | cons e rest ih =>
    have he := h e (List.mem_cons_self _ _)
    simp only [ect_match, decide_eq_false_iff_not] at he
    simp only [ect_dispatch, he, ne_eq, not_false_eq_true, if_true,
      ih (j + 1) (fun x hx => h x (List.mem_cons_of_mem _ hx))]

theorem unmatched_published (name : List Nat) (l l' : List ect_info)
    (hk : l'.map ect_info.published = l.map ect_info.published)
    (h : ∀ e ∈ l, ect_match name e = false) : ∀ e ∈ l', ect_match name e = false := by
  intro e' he'
  have : e'.published ∈ l.map ect_info.published := hk ▸ List.mem_map_of_mem _ he'
  obtain ⟨e, he, hee⟩ := List.mem_map.mp this
  rw [← match_published name e e' hee]
  exact h e he

theorem run_insert (cfg : ect_config) (mem : Mem) (u : List Nat × Nat)
    (post pre : List (List Nat × Nat)) (i : Nat) (l : List ect_info) (al : Alloc)
    (h : ∀ e ∈ l, ect_match u.1 e = false) :
    (run_directory cfg mem (pre ++ u :: post) i l al).ret
        = (run_directory cfg mem (pre ++ post) i l al).ret
      ∧ (run_directory cfg mem (pre ++ u :: post) i l al).alloc
        = (run_directory cfg mem (pre ++ post) i l al).alloc
      ∧ (run_directory cfg mem (pre ++ u :: post) i l al).list.map ect_info.published
        = (run_directory cfg mem (pre ++ post) i l al).list.map ect_info.published := by
  induction pre generalizing i l al with
  | nil =>
    simp only [List.nil_append, run_directory, dispatch_unmatched cfg mem u.1 u.2 i 0 l al h,
      ne_eq, not_true_eq_false, if_false]
    exact run_published cfg mem post (i + 1) i l l al rfl
  | cons d pre ih =>
    simp only [List.cons_append, run_directory]
    by_cases hr : (ect_dispatch cfg mem d.1 d.2 i 0 l al).ret = 0
    · simp only [hr, ne_eq, not_true_eq_false, if_false]
      refine ih (i + 1) _ _ ?_
      rw [(dispatch_ok cfg mem d.1 d.2 i 0 l al hr).1]
      intro e he
      obtain ⟨e0, he0, rfl⟩ := List.mem_map.mp he
      rw [match_publish]
      exact h e0 he0
    · simp only [hr, ne_eq, not_false_eq_true, if_true]
      exact ⟨trivial, trivial, trivial⟩

theorem parse_run (cfg : ect_config) (mem : Mem) (a : Nat) (st : EctState) (al : Alloc)
    (ha : a ≠ 0) (hs : sign_bytes mem a = ect_signature) :
    (ect_parse_binary_header cfg mem a st al).ret
        = (run_directory cfg mem (ect_blocks_at mem a) 0 st.ect_list al).ret
      ∧ (ect_parse_binary_header cfg mem a st al).alloc
        = (run_directory cfg mem (ect_blocks_at mem a) 0 st.ect_list al).alloc
      ∧ (ect_parse_binary_header cfg mem a st al).state.ect_list
        = (run_directory cfg mem (ect_blocks_at mem a) 0 st.ect_list al).list := by
  rw [parse_good cfg mem a st al ha hs, parse_directory_run]
  simp only [ect_blocks_at, ect_directory_at]
  split_ifs with hd
  · exact ⟨rfl, rfl, rfl⟩
  · exact ⟨(not_not.mp hd).symm, rfl, rfl⟩

/-- C5: a directory entry that no registry entry selects is skipped: its
dispatch calls no decoder, returns success and leaves the registry and the
allocator as they were; and a table whose directory is that of another
table with such an entry inserted anywhere decodes with the same return
code to the same published blocks. -/
theorem C5_unknown_entry_skipped (cfg : ect_config) (mem : Mem) (a1 a2 : Nat) (st : EctState)
    (al : Alloc) (pre post : List (List Nat × Nat)) (u : List Nat × Nat)
    (ha1 : a1 ≠ 0) (hs1 : sign_bytes mem a1 = ect_signature)
    (ha2 : a2 ≠ 0) (hs2 : sign_bytes mem a2 = ect_signature)
    (hd1 : ect_blocks_at mem a1 = pre ++ post)
    (hd2 : ect_blocks_at mem a2 = pre ++ u :: post)
    (hu : ∀ e ∈ st.ect_list, ect_match u.1 e = false) :
    (∀ i j al', ect_dispatch cfg mem u.1 u.2 i j st.ect_list al'
        = { ret := 0, list := st.ect_list, alloc := al', calls := [] })
      ∧ (ect_parse_binary_header cfg mem a2 st al).ret
        = (ect_parse_binary_header cfg mem a1 st al).ret
      ∧ (ect_parse_binary_header cfg mem a2 st al).state.ect_list.map ect_info.published
        = (ect_parse_binary_header cfg mem a1 st al).state.ect_list.map ect_info.published := by
  have h1 := parse_run cfg mem a1 st al ha1 hs1
  have h2 := parse_run cfg mem a2 st al ha2 hs2
  have hi := run_insert cfg mem u post pre 0 st.ect_list al hu
  refine ⟨fun i j al' => dispatch_unmatched cfg mem u.1 u.2 i j st.ect_list al' hu, ?_, ?_⟩
  · rw [h1.1, h2.1, hd1, hd2]
    exact hi.1
  · rw [h1.2.2, h2.2.2, hd1, hd2]
    exact hi.2.2

theorem C5_unknown_entry_skipped_witness :
    (∀ i j al', ect_dispatch scenario_config two_table_mem [88, 89, 90] 4 i j
        (EctState.init scenario_config).ect_list al'
        = { ret := 0, list := (EctState.init scenario_config).ect_list, alloc := al',
            calls := [] })
      ∧ (ect_parse_binary_header scenario_config two_table_mem 4
          (EctState.init scenario_config) []).ret
        = (ect_parse_binary_header scenario_config two_table_mem 44
          (EctState.init scenario_config) []).ret
      ∧ (ect_parse_binary_header scenario_config two_table_mem 4
          (EctState.init scenario_config) []).state.ect_list.map ect_info.published
        = (ect_parse_binary_header scenario_config two_table_mem 44
          (EctState.init scenario_config) []).state.ect_list.map ect_info.published :=
  C5_unknown_entry_skipped scenario_config two_table_mem 44 4 (EctState.init scenario_config)
    [] [] [([80, 76, 76], 72)] ([88, 89, 90], 4) (by decide) (by decide) (by decide)
    (by decide) (by decide) (by decide) (by decide)

theorem publish_fold_name (cfg : ect_config) (mem : Mem) (base : Nat)
    (dir : List (List Nat × Nat)) (i : Nat) (e : ect_info) :
    (publish_fold cfg mem base dir i e).block_name = e.block_name
      ∧ (publish_fold cfg mem base dir i e).block_name_length = e.block_name_length
      ∧ (publish_fold cfg mem base dir i e).parser = e.parser := by
  induction dir generalizing i e with
  | nil => exact ⟨rfl, rfl, rfl⟩
  | cons d rest ih =>
    have h1 := ih (i + 1) (publish cfg mem d.1 (base + d.2) i e)
    have h2 := publish_name cfg mem d.1 (base + d.2) i e
    simp only [publish_fold]
    exact ⟨h1.1.trans h2.1, h1.2.1.trans h2.2.1, h1.2.2.trans h2.2.2⟩

theorem match_congr (name : List Nat) (e e' : ect_info) (h1 : e.block_name = e'.block_name)
    (h2 : e.block_name_length = e'.block_name_length) :
    ect_match name e = ect_match name e' := by
  simp only [ect_match, h1, h2]

theorem publish_fold_unmatched (cfg : ect_config) (mem : Mem) (base : Nat)
    (dir : List (List Nat × Nat)) (i : Nat) (e : ect_info)
    (h : ∀ d ∈ dir, ect_match d.1 e = false) : publish_fold cfg mem base dir i e = e := by
  induction dir generalizing i with
  | nil => rfl
  | cons d rest ih =>
    have hd := h d (List.mem_cons_self _ _)
    simp only [publish_fold, publish, hd, Bool.false_eq_true, if_false]
    exact ih (i + 1) (fun x hx => h x (List.mem_cons_of_mem _ hx))

theorem publish_fold_append (cfg : ect_config) (mem : Mem) (base : Nat)
    (pre post : List (List Nat × Nat)) (i : Nat) (e : ect_info) :
    publish_fold cfg mem base (pre ++ post) i e
      = publish_fold cfg mem base post (i + pre.length) (publish_fold cfg mem base pre i e) := by
  induction pre generalizing i e with
  | nil => rfl
  | cons d rest ih =>
    have : i + 1 + rest.length = i + (rest.length + 1) := by omega
    show publish_fold cfg mem base (rest ++ post) (i + 1) _ = _
    rw [ih, this]
    rfl

theorem publish_fold_last (cfg : ect_config) (mem : Mem) (base : Nat)
    (pre post : List (List Nat × Nat)) (d : List Nat × Nat) (i : Nat) (e : ect_info)
    (hm : ect_match d.1 e = true) (hpost : ∀ x ∈ post, ect_match x.1 e = false) :
    publish_fold cfg mem base (pre ++ d :: post) i e
      = { e with
          block_handle := block_value cfg mem e.parser (base + d.2)
          block_precedence := ((i + pre.length : Nat) : Int) } := by
  have hn := publish_fold_name cfg mem base pre i e
  have hm' : ect_match d.1 (publish_fold cfg mem base pre i e) = true := by
    rw [match_congr d.1 _ e hn.1 hn.2.1]
    exact hm
  rw [publish_fold_append]
  simp only [publish_fold]
  rw [publish_fold_unmatched]
  · simp only [publish, hm', if_true, hn.1, hn.2.1, hn.2.2]
  · intro x hx
    have hp := publish_name cfg mem d.1 (base + d.2) (i + pre.length)
      (publish_fold cfg mem base pre i e)
    rw [match_congr x.1 _ e (hp.1.trans hn.1) (hp.2.1.trans hn.2.1)]
    exact hpost x hx

theorem parse_ok_list (cfg : ect_config) (mem : Mem) (a : Nat) (st : EctState) (al : Alloc)
    (h : (ect_parse_binary_header cfg mem a st al).ret = 0) :
    (ect_parse_binary_header cfg mem a st al).state
      = { ect_list := st.ect_list.map (publish_fold cfg mem a (ect_directory_at mem a) 0)
          ect_header_info := some (ect_header_at mem a) } := by
  have hi := parse_ok_inv cfg mem a st al h
  rw [parse_good cfg mem a st al hi.1 hi.2] at h ⊢
  revert h
  dsimp only
  split_ifs with hd
  · intro h
    exact absurd h hd
  · intro _
    rw [(directory_ok cfg mem a _ 0 _ _ al (not_not.mp hd)).1]
    rfl

theorem getElem?_split {α : Type} (l : List α) (i : Nat) (d : α) (h : l[i]? = some d) :
    l = l.take i ++ d :: l.drop (i + 1) ∧ (l.take i).length = i := by
  have hi : i < l.length := by
    by_contra hc
    rw [List.getElem?_eq_none (by omega)] at h
    exact absurd h (by simp)
  have hd : l[i] = d := by
    rw [List.getElem?_eq_getElem hi] at h
    exact Option.some.inj h
  refine ⟨?_, by simp [List.length_take]; omega⟩
  rw [← hd, ← List.drop_eq_getElem_cons hi, List.take_append_drop]

/-- C6: after a successful decode from the initial registry, a registry entry
selected by the directory entry at position `i` and by no other directory
entry has `block_precedence = i` (positions count every directory entry,
selected or not), and a registry entry selected by no directory entry keeps
precedence `-1`. -/
theorem C6_precedence_is_directory_position (cfg : ect_config) (mem : Mem) (ect_address : Nat)
    (al : Alloc) (j : Nat) (e e' : ect_info)
    (h : (ect_parse_binary_header cfg mem ect_address (EctState.init cfg) al).ret = 0)
    (he : (ect_list cfg)[j]? = some e)
    (he' : (ect_parse_binary_header cfg mem ect_address (EctState.init cfg) al).state.ect_list[j]?
      = some e') :
    (∀ (i : Nat) (d : List Nat × Nat), (ect_directory_at mem ect_address)[i]? = some d → ect_match d.1 e = true →
        (∀ (i' : Nat) (d' : List Nat × Nat), (ect_directory_at mem ect_address)[i']? = some d' → ect_match d'.1 e = true →
          i' = i) →
        e'.block_precedence = (i : Int))
      ∧ ((∀ d ∈ ect_directory_at mem ect_address, ect_match d.1 e = false) →
          e'.block_precedence = -1) := by
  rw [parse_ok_list cfg mem ect_address _ al h] at he'
  simp only [EctState.init, List.getElem?_map, he, Option.map_some', Option.some.injEq] at he'
  subst he'
  have hinit : e.block_precedence = -1 := by
    have hmem := List.getElem?_mem he
    simp only [ect_list, List.mem_cons, List.mem_singleton, List.not_mem_nil, or_false] at hmem
    rcases hmem with h | h | h | h | h | h | h | h <;> (rw [h]; rfl)
  constructor
  · intro i d hd hm huniq
    obtain ⟨hsplit, hlen⟩ := getElem?_split _ i d hd
    rw [hsplit, publish_fold_last cfg mem ect_address _ _ d 0 e hm, hlen]
    · simp
    · intro x hx
      obtain ⟨k, hk, hxk⟩ := List.getElem_of_mem hx
      have hk' : k < (ect_directory_at mem ect_address).length - (i + 1) := by
        simpa [List.length_drop] using hk
      have hget : (ect_directory_at mem ect_address)[i + 1 + k]? = some x := by
        rw [List.getElem?_eq_getElem (by omega)]
        rw [← hxk, List.getElem_drop]
      by_contra hne
      have := huniq (i + 1 + k) x hget (by simpa using hne)
      omega
  · intro hnone
    rw [publish_fold_unmatched cfg mem ect_address _ 0 e hnone]
    exact hinit

theorem C6_precedence_is_directory_position_witness :
    (∀ (i : Nat) (d : List Nat × Nat), (ect_directory_at two_table_mem 4)[i]? = some d →
        ect_match d.1 (ect_info_init [80, 76, 76] .pll_header) = true →
        (∀ (i' : Nat) (d' : List Nat × Nat), (ect_directory_at two_table_mem 4)[i']? = some d' →
          ect_match d'.1 (ect_info_init [80, 76, 76] .pll_header) = true → i' = i) →
        ({ ect_info_init [80, 76, 76] .pll_header with
            block_handle := some (BlockHandle.pll
              { parser_version := 1, version := 825241648, num_of_pll := 1,
                pll_list := [{ pll_name := 88, pll_offset := 28, frequency_list := some 108,
                               type_pll := 0, num_of_frequency := 1 }] })
            block_precedence := 1 } : ect_info).block_precedence = (i : Int))
      ∧ ((∀ d ∈ ect_directory_at two_table_mem 4,
            ect_match d.1 (ect_info_init [80, 76, 76] .pll_header) = false) →
          ({ ect_info_init [80, 76, 76] .pll_header with
            block_handle := some (BlockHandle.pll
              { parser_version := 1, version := 825241648, num_of_pll := 1,
                pll_list := [{ pll_name := 88, pll_offset := 28, frequency_list := some 108,
                               type_pll := 0, num_of_frequency := 1 }] })
            block_precedence := 1 } : ect_info).block_precedence = -1) :=
  C6_precedence_is_directory_position scenario_config two_table_mem 4 [] 4
    (ect_info_init [80, 76, 76] .pll_header) _ (by decide) (by decide) (by decide)

theorem publish_fold_agree (cfg : ect_config) (mem : Mem) (base : Nat)
    (dir : List (List Nat × Nat)) (i : Nat) (e e' : ect_info)
    (h1 : e.block_name = e'.block_name) (h2 : e.block_name_length = e'.block_name_length)
    (h3 : e.parser = e'.parser) (hm : ∃ d ∈ dir, ect_match d.1 e = true) :
    publish_fold cfg mem base dir i e = publish_fold cfg mem base dir i e' := by
  induction dir generalizing i e e' with
  | nil =>
    obtain ⟨d, hd, _⟩ := hm
    exact absurd hd (List.not_mem_nil _)
  | cons d rest ih =>
    have hp := publish_name cfg mem d.1 (base + d.2) i e
    have hp' := publish_name cfg mem d.1 (base + d.2) i e'
    simp only [publish_fold]
    by_cases hr : ∃ x ∈ rest, ect_match x.1 e = true
    · refine ih (i + 1) _ _ (hp.1.trans (h1.trans hp'.1.symm))
        (hp.2.1.trans (h2.trans hp'.2.1.symm)) (hp.2.2.trans (h3.trans hp'.2.2.symm)) ?_
      obtain ⟨x, hx, hxm⟩ := hr
      exact ⟨x, hx, (match_congr x.1 _ e hp.1 hp.2.1).trans hxm⟩
    · have hd : ect_match d.1 e = true := by
        obtain ⟨x, hx, hxm⟩ := hm
        rcases List.mem_cons.mp hx with hxd | hxr
        · exact hxd ▸ hxm
        · exact absurd ⟨x, hxr, hxm⟩ hr
      have hd' : ect_match d.1 e' = true := (match_congr d.1 e e' h1 h2) ▸ hd
      have heq : publish cfg mem d.1 (base + d.2) i e = publish cfg mem d.1 (base + d.2) i e' := by
        simp only [publish, hd, hd', if_true, h1, h2, h3]
      rw [heq]

theorem publish_fold_idem (cfg : ect_config) (mem : Mem) (base : Nat)
    (dir : List (List Nat × Nat)) (i : Nat) (e : ect_info) :
    publish_fold cfg mem base dir i (publish_fold cfg mem base dir i e)
      = publish_fold cfg mem base dir i e := by
  have hn := publish_fold_name cfg mem base dir i e
  by_cases hm : ∃ d ∈ dir, ect_match d.1 e = true
  · refine publish_fold_agree cfg mem base dir i _ e hn.1 hn.2.1 hn.2.2 ?_
    obtain ⟨d, hd, hdm⟩ := hm
    exact ⟨d, hd, (match_congr d.1 _ e hn.1 hn.2.1).trans hdm⟩
  · have : ∀ d ∈ dir, ect_match d.1 e = false := by
      intro d hd
      cases hc : ect_match d.1 e with
      | false => rfl
      | true => exact absurd ⟨d, hd, hc⟩ hm
    rw [publish_fold_unmatched cfg mem base dir i e this, publish_fold_unmatched cfg mem base dir i e this]

/-- C7 (counterexample): decoding the scenario table and then a table with
an empty directory leaves the PLL block published, whereas decoding only
the second table from the initial registry publishes no PLL block. -/
theorem C7_counterexample :
    (ect_parse_binary_header scenario_config scenario_mem 16
        (EctState.init scenario_config) []).ret = 0
      ∧ (ect_parse_binary_header scenario_config empty_mem 16
          (ect_parse_binary_header scenario_config scenario_mem 16
            (EctState.init scenario_config) []).state []).ret = 0
      ∧ (ect_parse_binary_header scenario_config empty_mem 16
          (EctState.init scenario_config) []).ret = 0
      ∧ ect_get_block (ect_parse_binary_header scenario_config empty_mem 16
          (ect_parse_binary_header scenario_config scenario_mem 16
            (EctState.init scenario_config) []).state []).state.ect_list [80, 76, 76]
        = some (BlockHandle.pll
            { parser_version := 1, version := 825241648, num_of_pll := 1,
              pll_list := [{ pll_name := 16 + 44, pll_offset := 28,
                             frequency_list := some (16 + 64), type_pll := 0,
                             num_of_frequency := 1 }] })
      ∧ ect_get_block (ect_parse_binary_header scenario_config empty_mem 16
          (EctState.init scenario_config) []).state.ect_list [80, 76, 76] = none := by
  decide

/-- C7 (amended): for tables B1 and B2 that decode successfully, the state
after decoding B1 and then B2 has the header handle of B2 and agrees with
the state after decoding only B2 on every registry entry that some directory
entry of B2 selects; a registry entry that no directory entry of B2 selects
keeps the handle and precedence it had after B1. -/
theorem C7_second_decode_overrides_matched (cfg : ect_config) (mem1 mem2 : Mem) (a1 a2 : Nat)
    (al1 al2 al3 : Alloc) (j : Nat) (e1 e12 e2 : ect_info)
    (h1 : (ect_parse_binary_header cfg mem1 a1 (EctState.init cfg) al1).ret = 0)
    (h12 : (ect_parse_binary_header cfg mem2 a2
      (ect_parse_binary_header cfg mem1 a1 (EctState.init cfg) al1).state al2).ret = 0)
    (h2 : (ect_parse_binary_header cfg mem2 a2 (EctState.init cfg) al3).ret = 0)
    (he1 : (ect_parse_binary_header cfg mem1 a1 (EctState.init cfg) al1).state.ect_list[j]?
      = some e1)
    (he12 : (ect_parse_binary_header cfg mem2 a2
      (ect_parse_binary_header cfg mem1 a1 (EctState.init cfg) al1).state al2).state.ect_list[j]?
      = some e12)
    (he2 : (ect_parse_binary_header cfg mem2 a2 (EctState.init cfg) al3).state.ect_list[j]?
      = some e2) :
    (ect_parse_binary_header cfg mem2 a2
        (ect_parse_binary_header cfg mem1 a1 (EctState.init cfg) al1).state al2).state.ect_header_info
        = (ect_parse_binary_header cfg mem2 a2 (EctState.init cfg) al3).state.ect_header_info
      ∧ ((∃ d ∈ ect_directory_at mem2 a2, ect_match d.1 e1 = true) → e12 = e2)
      ∧ ((∀ d ∈ ect_directory_at mem2 a2, ect_match d.1 e1 = false) → e12 = e1) := by
  rw [parse_ok_list cfg mem2 a2 _ al2 h12] at he12 ⊢
  rw [parse_ok_list cfg mem2 a2 _ al3 h2] at he2 ⊢
  simp only [List.getElem?_map, he1, Option.map_some', Option.some.injEq] at he12
  rw [parse_ok_list cfg mem1 a1 _ al1 h1] at he1
  simp only [EctState.init, List.getElem?_map] at he1 he2
  cases h0 : (ect_list cfg)[j]? with
  | none => simp [h0] at he1
  | some e0 =>
    simp only [h0, Option.map_some', Option.some.injEq] at he1 he2
    have hn := publish_fold_name cfg mem1 a1 (ect_directory_at mem1 a1) 0 e0
    rw [he1] at hn
    refine ⟨rfl, ?_, ?_⟩
    · intro hm
      rw [← he12, ← he2]
      exact publish_fold_agree cfg mem2 a2 _ 0 e1 e0 hn.1 hn.2.1 hn.2.2 hm
    · intro hu
      rw [← he12]
      exact publish_fold_unmatched cfg mem2 a2 _ 0 e1 hu


theorem C7_second_decode_overrides_matched_witness :
    (ect_parse_binary_header scenario_config empty_mem 16
        (ect_parse_binary_header scenario_config scenario_mem 16
          (EctState.init scenario_config) []).state []).state.ect_header_info
        = (ect_parse_binary_header scenario_config empty_mem 16
            (EctState.init scenario_config) []).state.ect_header_info
      ∧ ((∃ d ∈ ect_directory_at empty_mem 16, ect_match d.1 scenario_pll_info = true) →
          scenario_pll_info = ect_info_init [80, 76, 76] .pll_header)
      ∧ ((∀ d ∈ ect_directory_at empty_mem 16, ect_match d.1 scenario_pll_info = false) →
          scenario_pll_info = scenario_pll_info) :=
  C7_second_decode_overrides_matched scenario_config scenario_mem empty_mem 16 16 [] [] [] 4
    scenario_pll_info scenario_pll_info (ect_info_init [80, 76, 76] .pll_header)
    (by decide) (by decide) (by decide) (by decide) (by decide) (by decide)

/-- C8: decoding is repeatable.  After a successful decode, decoding the
same bytes again from the state the first decode left succeeds whenever no
allocation fails, and every successful second decode leaves exactly the
state of the first: same handles, records, values and precedences. -/
theorem C8_decode_is_repeatable (cfg : ect_config) (mem : Mem) (ect_address : Nat)
    (st : EctState) (al1 al2 : Alloc)
    (h1 : (ect_parse_binary_header cfg mem ect_address st al1).ret = 0) :
    (AllOk al2 →
        (ect_parse_binary_header cfg mem ect_address
          (ect_parse_binary_header cfg mem ect_address st al1).state al2).ret = 0)
      ∧ ((ect_parse_binary_header cfg mem ect_address
            (ect_parse_binary_header cfg mem ect_address st al1).state al2).ret = 0 →
          (ect_parse_binary_header cfg mem ect_address
            (ect_parse_binary_header cfg mem ect_address st al1).state al2).state
          = (ect_parse_binary_header cfg mem ect_address st al1).state) := by
  have hi := parse_ok_inv cfg mem ect_address st al1 h1
  refine ⟨fun hal => (parse_allok cfg mem ect_address _ al2 hi.1 hi.2 hal).1, ?_⟩
  intro h2
  rw [parse_ok_list cfg mem ect_address _ al2 h2, parse_ok_list cfg mem ect_address st al1 h1]
  simp only [List.map_map, EctState.mk.injEq, and_true]
  apply List.map_congr_left
  intro e _
  exact publish_fold_idem cfg mem ect_address _ 0 e

theorem C8_decode_is_repeatable_witness :
    (AllOk [true] →
        (ect_parse_binary_header scenario_config scenario_mem 16
          (ect_parse_binary_header scenario_config scenario_mem 16
            (EctState.init scenario_config) []).state [true]).ret = 0)
      ∧ ((ect_parse_binary_header scenario_config scenario_mem 16
            (ect_parse_binary_header scenario_config scenario_mem 16
              (EctState.init scenario_config) []).state [true]).ret = 0 →
          (ect_parse_binary_header scenario_config scenario_mem 16
            (ect_parse_binary_header scenario_config scenario_mem 16
              (EctState.init scenario_config) []).state [true]).state
          = (ect_parse_binary_header scenario_config scenario_mem 16
              (EctState.init scenario_config) []).state) :=
  C8_decode_is_repeatable scenario_config scenario_mem 16 (EctState.init scenario_config)
    [] [true] (by decide)

theorem bodies_pure {α : Type} (f : α → Alloc → Int × α × Alloc) (g : α → α)
    (hf : ∀ x al, f x al = (0, g x, al)) (xs : List α) (al : Alloc) :
    ect_parse_bodies f xs al = (0, xs.map g, al) := by
  induction xs generalizing al with
  | nil => rfl
  | cons x xs ih => simp only [ect_parse_bodies, hf, ih, ne_eq, not_true_eq_false, if_false,
      List.map_cons]

theorem name_offset_list_length (mem : Mem) (n address : Nat) :
    (ect_parse_name_offset_list mem n address).2.1.length = n := by
  induction n generalizing address with
  | zero => rfl
  | succ n ih =>
    have hs : (ect_parse_string mem address).ret = 0 := rfl
    simp only [ect_parse_name_offset_list, hs, ne_eq, not_true_eq_false, if_false,
      List.length_cons, ih]

/-- C9: for a PLL block at a non-null address and with no failing
allocation, `ect_parse_pll_header` succeeds and publishes exactly
`num_of_pll` records, one per stored name/sub-offset pair and in stored
order; the record of the pair (name, offset) carries that name pointer, has
`type_pll` = the word at `address + offset`, `num_of_frequency` = the next
word and a frequency list that starts at `address + offset + 8`. -/
theorem C9_pll_header_decoded (mem : Mem) (address : Nat) (info : ect_info) (al : Alloc)
    (ha : address ≠ 0) (hal : AllOk al) :
    (ect_parse_pll_header mem address info al).1 = 0
      ∧ (ect_parse_pll_header mem address info al).2.1
        = { info with
            block_handle := some (BlockHandle.pll
              { parser_version := raw_readl mem address
                version := raw_readl mem (address + 4)
                num_of_pll := raw_readl mem (address + 4 + 4)
                pll_list := (ect_parse_name_offset_list mem (raw_readl mem (address + 4 + 4))
                  (address + 4 + 4 + 4)).2.1.map (ect_pll_at mem address) }) }
      ∧ ((ect_parse_name_offset_list mem (raw_readl mem (address + 4 + 4))
            (address + 4 + 4 + 4)).2.1.map (ect_pll_at mem address)).length
        = raw_readl mem (address + 4 + 4) := by
  have k1 := kzalloc_allok hal
  have k2 := kzalloc_allok k1.2
  have hb := bodies_pure
    (fun (p : ect_pll) (a : Alloc) =>
      ((ect_parse_pll mem (toInt32 (ect_parse_integer mem address).1)
          (address + p.pll_offset) p).1,
        (ect_parse_pll mem (toInt32 (ect_parse_integer mem address).1)
          (address + p.pll_offset) p).2, a))
    (fun p => (ect_parse_pll mem (toInt32 (ect_parse_integer mem address).1)
          (address + p.pll_offset) p).2) (fun _ _ => rfl)
  simp only [ect_parse_pll_header, ect_parse_named_header, ha, k1.1, k2.1, if_false,
    Bool.true_eq_false, name_offset_list_ret, ne_eq, not_true_eq_false, hb, List.map_map,
    List.length_map, name_offset_list_length]
  refine ⟨trivial, ?_, trivial⟩
  simp only [ect_parse_integer]
  congr

theorem C9_pll_header_decoded_witness :
    (ect_parse_pll_header scenario_mem 44 (ect_info_init [80, 76, 76] .pll_header) []).1 = 0
      ∧ (ect_parse_pll_header scenario_mem 44 (ect_info_init [80, 76, 76] .pll_header) []).2.1
        = { ect_info_init [80, 76, 76] .pll_header with
            block_handle := some (BlockHandle.pll
              { parser_version := 1, version := 825241648, num_of_pll := 1,
                pll_list := [{ pll_name := 60, pll_offset := 28, frequency_list := some 80,
                               type_pll := 0, num_of_frequency := 1 }] }) }
      ∧ cstr scenario_mem 60 = [67, 80, 85, 95, 80, 76, 76]
      ∧ ect_pll_frequency_at scenario_mem 80 0
        = { frequency := 1600000, p := 3, m := 100, s := 2, k := 0 } :=
  have h := C9_pll_header_decoded scenario_mem 44 (ect_info_init [80, 76, 76] .pll_header) []
    (by decide) (by decide)
  ⟨h.1, h.2.1.trans (by decide), by decide, by decide⟩

theorem starts_with_iff (hay needle : List Nat) :
    starts_with hay needle = true ↔ needle <+: hay := by
  induction needle generalizing hay with
  | nil => simp [starts_with]
  | cons n ns ih =>
    cases hay with
    | nil => simp [starts_with]
    | cons h hs =>
      simp only [starts_with, Bool.and_eq_true, beq_iff_eq, ih, List.cons_prefix_cons]
      constructor
      · exact fun ⟨a, b⟩ => ⟨a.symm, b⟩
      · exact fun ⟨a, b⟩ => ⟨a.symm, b⟩

theorem strstr_found_iff (hay needle : List Nat) :
    strstr_found hay needle = true ↔ needle <:+: hay := by
  induction hay with
  | nil =>
    cases needle with
    | nil => simp [strstr_found]
    | cons n ns => simp [strstr_found]
  | cons h hs ih =>
    simp only [strstr_found, Bool.or_eq_true, starts_with_iff, ih, List.infix_cons_iff]

/-- C10 (counterexample): in the scenario the decoded PLL block holds the
single PLL "CPU_PLL", and `ect_pll_get_pll(block, "PLL")` returns `NULL`:
the stored name does not occur in the query. -/
theorem C10_counterexample :
    BlockHandle.as_pll (ect_get_block (ect_parse_binary_header scenario_config scenario_mem 16
        (EctState.init scenario_config) []).state.ect_list [80, 76, 76])
        = some scenario_pll_header
      ∧ cstr scenario_mem 60 = [67, 80, 85, 95, 80, 76, 76]
      ∧ ect_pll_get_pll scenario_mem (some scenario_pll_header) (some [80, 76, 76]) = none := by
  decide

/-- C10 (amended): a PLL lookup whose query contains a stored PLL name as a
substring returns that PLL: in the scenario every query in which "CPU_PLL"
occurs returns the CPU_PLL record. -/
theorem C10_pll_query_containing_name (q : List Nat)
    (h : [67, 80, 85, 95, 80, 76, 76] <:+: q) :
    ect_pll_get_pll scenario_mem (some scenario_pll_header) (some q)
      = some { pll_name := 60, pll_offset := 28, frequency_list := some 80, type_pll := 0,
               num_of_frequency := 1 } := by
  have hc : cstr scenario_mem 60 = [67, 80, 85, 95, 80, 76, 76] := by decide
  have hs := (strstr_found_iff q [67, 80, 85, 95, 80, 76, 76]).mpr h
  simp only [ect_pll_get_pll, scenario_pll_header, List.take, ect_pll_scan, hc, hs, if_true]

theorem C10_pll_query_containing_name_witness :
    ect_pll_get_pll scenario_mem (some scenario_pll_header)
        (some [77, 89, 95, 67, 80, 85, 95, 80, 76, 76, 50])
      = some { pll_name := 60, pll_offset := 28, frequency_list := some 80, type_pll := 0,
               num_of_frequency := 1 } :=
  C10_pll_query_containing_name [77, 89, 95, 67, 80, 85, 95, 80, 76, 76, 50] (by decide)

/-! ## Lookups -/

theorem ect_strcmp_eq_zero (a b : List Nat) : ect_strcmp a b = 0 ↔ a = b := by
  induction a generalizing b with
  | nil =>
    cases b with
    | nil => simp [ect_strcmp]
    | cons y ys => simp [ect_strcmp]
  | cons x xs ih =>
    cases b with
    | nil => simp [ect_strcmp]
    | cons y ys =>
      simp only [ect_strcmp, List.cons.injEq]
      by_cases hxy : x = y
      · simp [hxy, ih]
      · simp only [hxy, if_false, false_and, iff_false]
        split_ifs <;> decide

theorem ect_scan_find {α : Type} (test : α → Bool) (l : List α) :
    ect_scan test l = l.find? test := by
  induction l with
  | nil => rfl
  | cons x rest ih =>
    simp only [ect_scan, List.find?_cons, ih]
    cases test x <;> rfl

theorem ect_pll_scan_find (mem : Mem) (q : List Nat) (l : List ect_pll) :
    ect_pll_scan mem q l = l.find? (fun p => decide (cstr mem p.pll_name <:+: q)) := by
  induction l with
  | nil => rfl
  | cons p rest ih =>
    simp only [ect_pll_scan, List.find?_cons, ih]
    by_cases h : cstr mem p.pll_name <:+: q
    · simp [h, (strstr_found_iff q (cstr mem p.pll_name)).mpr h]
    · have : strstr_found q (cstr mem p.pll_name) = false := by
        cases hc : strstr_found q (cstr mem p.pll_name) with
        | false => rfl
        | true => exact absurd ((strstr_found_iff _ _).mp hc) h
      simp [h, this]

/-- C11: for every PLL block and query `q`, `ect_pll_get_pll` returns the
first record, in list order, whose stored name occurs as a contiguous
substring of `q`, and returns not-found exactly when no stored name occurs
in `q`; with the single stored name "CPU_PLL", the query "GPU_PLL" returns
not-found. -/
theorem C11_pll_lookup_first_contained_name (mem : Mem) (header : ect_pll_header)
    (q : List Nat) :
    ect_pll_get_pll mem (some header) (some q)
        = (header.pll_list.take header.num_of_pll).find?
            (fun p => decide (cstr mem p.pll_name <:+: q))
      ∧ (ect_pll_get_pll mem (some header) (some q) = none
          ↔ ∀ p ∈ header.pll_list.take header.num_of_pll, ¬ cstr mem p.pll_name <:+: q)
      ∧ ect_pll_get_pll scenario_mem (some scenario_pll_header)
          (some [71, 80, 85, 95, 80, 76, 76]) = none := by
  have h : ect_pll_get_pll mem (some header) (some q)
      = (header.pll_list.take header.num_of_pll).find?
          (fun p => decide (cstr mem p.pll_name <:+: q)) := by
    simp only [ect_pll_get_pll, ect_pll_scan_find]
  refine ⟨h, ?_, by decide⟩
  rw [h, List.find?_eq_none]
  simp

/-- C15: `ect_new_timing_param_get_key` returns the first size record, in list
order, whose 64-bit `parameter_key` equals `key`, and not-found exactly when
no record has that key; a record whose key has the same low word as `key`
and another high word is never returned for it. -/
theorem C15_timing_lookup_by_full_key (header : ect_new_timing_param_header) (key : Nat) :
    ect_new_timing_param_get_key (some header) key
        = (header.size_list.take header.num_of_size).find?
            (fun s => decide (s.parameter_key = key))
      ∧ (ect_new_timing_param_get_key (some header) key = none
          ↔ ∀ s ∈ header.size_list.take header.num_of_size, s.parameter_key ≠ key)
      ∧ (∀ lo hi1 hi2 s, lo < 4294967296 → hi1 ≠ hi2 →
          key = (hi1 <<< 32) ||| lo → s.parameter_key = (hi2 <<< 32) ||| lo →
          ect_new_timing_param_get_key (some header) key ≠ some s) := by
  have h : ect_new_timing_param_get_key (some header) key
      = (header.size_list.take header.num_of_size).find?
          (fun s => decide (s.parameter_key = key)) := by
    simp only [ect_new_timing_param_get_key, ect_scan_find]
    congr 1
    funext s
    simp only [eq_comm]
  refine ⟨h, ?_, ?_⟩
  · rw [h, List.find?_eq_none]
    simp
  · intro lo hi1 hi2 s hlo hne hk hs hfound
    rw [h] at hfound
    have := List.find?_some hfound
    simp only [decide_eq_true_eq] at this
    rw [hs, hk, Nat.shiftLeft_eq, Nat.shiftLeft_eq, Nat.mul_comm hi2, Nat.mul_comm hi1,
      ← Nat.mul_add_lt_is_or hlo, ← Nat.mul_add_lt_is_or hlo] at this
    omega

/-- C16: `ect_get_block` returns the stored handle of the first registry
entry, wherever it stands in the registry, whose block name equals the query
exactly, and not-found when no registry name equals the query or when the
handle of that entry was never set. -/
theorem C16_get_block_by_exact_name (l : List ect_info) (name : List Nat) :
    ect_get_block l name
        = (l.find? (fun e => decide (e.block_name = name))).bind (fun e => e.block_handle)
      ∧ ((∀ e ∈ l, e.block_name ≠ name) → ect_get_block l name = none)
      ∧ (∀ pre e post, l = pre ++ e :: post → (∀ x ∈ pre, x.block_name ≠ name) →
          e.block_name = name → ect_get_block l name = e.block_handle) := by
  have h : ∀ l : List ect_info, ect_get_block l name
      = (l.find? (fun e => decide (e.block_name = name))).bind (fun e => e.block_handle) := by
    intro l
    induction l with
    | nil => rfl
    | cons e rest ih =>
      simp only [ect_get_block, List.find?_cons, ect_strcmp_eq_zero]
      by_cases he : e.block_name = name
      · simp [he]
      · have he' : ¬ name = e.block_name := fun h => he h.symm
        simp [he, he', ih]
  refine ⟨h l, ?_, ?_⟩
  · intro hn
    rw [h l, List.find?_eq_none.mpr (by simpa using hn)]
    rfl
  · intro pre e post hl hpre he
    rw [h l, hl, List.find?_append, List.find?_eq_none.mpr (by simpa using hpre)]
    simp [he]

theorem scan_by_name {α : Type} (mem : Mem) (name_of : α → Nat) (q : List Nat) (l : List α) :
    ect_scan (fun r => decide (ect_strcmp q (cstr mem (name_of r)) = 0)) l
        = l.find? (fun r => decide (cstr mem (name_of r) = q))
      ∧ ect_scan (fun r => decide (ect_strcmp (cstr mem (name_of r)) q = 0)) l
        = l.find? (fun r => decide (cstr mem (name_of r) = q)) := by
  simp only [ect_scan_find, ect_strcmp_eq_zero]
  refine ⟨?_, trivial⟩
  congr 1
  funext r
  simp only [eq_comm]

theorem rename_plain (soc : exynos_soc_info)
    (h : ¬ (soc.product_id = soc.EXYNOSAUTOV920_SOC_ID ∧ soc.main_rev = 0)) (x : List Nat) :
    ect_rename soc x = x := by
  simp only [ect_rename, h, if_false]

theorem rename_special (soc : exynos_soc_info)
    (h : soc.product_id = soc.EXYNOSAUTOV920_SOC_ID ∧ soc.main_rev = 0) (x : List Nat) :
    ect_rename soc x = x ++ [95, 69, 48] := by
  simp only [ect_rename, h, and_self, if_true]

/-- C12 (counterexample): on a platform that is not the special revision, a
DVFS domain is stored under a name of twenty bytes and queried with exactly
that name; `ect_dvfs_get_domain` returns not-found. -/
theorem C12_counterexample :
    cstr long_name_mem 30 = List.replicate 20 65
      ∧ ect_dvfs_get_domain plain_soc long_name_mem (some (dvfs_block_named 30))
          (some (List.replicate 20 65)) = .ok none := by
  decide

/-- C12 (amended): on a platform that is not the special SoC revision, the
AP-Thermal, Margin, Min-Lock and Generic-Parameter lookups return the first
record, in list order, whose stored name equals the query byte for byte (so
not-found exactly when none does), and so do the DVFS and ASV lookups for
every query shorter than `NAME_MAX_LEN` = 20 bytes; for a query of 20 or
more bytes the DVFS and ASV lookups return not-found. -/
theorem C12_exact_name_lookups (soc : exynos_soc_info) (mem : Mem) (q : List Nat)
    (hsoc : ¬ (soc.product_id = soc.EXYNOSAUTOV920_SOC_ID ∧ soc.main_rev = 0)) :
    (∀ h : ect_dvfs_header, ect_dvfs_get_domain soc mem (some h) (some q)
        = .ok (if q.length < NAME_MAX_LEN then
            (h.domain_list.take h.num_of_domain).find?
              (fun d => decide (cstr mem d.domain_name = q))
          else none))
      ∧ (∀ h : ect_voltage_header, ect_asv_get_domain soc mem (some h) (some q)
        = .ok (if q.length < NAME_MAX_LEN then
            (h.domain_list.take h.num_of_domain).find?
              (fun d => decide (cstr mem d.domain_name = q))
          else none))
      ∧ (∀ h : ect_ap_thermal_header, ect_ap_thermal_get_function mem (some h) (some q)
        = (h.function_list.take h.num_of_function).find?
            (fun f => decide (cstr mem f.function_name = q)))
      ∧ (∀ h : ect_margin_header, ect_margin_get_domain mem (some h) (some q)
        = (h.domain_list.take h.num_of_domain).find?
            (fun d => decide (cstr mem d.domain_name = q)))
      ∧ (∀ h : ect_minlock_header, ect_minlock_get_domain mem (some h) (some q)
        = (h.domain_list.take h.num_of_domain).find?
            (fun d => decide (cstr mem d.domain_name = q)))
      ∧ (∀ h : ect_gen_param_header, ect_gen_param_get_table mem (some h) q
        = (h.table_list.take h.num_of_table).find?
            (fun t => decide (cstr mem t.table_name = q))) := by
  refine ⟨fun h => ?_, fun h => ?_, fun h => ?_, fun h => ?_, fun h => ?_, fun h => ?_⟩
  · simp only [ect_dvfs_get_domain, rename_plain soc hsoc, ge_iff_le]
    by_cases hl : q.length < NAME_MAX_LEN
    · rw [if_neg (by omega), if_neg (by omega), if_pos hl]
      exact congrArg Buffered.ok
        (scan_by_name mem (fun d : ect_dvfs_domain => d.domain_name) q _).1
    · rw [if_pos (by omega), if_neg hl]
  · simp only [ect_asv_get_domain, rename_plain soc hsoc, ge_iff_le]
    by_cases hl : q.length < NAME_MAX_LEN
    · rw [if_neg (by omega), if_neg (by omega), if_pos hl]
      exact congrArg Buffered.ok
        (scan_by_name mem (fun d : ect_voltage_domain => d.domain_name) q _).1
    · rw [if_pos (by omega), if_neg hl]
  · exact (scan_by_name mem (fun f : ect_ap_thermal_function => f.function_name) q _).1
  · exact (scan_by_name mem (fun d : ect_margin_domain => d.domain_name) q _).1
  · exact (scan_by_name mem (fun d : ect_minlock_domain => d.domain_name) q _).1
  · exact (scan_by_name mem (fun t : ect_gen_param_table => t.table_name) q _).2

theorem C12_exact_name_lookups_witness :
    ect_dvfs_get_domain plain_soc short_name_mem (some (dvfs_block_named 1)) (some [67, 80, 85])
      = .ok (some (ect_dvfs_domain_named (1, 0))) :=
  ((C12_exact_name_lookups plain_soc short_name_mem [67, 80, 85] (by decide)).1
    (dvfs_block_named 1)).trans (by decide)

/-- C13 (counterexample): on the special SoC revision a DVFS domain is
stored as twenty bytes "A" followed by "_E0"; queried with the twenty bytes
"A", `ect_dvfs_get_domain` returns not-found. -/
theorem C13_counterexample :
    cstr long_name_mem 1 = List.replicate 20 65 ++ [95, 69, 48]
      ∧ ect_dvfs_get_domain special_soc long_name_mem (some (dvfs_block_named 1))
          (some (List.replicate 20 65)) = .ok none := by
  decide

/-- C13 (amended): on the special SoC variant at silicon revision 0,
`ect_rename X` is `X` followed by "_E0" (and it is `X` on every other
platform identity), and for every name `X` short enough for the renamed
string and its terminator to fit the compare buffer (`|X| + 4 <= 20`) the
DVFS and ASV lookups queried with `X` return the first record stored as `X`
followed by "_E0"; such a record is found whenever the block holds one.
Queries of 20 or more bytes return not-found. -/
theorem C13_rename_appends_suffix (soc : exynos_soc_info) (mem : Mem) (x : List Nat)
    (hsoc : soc.product_id = soc.EXYNOSAUTOV920_SOC_ID ∧ soc.main_rev = 0)
    (hx : x.length + 4 ≤ NAME_MAX_LEN) :
    ect_rename soc x = x ++ [95, 69, 48]
      ∧ (∀ soc' : exynos_soc_info,
          ¬ (soc'.product_id = soc'.EXYNOSAUTOV920_SOC_ID ∧ soc'.main_rev = 0) →
          ect_rename soc' x = x)
      ∧ (∀ h : ect_dvfs_header, ect_dvfs_get_domain soc mem (some h) (some x)
          = .ok ((h.domain_list.take h.num_of_domain).find?
              (fun d => decide (cstr mem d.domain_name = x ++ [95, 69, 48]))))
      ∧ (∀ h : ect_voltage_header, ect_asv_get_domain soc mem (some h) (some x)
          = .ok ((h.domain_list.take h.num_of_domain).find?
              (fun d => decide (cstr mem d.domain_name = x ++ [95, 69, 48]))))
      ∧ (∀ (h : ect_dvfs_header) (d : ect_dvfs_domain),
          d ∈ h.domain_list.take h.num_of_domain → cstr mem d.domain_name = x ++ [95, 69, 48] →
          ∃ d', ect_dvfs_get_domain soc mem (some h) (some x) = .ok (some d')
            ∧ cstr mem d'.domain_name = x ++ [95, 69, 48])
      ∧ (∀ (h : ect_voltage_header) (d : ect_voltage_domain),
          d ∈ h.domain_list.take h.num_of_domain → cstr mem d.domain_name = x ++ [95, 69, 48] →
          ∃ d', ect_asv_get_domain soc mem (some h) (some x) = .ok (some d')
            ∧ cstr mem d'.domain_name = x ++ [95, 69, 48])
      ∧ (∀ (q : List Nat) (h : ect_dvfs_header) (h' : ect_voltage_header),
          NAME_MAX_LEN ≤ q.length →
          ect_dvfs_get_domain soc mem (some h) (some q) = .ok none
            ∧ ect_asv_get_domain soc mem (some h') (some q) = .ok none) := by
  have hlen : ¬ x.length ≥ NAME_MAX_LEN := by omega
  have hfit : ¬ (x ++ [95, 69, 48]).length + 1 > NAME_MAX_LEN := by
    simp only [List.length_append, List.length_cons, List.length_nil]
    omega
  have hd : ∀ h : ect_dvfs_header, ect_dvfs_get_domain soc mem (some h) (some x)
      = .ok ((h.domain_list.take h.num_of_domain).find?
          (fun d => decide (cstr mem d.domain_name = x ++ [95, 69, 48]))) := by
    intro h
    simp only [ect_dvfs_get_domain, rename_special soc hsoc, hlen, hfit, if_false]
    exact congrArg Buffered.ok
      (scan_by_name mem (fun d : ect_dvfs_domain => d.domain_name) _ _).1
  have ha : ∀ h : ect_voltage_header, ect_asv_get_domain soc mem (some h) (some x)
      = .ok ((h.domain_list.take h.num_of_domain).find?
          (fun d => decide (cstr mem d.domain_name = x ++ [95, 69, 48]))) := by
    intro h
    simp only [ect_asv_get_domain, rename_special soc hsoc, hlen, hfit, if_false]
    exact congrArg Buffered.ok
      (scan_by_name mem (fun d : ect_voltage_domain => d.domain_name) _ _).1
  refine ⟨rename_special soc hsoc x, fun soc' h' => rename_plain soc' h' x, hd, ha, ?_, ?_, ?_⟩
  · intro h d hmem hname
    rw [hd h]
    cases hf : (h.domain_list.take h.num_of_domain).find?
        (fun d => decide (cstr mem d.domain_name = x ++ [95, 69, 48])) with
    | none =>
      have := List.find?_eq_none.mp hf d hmem
      simp [hname] at this
    | some d' =>
      have := List.find?_some hf
      exact ⟨d', rfl, by simpa using this⟩
  · intro h d hmem hname
    rw [ha h]
    cases hf : (h.domain_list.take h.num_of_domain).find?
        (fun d => decide (cstr mem d.domain_name = x ++ [95, 69, 48])) with
    | none =>
      have := List.find?_eq_none.mp hf d hmem
      simp [hname] at this
    | some d' =>
      have := List.find?_some hf
      exact ⟨d', rfl, by simpa using this⟩
  · intro q h h' hq
    simp only [ect_dvfs_get_domain, ect_asv_get_domain, ge_iff_le, hq, if_true, and_self]

theorem C13_rename_appends_suffix_witness :
    ect_rename special_soc [67, 80, 85] = [67, 80, 85, 95, 69, 48]
      ∧ ect_dvfs_get_domain special_soc short_name_mem (some (dvfs_block_named 5))
          (some [67, 80, 85]) = .ok (some (ect_dvfs_domain_named (5, 0))) :=
  have h := C13_rename_appends_suffix special_soc short_name_mem [67, 80, 85]
    (by decide) (by decide)
  ⟨h.1, (h.2.2.1 (dvfs_block_named 5)).trans (by decide)⟩

theorem ect_scan_none {α : Type} (test : α → Bool) (l : List α)
    (h : ∀ x ∈ l, test x = false) : ect_scan test l = none := by
  rw [ect_scan_find, List.find?_eq_none]
  intro x hx
  simp [h x hx]

/-- C14: each of the eight lookups returns not-found (`NULL`, never an error
value) when the block handle is absent.  With the block present and no
matching record (no stored name equals the query, no stored PLL name occurs
in the query, no record has the key) the PLL, AP-Thermal, Margin, Min-Lock,
Generic-Parameter and New-Timing-Parameter lookups return not-found, and so
do the DVFS and ASV lookups when the query has `NAME_MAX_LEN` or more bytes
or its renamed form and terminator fit `compare_name[NAME_MAX_LEN]`.  For
every other query, and these exist (17 to 19 bytes on the special SoC
revision), the DVFS and ASV lookups write past the end of `compare_name`
before any record is compared, whatever the block holds. -/
theorem C14_lookups_not_found_unless_overrun (soc : exynos_soc_info) (mem : Mem)
    (name : Option (List Nat)) (q : List Nat) (key : Nat) :
    (ect_dvfs_get_domain soc mem none name = .ok none
        ∧ ect_pll_get_pll mem none name = none
        ∧ ect_asv_get_domain soc mem none name = .ok none
        ∧ ect_ap_thermal_get_function mem none name = none
        ∧ ect_margin_get_domain mem none name = none
        ∧ ect_minlock_get_domain mem none name = none
        ∧ ect_gen_param_get_table mem none q = none
        ∧ ect_new_timing_param_get_key none key = none)
      ∧ (∀ h : ect_dvfs_header,
          (∀ d ∈ h.domain_list.take h.num_of_domain, cstr mem d.domain_name ≠ ect_rename soc q) →
          NAME_MAX_LEN ≤ q.length ∨ (ect_rename soc q).length + 1 ≤ NAME_MAX_LEN →
          ect_dvfs_get_domain soc mem (some h) (some q) = .ok none)
      ∧ (∀ h : ect_pll_header,
          (∀ p ∈ h.pll_list.take h.num_of_pll, ¬ cstr mem p.pll_name <:+: q) →
          ect_pll_get_pll mem (some h) (some q) = none)
      ∧ (∀ h : ect_voltage_header,
          (∀ d ∈ h.domain_list.take h.num_of_domain, cstr mem d.domain_name ≠ ect_rename soc q) →
          NAME_MAX_LEN ≤ q.length ∨ (ect_rename soc q).length + 1 ≤ NAME_MAX_LEN →
          ect_asv_get_domain soc mem (some h) (some q) = .ok none)
      ∧ (∀ h : ect_ap_thermal_header,
          (∀ f ∈ h.function_list.take h.num_of_function, cstr mem f.function_name ≠ q) →
          ect_ap_thermal_get_function mem (some h) (some q) = none)
      ∧ (∀ h : ect_margin_header,
          (∀ d ∈ h.domain_list.take h.num_of_domain, cstr mem d.domain_name ≠ q) →
          ect_margin_get_domain mem (some h) (some q) = none)
      ∧ (∀ h : ect_minlock_header,
          (∀ d ∈ h.domain_list.take h.num_of_domain, cstr mem d.domain_name ≠ q) →
          ect_minlock_get_domain mem (some h) (some q) = none)
      ∧ (∀ h : ect_gen_param_header,
          (∀ t ∈ h.table_list.take h.num_of_table, cstr mem t.table_name ≠ q) →
          ect_gen_param_get_table mem (some h) q = none)
      ∧ (∀ h : ect_new_timing_param_header,
          (∀ s ∈ h.size_list.take h.num_of_size, s.parameter_key ≠ key) →
          ect_new_timing_param_get_key (some h) key = none)
      ∧ (∀ (h : ect_dvfs_header) (h1 : ect_voltage_header),
          q.length < NAME_MAX_LEN → NAME_MAX_LEN < (ect_rename soc q).length + 1 →
          ect_dvfs_get_domain soc mem (some h) (some q) = .overrun
            ∧ ect_asv_get_domain soc mem (some h1) (some q) = .overrun)
      ∧ (∀ (h : ect_dvfs_header) (h1 : ect_voltage_header) (x : List Nat),
          17 ≤ x.length → x.length ≤ 19 →
          ect_dvfs_get_domain special_soc mem (some h) (some x) = .overrun
            ∧ ect_asv_get_domain special_soc mem (some h1) (some x) = .overrun) := by
  refine ⟨⟨?_, ?_, ?_, ?_, ?_, ?_, rfl, rfl⟩, ?_, ?_, ?_, ?_, ?_, ?_, ?_, ?_, ?_, ?_⟩
  · cases name <;> rfl
  · cases name <;> rfl
  · cases name <;> rfl
  · cases name <;> rfl
  · cases name <;> rfl
  · cases name <;> rfl
  · intro h hn hfit
    simp only [ect_dvfs_get_domain, ge_iff_le, gt_iff_lt]
    by_cases hl : NAME_MAX_LEN ≤ q.length
    · rw [if_pos hl]
    · have hf : ¬ NAME_MAX_LEN < (ect_rename soc q).length + 1 := by
        rcases hfit with h1 | h1
        · exact absurd h1 hl
        · omega
      rw [if_neg hl, if_neg hf]
      refine congrArg Buffered.ok (ect_scan_none _ _ (fun d hd => ?_))
      simp only [decide_eq_false_iff_not, ect_strcmp_eq_zero]
      exact fun he => hn d hd he.symm
  · intro h hn
    simp only [ect_pll_get_pll, ect_pll_scan_find]
    exact List.find?_eq_none.mpr (fun p hp => by simpa using hn p hp)
  · intro h hn hfit
    simp only [ect_asv_get_domain, ge_iff_le, gt_iff_lt]
    by_cases hl : NAME_MAX_LEN ≤ q.length
    · rw [if_pos hl]
    · have hf : ¬ NAME_MAX_LEN < (ect_rename soc q).length + 1 := by
        rcases hfit with h1 | h1
        · exact absurd h1 hl
        · omega
      rw [if_neg hl, if_neg hf]
      refine congrArg Buffered.ok (ect_scan_none _ _ (fun d hd => ?_))
      simp only [decide_eq_false_iff_not, ect_strcmp_eq_zero]
      exact fun he => hn d hd he.symm
  · intro h hn
    refine ect_scan_none _ _ (fun d hd => ?_)
    simp only [decide_eq_false_iff_not, ect_strcmp_eq_zero]
    exact fun he => hn d hd he.symm
  · intro h hn
    refine ect_scan_none _ _ (fun d hd => ?_)
    simp only [decide_eq_false_iff_not, ect_strcmp_eq_zero]
    exact fun he => hn d hd he.symm
  · intro h hn
    refine ect_scan_none _ _ (fun d hd => ?_)
    simp only [decide_eq_false_iff_not, ect_strcmp_eq_zero]
    exact fun he => hn d hd he.symm
  · intro h hn
    refine ect_scan_none _ _ (fun d hd => ?_)
    simp only [decide_eq_false_iff_not, ect_strcmp_eq_zero]
    exact fun he => hn d hd he
  · intro h hn
    refine ect_scan_none _ _ (fun s hs => ?_)
    simp only [decide_eq_false_iff_not]
    exact fun he => hn s hs he.symm
  · intro h h1 hl hover
    have hl1 : ¬ NAME_MAX_LEN ≤ q.length := by omega
    simp only [ect_dvfs_get_domain, ect_asv_get_domain, ge_iff_le, gt_iff_lt, hl1, hover,
      if_true, if_false, and_self]
  · intro h h1 x hx1 hx2
    have hs : special_soc.product_id = special_soc.EXYNOSAUTOV920_SOC_ID
        ∧ special_soc.main_rev = 0 := by decide
    have hl1 : ¬ NAME_MAX_LEN ≤ x.length := by
      simp only [NAME_MAX_LEN]
      omega
    have hover : NAME_MAX_LEN < (x ++ [95, 69, 48]).length + 1 := by
      simp only [NAME_MAX_LEN, List.length_append, List.length_cons, List.length_nil]
      omega
    simp only [ect_dvfs_get_domain, ect_asv_get_domain, rename_special special_soc hs,
      ge_iff_le, gt_iff_lt, hl1, hover, if_true, if_false, and_self]

/-! ## Primitive readers -/

theorem readb_append_right (pre l : List Nat) (i : Nat) :
    readb (pre ++ l) (pre.length + i) = readb l i := by
  simp only [readb, List.getD_eq_getElem?_getD]
  rw [List.getElem?_append_right (by omega)]
  simp

theorem readb_drop (mem : Mem) (a i : Nat) : readb (mem.drop a) i = readb mem (a + i) := by
  simp only [readb, List.getD_eq_getElem?_getD, List.getElem?_drop]

theorem raw_readl_append_right (pre l : List Nat) (i : Nat) :
    raw_readl (pre ++ l) (pre.length + i) = raw_readl l i := by
  simp only [raw_readl, Nat.add_assoc, readb_append_right]

theorem raw_readl_lt (mem : Mem) (a : Nat) : raw_readl mem a < 4294967296 := by
  have h0 := readb_lt mem a
  have h1 := readb_lt mem (a + 1)
  have h2 := readb_lt mem (a + 2)
  have h3 := readb_lt mem (a + 3)
  simp only [raw_readl]
  omega

theorem raw_readl_le32 (v : Nat) (post : List Nat) (hv : v < 4294967296) :
    raw_readl (le32 v ++ post) 0 = v := by
  simp only [raw_readl, readb, le32, word_bytes, List.cons_append, List.getD_cons_zero,
    List.getD_cons_succ, Nat.zero_add]
  omega

theorem sign_bytes_drop (mem : Mem) (a : Nat) (h : a + 4 ≤ mem.length) :
    sign_bytes mem a = ((mem.drop a).take 4).map (fun b => b % 256) := by
  have hl : 4 ≤ (mem.drop a).length := by simp only [List.length_drop]; omega
  have e0 := readb_drop mem a 0
  have e1 := readb_drop mem a 1
  have e2 := readb_drop mem a 2
  have e3 := readb_drop mem a 3
  simp only [Nat.add_zero] at e0
  simp only [sign_bytes, ← e0, ← e1, ← e2, ← e3]
  match hm : mem.drop a, hl with
  | b0 :: b1 :: b2 :: b3 :: tl, _ => simp [readb]

/-- C17: with at least four bytes left at the cursor, `ect_parse_integer`
returns the value whose four bytes, low byte first, are the four bytes at
the cursor (a value below `2 ^ 32`), and leaves the cursor four bytes
further. -/
theorem C17_parse_integer_reads_word (mem : Mem) (address : Nat)
    (h : address + 4 ≤ mem.length) :
    word_bytes (ect_parse_integer mem address).1
        = ((mem.drop address).take 4).map (fun b => b % 256)
      ∧ (ect_parse_integer mem address).1
        = readb mem address + 256 * readb mem (address + 1) + 65536 * readb mem (address + 2)
          + 16777216 * readb mem (address + 3)
      ∧ (ect_parse_integer mem address).1 < 4294967296
      ∧ (ect_parse_integer mem address).2 = address + 4 := by
  refine ⟨?_, rfl, raw_readl_lt mem address, rfl⟩
  simp only [ect_parse_integer, word_bytes_readl, sign_bytes_drop mem address h]

theorem C17_parse_integer_reads_word_witness :
    word_bytes (ect_parse_integer scenario_mem 24).1 = [64, 0, 0, 0]
      ∧ (ect_parse_integer scenario_mem 24).1 = 64
      ∧ (ect_parse_integer scenario_mem 24).2 = 28 :=
  have h := C17_parse_integer_reads_word scenario_mem 24 (by decide)
  ⟨h.1.trans (by decide), h.2.1.trans (by decide), h.2.2.2⟩

/-- C18: `ect_parse_integer64` reads the word at the cursor as the low word
and the next word as the high word, returns `high * 2 ^ 32 + low`, which is
`(high << 32) | low` and keeps every bit of both words, and advances the
cursor by eight bytes. -/
theorem C18_parse_integer64_low_word_first (mem : Mem) (address : Nat) :
    (ect_parse_integer64 mem address).1
        = raw_readl mem (address + 4) * 4294967296 + raw_readl mem address
      ∧ (ect_parse_integer64 mem address).1
        = (raw_readl mem (address + 4) <<< 32) ||| raw_readl mem address
      ∧ (ect_parse_integer64 mem address).1 % 4294967296 = (ect_parse_integer mem address).1
      ∧ (ect_parse_integer64 mem address).1 / 4294967296
        = (ect_parse_integer mem (ect_parse_integer mem address).2).1
      ∧ (ect_parse_integer64 mem address).1 < 18446744073709551616
      ∧ (ect_parse_integer64 mem address).2 = address + 8 := by
  have hl := raw_readl_lt mem address
  have hh := raw_readl_lt mem (address + 4)
  have hv : (ect_parse_integer64 mem address).1
      = raw_readl mem (address + 4) * 4294967296 + raw_readl mem address := by
    simp only [ect_parse_integer64, Nat.shiftLeft_eq]
    rw [Nat.mul_comm, ← Nat.mul_add_lt_is_or (i := 32) hl]
  refine ⟨hv, rfl, ?_, ?_, ?_, rfl⟩
  · rw [hv]
    simp only [ect_parse_integer]
    omega
  · rw [hv]
    simp only [ect_parse_integer]
    omega
  · rw [hv]
    omega

theorem parse_string_in_range (mem : Mem) (address : Nat)
    (hn : raw_readl mem address + 5 ≤ 4294967296) :
    ect_parse_string mem address
      = { ret := 0, value := address + 4, length := raw_readl mem address + 1,
          address := address + 4 + 4 * ((raw_readl mem address + 1 + 3) / 4) } := by
  have hm : (raw_readl mem address + 1) % 4294967296 = raw_readl mem address + 1 :=
    Nat.mod_eq_of_lt (by omega)
  by_cases hz : (raw_readl mem address + 1) % 4 = 0
  · have e : address + 4 + (raw_readl mem address + 1)
        = address + 4 + 4 * ((raw_readl mem address + 1 + 3) / 4) := by omega
    simp only [ect_parse_string, ect_parse_integer, ALIGNMENT_SIZE, hm, hz, ne_eq,
      not_true_eq_false, if_false, e]
  · have hb : (raw_readl mem address + 1 + 4 - (raw_readl mem address + 1) % 4) % 4294967296
        = raw_readl mem address + 1 + 4 - (raw_readl mem address + 1) % 4 :=
      Nat.mod_eq_of_lt (by omega)
    have e : address + 4 + (raw_readl mem address + 1 + 4 - (raw_readl mem address + 1) % 4)
        = address + 4 + 4 * ((raw_readl mem address + 1 + 3) / 4) := by omega
    simp only [ect_parse_string, ect_parse_integer, ALIGNMENT_SIZE, hm, hz, ne_eq,
      not_false_eq_true, if_true, hb, e]

theorem parse_string_wrapped (mem : Mem) (address : Nat)
    (hn : raw_readl mem address = 4294967295) :
    ect_parse_string mem address
      = { ret := 0, value := address + 4, length := 0, address := address + 4 } := by
  have e : (4294967295 + 1) % 4294967296 = 0 := by decide
  simp only [ect_parse_string, ect_parse_integer, ALIGNMENT_SIZE, hn, e, Nat.zero_mod, ne_eq,
    not_true_eq_false, if_false, Nat.add_zero]

theorem parse_integer64_value (mem : Mem) (address : Nat) :
    ect_parse_integer64 mem address
      = (raw_readl mem (address + 4) * 4294967296 + raw_readl mem address, address + 8) := by
  have hl := raw_readl_lt mem address
  simp only [ect_parse_integer64, Nat.shiftLeft_eq]
  rw [Nat.mul_comm, ← Nat.mul_add_lt_is_or (i := 32) hl]

/-- C19 (counterexample): for the stored length word `2 ^ 32 - 1` the
reported length is `0`, not `n + 1`, and for the stored length word
`2 ^ 32 - 2` the reported length is `2 ^ 32 - 1` while the cursor does not
move past the length word at all. -/
theorem C19_counterexample :
    ect_parse_string (le32 4294967295 ++ [65, 66, 67, 0]) 0
        = { ret := 0, value := 4, length := 0, address := 4 }
      ∧ ect_parse_string (le32 4294967294 ++ [65, 66, 67, 0]) 0
        = { ret := 0, value := 4, length := 4294967295, address := 4 } := by
  decide

/-- C19 (amended): for every stored length word `n` with `n + 5 <= 2 ^ 32`,
`ect_parse_string` reports the length `L = n + 1`, returns the slice that
starts right after the length word and leaves the cursor at that start plus
the smallest multiple of 4 that is at least `L`: the advance past the body
is a multiple of 4, at least `L` and less than `L + 4`. -/
theorem C19_parse_string_padded_advance (mem : Mem) (address : Nat)
    (hn : raw_readl mem address + 5 ≤ 4294967296) :
    (ect_parse_string mem address).ret = 0
      ∧ (ect_parse_string mem address).length = raw_readl mem address + 1
      ∧ (ect_parse_string mem address).value = address + 4
      ∧ (ect_parse_string mem address).value ≤ (ect_parse_string mem address).address
      ∧ ((ect_parse_string mem address).address - (ect_parse_string mem address).value) % 4 = 0
      ∧ (ect_parse_string mem address).length
          ≤ (ect_parse_string mem address).address - (ect_parse_string mem address).value
      ∧ (ect_parse_string mem address).address - (ect_parse_string mem address).value
          < (ect_parse_string mem address).length + 4
      ∧ (∀ m, m % 4 = 0 → (ect_parse_string mem address).length ≤ m →
          (ect_parse_string mem address).address - (ect_parse_string mem address).value ≤ m) := by
  rw [parse_string_in_range mem address hn]
  refine ⟨rfl, rfl, rfl, ?_, ?_, ?_, ?_, ?_⟩
  · show address + 4 ≤ address + 4 + 4 * ((raw_readl mem address + 1 + 3) / 4)
    omega
  · show (address + 4 + 4 * ((raw_readl mem address + 1 + 3) / 4) - (address + 4)) % 4 = 0
    omega
  · show raw_readl mem address + 1
      ≤ address + 4 + 4 * ((raw_readl mem address + 1 + 3) / 4) - (address + 4)
    omega
  · show address + 4 + 4 * ((raw_readl mem address + 1 + 3) / 4) - (address + 4)
      < raw_readl mem address + 1 + 4
    omega
  · intro m hm hle
    show address + 4 + 4 * ((raw_readl mem address + 1 + 3) / 4) - (address + 4) ≤ m
    have : raw_readl mem address + 1 ≤ m := hle
    omega

theorem C19_parse_string_padded_advance_witness :
    (ect_parse_string scenario_mem 56).length = 8
      ∧ (ect_parse_string scenario_mem 56).value = 60
      ∧ (ect_parse_string scenario_mem 56).address = 68 :=
  have h := C19_parse_string_padded_advance scenario_mem 56 (by decide)
  ⟨h.2.1.trans (by decide), h.2.2.1, by decide⟩

theorem enc_string_length (s : List Nat) :
    (enc_string s).length = 4 + 4 * ((s.length + 1 + 3) / 4) := by
  simp only [enc_string, le32, word_bytes, List.length_append, List.length_cons,
    List.length_nil, List.length_replicate]
  omega

/-- C20 (counterexample): the encoding of a string of `2 ^ 32 - 1` bytes
decodes to the reported length `0` instead of `2 ^ 32`, and the cursor stops
right after the length word instead of at the end of the encoding. -/
theorem C20_counterexample :
    (ect_parse_string (enc_string (List.replicate 4294967295 65)) 0).length = 0
      ∧ (ect_parse_string (enc_string (List.replicate 4294967295 65)) 0).address = 4
      ∧ (enc_string (List.replicate 4294967295 65)).length = 4294967300 := by
  have hr : raw_readl (enc_string (List.replicate 4294967295 65)) 0 = 4294967295 := by
    have := raw_readl_le32 4294967295
      (List.replicate 4294967295 65 ++ [0]
        ++ List.replicate ((4 - (4294967295 + 1) % 4) % 4) 0) (by decide)
    simpa only [enc_string, List.length_replicate, List.append_assoc] using this
  refine ⟨?_, ?_, ?_⟩
  · rw [parse_string_wrapped _ _ hr]
  · rw [parse_string_wrapped _ _ hr]
  · rw [enc_string_length, List.length_replicate]

/-- C20 (amended): primitive round trip.  Wherever the encoding stands in
the image, `ect_parse_integer` on the encoding of a 32-bit value `v` gives
`v`, `ect_parse_integer64` on the encoding of a 64-bit value `w` gives `w`,
and `ect_parse_string` on the encoding of a string `s` of fewer than
`2 ^ 32 - 4` bytes gives the slice that holds `s` followed by the
terminator, with reported length `|s| + 1`; each time the cursor ends at the
end of the encoding. -/
theorem C20_primitive_round_trip (pre post : List Nat) (v w : Nat) (s : List Nat)
    (hv : v < 4294967296) (hw : w < 18446744073709551616)
    (hs : s.length + 5 ≤ 4294967296) :
    ect_parse_integer (pre ++ enc_u32 v ++ post) pre.length
        = (v, pre.length + (enc_u32 v).length)
      ∧ ect_parse_integer64 (pre ++ enc_u64 w ++ post) pre.length
        = (w, pre.length + (enc_u64 w).length)
      ∧ (ect_parse_string (pre ++ enc_string s ++ post) pre.length).ret = 0
      ∧ (ect_parse_string (pre ++ enc_string s ++ post) pre.length).length = s.length + 1
      ∧ (ect_parse_string (pre ++ enc_string s ++ post) pre.length).value = pre.length + 4
      ∧ ((pre ++ enc_string s ++ post).drop
            (ect_parse_string (pre ++ enc_string s ++ post) pre.length).value).take
            (s.length + 1) = s ++ [0]
      ∧ (ect_parse_string (pre ++ enc_string s ++ post) pre.length).address
        = pre.length + (enc_string s).length := by
  have h32 : ∀ (x : Nat) (rest : List Nat), x < 4294967296 →
      raw_readl (pre ++ (le32 x ++ rest)) pre.length = x := by
    intro x rest hx
    have := raw_readl_append_right pre (le32 x ++ rest) 0
    rw [Nat.add_zero] at this
    rw [this, raw_readl_le32 x rest hx]
  refine ⟨?_, ?_, ?_⟩
  · simp only [ect_parse_integer, enc_u32, List.append_assoc, h32 v post hv]
    rfl
  · have hlo : w % 4294967296 < 4294967296 := Nat.mod_lt _ (by decide)
    have hhi : w / 4294967296 < 4294967296 := by omega
    have h1 := h32 (w % 4294967296) (le32 (w / 4294967296) ++ post) hlo
    have h2 : raw_readl (pre ++ (le32 (w % 4294967296) ++ (le32 (w / 4294967296) ++ post)))
        (pre.length + 4) = w / 4294967296 := by
      have e : pre ++ (le32 (w % 4294967296) ++ (le32 (w / 4294967296) ++ post))
          = (pre ++ le32 (w % 4294967296)) ++ (le32 (w / 4294967296) ++ post) := by
        simp only [List.append_assoc]
      have hl : (pre ++ le32 (w % 4294967296)).length = pre.length + 4 := by
        simp [le32, word_bytes]
      have := raw_readl_append_right (pre ++ le32 (w % 4294967296))
        (le32 (w / 4294967296) ++ post) 0
      rw [Nat.add_zero, hl] at this
      rw [e, this, raw_readl_le32 _ _ hhi]
    have e : pre ++ enc_u64 w ++ post
        = pre ++ (le32 (w % 4294967296) ++ (le32 (w / 4294967296) ++ post)) := by
      simp only [enc_u64, List.append_assoc]
    have hlen : (enc_u64 w).length = 8 := by
      simp [enc_u64, le32, word_bytes]
    rw [parse_integer64_value, e, h1, h2, hlen, Nat.div_add_mod']
  · have hr : raw_readl (pre ++ enc_string s ++ post) pre.length = s.length := by
      have := h32 s.length (s ++ [0]
        ++ List.replicate ((4 - (s.length + 1) % 4) % 4) 0 ++ post) (by omega)
      simpa only [enc_string, List.append_assoc] using this
    have hp := parse_string_in_range (pre ++ enc_string s ++ post) pre.length (by omega)
    rw [hp, hr, enc_string_length]
    refine ⟨rfl, rfl, rfl, ?_, ?_⟩
    · show ((pre ++ enc_string s ++ post).drop (pre.length + 4)).take (s.length + 1) = s ++ [0]
      have e : pre ++ enc_string s ++ post
          = (pre ++ le32 s.length) ++ ((s ++ [0])
              ++ (List.replicate ((4 - (s.length + 1) % 4) % 4) 0 ++ post)) := by
        simp only [enc_string, List.append_assoc]
      have hl : (pre ++ le32 s.length).length = pre.length + 4 := by
        simp [le32, word_bytes]
      rw [e, ← hl, List.drop_left]
      have hl2 : (s ++ [0]).length = s.length + 1 := by simp
      rw [← hl2, List.take_left]
    · show pre.length + 4 + 4 * ((s.length + 1 + 3) / 4)
        = pre.length + (4 + 4 * ((s.length + 1 + 3) / 4))
      omega

theorem C20_primitive_round_trip_witness :
    ect_parse_integer ([9, 9] ++ enc_u32 1600000 ++ [7]) 2 = (1600000, 6)
      ∧ ect_parse_integer64 ([9, 9] ++ enc_u64 1311768467463790320 ++ [7]) 2
        = (1311768467463790320, 10)
      ∧ (ect_parse_string ([9, 9] ++ enc_string [67, 80, 85] ++ [7]) 2).length = 4
      ∧ (ect_parse_string ([9, 9] ++ enc_string [67, 80, 85] ++ [7]) 2).address = 10 :=
  have h := C20_primitive_round_trip [9, 9] [7] 1600000 1311768467463790320 [67, 80, 85]
    (by decide) (by decide) (by decide)
  ⟨h.1, h.2.1, h.2.2.2.1, h.2.2.2.2.2.2⟩

/-! ## Record bodies -/

/-- C21 (counterexample): the image holds the length word 100 and a single
further byte; `ect_parse_string` returns success, reports the length 101 and
moves the cursor to address 108, far beyond the five bytes of the image. -/
theorem C21_counterexample :
    truncated_string_mem.length = 5
      ∧ (ect_parse_string truncated_string_mem 0).ret = 0
      ∧ (ect_parse_string truncated_string_mem 0).length = 101
      ∧ (ect_parse_string truncated_string_mem 0).address = 108 := by
  decide

/-- C21 (amended): `ect_parse_string` has no failure path and no
truncated-buffer error.  It returns success for every image and cursor; its
result depends on the stored length word alone, not on how many bytes
follow, so the string loops that test its result never take their error
branch. -/
theorem C21_parse_string_never_fails (mem : Mem) (address : Nat) :
    (ect_parse_string mem address).ret = 0
      ∧ (∀ mem1 : Mem, raw_readl mem1 address = raw_readl mem address →
          ect_parse_string mem1 address = ect_parse_string mem address)
      ∧ (∀ n, (ect_parse_name_offset_list mem n address).1 = 0)
      ∧ (∀ n, (ect_parse_clock_names mem n address).1 = 0) := by
  refine ⟨rfl, ?_, fun n => name_offset_list_ret mem n address,
    fun n => clock_names_ret mem n address⟩
  intro mem1 h
  simp only [ect_parse_string, ect_parse_integer, h]

theorem dvfs_domain_scalars (cfg : ect_config) (mem : Mem) (pv : Int) (address : Nat)
    (domain : ect_dvfs_domain) (al : Alloc) :
    (ect_parse_dvfs_domain cfg mem pv address domain al).2.1.max_frequency
        = raw_readl mem address
      ∧ (ect_parse_dvfs_domain cfg mem pv address domain al).2.1.min_frequency
        = raw_readl mem (address + 4)
      ∧ (ect_parse_dvfs_domain cfg mem pv address domain al).2.1.boot_level_idx
        = (if pv ≥ 2 then toInt32 (raw_readl mem (address + 4 + 4)) else -1)
      ∧ (ect_parse_dvfs_domain cfg mem pv address domain al).2.1.resume_level_idx
        = (if pv ≥ 2 then toInt32 (raw_readl mem (address + 4 + 4 + 4)) else -1)
      ∧ (ect_parse_dvfs_domain cfg mem pv address domain al).2.1.mode
        = (if pv ≥ 3 then raw_readl mem (if pv ≥ 2 then address + 4 + 4 + 4 + 4 else address + 4 + 4)
           else cfg.e_dvfs_mode_clock_name)
      ∧ (ect_parse_dvfs_domain cfg mem pv address domain al).2.1.num_of_clock
        = raw_readl mem (if pv ≥ 3 then (if pv ≥ 2 then address + 4 + 4 + 4 + 4 else address + 4 + 4) + 4
            else if pv ≥ 2 then address + 4 + 4 + 4 + 4 else address + 4 + 4)
      ∧ (ect_parse_dvfs_domain cfg mem pv address domain al).2.1.num_of_level
        = raw_readl mem ((if pv ≥ 3 then (if pv ≥ 2 then address + 4 + 4 + 4 + 4 else address + 4 + 4) + 4
            else if pv ≥ 2 then address + 4 + 4 + 4 + 4 else address + 4 + 4) + 4) := by
  simp only [ect_parse_dvfs_domain, ect_parse_integer, ect_parse_dvfs_levels]
  split_ifs <;> exact ⟨rfl, rfl, rfl, rfl, rfl, rfl, rfl⟩

/-- C22: for every DVFS domain body, `max_frequency` and `min_frequency`
are the first two words; with `parser_version < 2` the boot and resume level
indices are the sentinel `-1` and no word is consumed for them (the count
words follow `min_frequency` directly); with `parser_version >= 2` they are
the two words that follow `min_frequency`, read as C `int`, and the next
field (the mode word from version 3 on, the clock count before) follows
them. -/
theorem C22_dvfs_level_indices_gated (cfg : ect_config) (mem : Mem) (pv : Int) (address : Nat)
    (domain : ect_dvfs_domain) (al : Alloc) :
    (ect_parse_dvfs_domain cfg mem pv address domain al).2.1.max_frequency
        = raw_readl mem address
      ∧ (ect_parse_dvfs_domain cfg mem pv address domain al).2.1.min_frequency
        = raw_readl mem (address + 4)
      ∧ (pv < 2 →
          (ect_parse_dvfs_domain cfg mem pv address domain al).2.1.boot_level_idx = -1
            ∧ (ect_parse_dvfs_domain cfg mem pv address domain al).2.1.resume_level_idx = -1
            ∧ (ect_parse_dvfs_domain cfg mem pv address domain al).2.1.num_of_clock
              = raw_readl mem (address + 8)
            ∧ (ect_parse_dvfs_domain cfg mem pv address domain al).2.1.num_of_level
              = raw_readl mem (address + 12))
      ∧ (2 ≤ pv →
          (ect_parse_dvfs_domain cfg mem pv address domain al).2.1.boot_level_idx
              = toInt32 (raw_readl mem (address + 8))
            ∧ (ect_parse_dvfs_domain cfg mem pv address domain al).2.1.resume_level_idx
              = toInt32 (raw_readl mem (address + 12))
            ∧ (pv < 3 →
                (ect_parse_dvfs_domain cfg mem pv address domain al).2.1.num_of_clock
                  = raw_readl mem (address + 16))
            ∧ (3 ≤ pv →
                (ect_parse_dvfs_domain cfg mem pv address domain al).2.1.mode
                  = raw_readl mem (address + 16))) := by
  obtain ⟨h1, h2, h3, h4, h5, h6, h7⟩ := dvfs_domain_scalars cfg mem pv address domain al
  refine ⟨h1, h2, fun hlt => ?_, fun hge => ?_⟩
  · have n2 : ¬ pv ≥ 2 := by omega
    have n3 : ¬ pv ≥ 3 := by omega
    refine ⟨?_, ?_, ?_, ?_⟩
    · rw [h3, if_neg n2]
    · rw [h4, if_neg n2]
    · rw [h6, if_neg n3, if_neg n2]
    · rw [h7, if_neg n3, if_neg n2]
  · have p2 : pv ≥ 2 := hge
    refine ⟨?_, ?_, fun hlt => ?_, fun h3le => ?_⟩
    · rw [h3, if_pos p2]
    · rw [h4, if_pos p2]
    · have n3 : ¬ pv ≥ 3 := by omega
      rw [h6, if_neg n3, if_pos p2]
    · have p3 : pv ≥ 3 := h3le
      rw [h5, if_pos p3, if_pos p2]

theorem clock_names_length (mem : Mem) (n address : Nat) :
    (ect_parse_clock_names mem n address).2.1.length = n := by
  induction n generalizing address with
  | zero => rfl
  | succ n ih =>
    have hs : (ect_parse_string mem address).ret = 0 := rfl
    simp only [ect_parse_clock_names, hs, ne_eq, not_true_eq_false, if_false,
      List.length_cons, ih]

/-- C23 (counterexample): a DVFS domain body of parser version 3 whose
stored mode word is 2, which is neither mode selector, is decoded
successfully and leaves both the clock-name list and the SFR-address list
null. -/
theorem C23_counterexample :
    (ect_parse_dvfs_domain scenario_config dvfs_mode2_mem 3 0 (ect_dvfs_domain_named (0, 0))
        []).1 = 0
      ∧ (ect_parse_dvfs_domain scenario_config dvfs_mode2_mem 3 0 (ect_dvfs_domain_named (0, 0))
        []).2.1.mode = 2
      ∧ (ect_parse_dvfs_domain scenario_config dvfs_mode2_mem 3 0 (ect_dvfs_domain_named (0, 0))
        []).2.1.list_clock = none
      ∧ (ect_parse_dvfs_domain scenario_config dvfs_mode2_mem 3 0 (ect_dvfs_domain_named (0, 0))
        []).2.1.list_sfr = none := by
  decide

/-- C23 (amended): for every DVFS domain that `ect_parse_dvfs_domain`
decodes successfully into a zeroed record: when the mode selects SFR
addresses the SFR-address list is set and the clock-name list is null; when
it selects clock names, which is the case for every `parser_version < 3`
(the two selectors being different), the clock-name list holds
`num_of_clock` names and the SFR-address list is null; for any other stored
mode word, possible from parser version 3 on, both lists are null. -/
theorem C23_dvfs_clock_or_sfr_list (cfg : ect_config) (mem : Mem) (pv : Int) (address : Nat)
    (e : Nat × Nat) (al : Alloc)
    (hok : (ect_parse_dvfs_domain cfg mem pv address (ect_dvfs_domain_named e) al).1 = 0) :
    ((ect_parse_dvfs_domain cfg mem pv address (ect_dvfs_domain_named e) al).2.1.mode
          = cfg.e_dvfs_mode_sfr_address →
        (ect_parse_dvfs_domain cfg mem pv address (ect_dvfs_domain_named e) al).2.1.list_sfr ≠ none
          ∧ (ect_parse_dvfs_domain cfg mem pv address (ect_dvfs_domain_named e) al).2.1.list_clock
            = none)
      ∧ ((ect_parse_dvfs_domain cfg mem pv address (ect_dvfs_domain_named e) al).2.1.mode
            ≠ cfg.e_dvfs_mode_sfr_address →
          (ect_parse_dvfs_domain cfg mem pv address (ect_dvfs_domain_named e) al).2.1.mode
            = cfg.e_dvfs_mode_clock_name →
          (ect_parse_dvfs_domain cfg mem pv address (ect_dvfs_domain_named e) al).2.1.list_sfr = none
            ∧ ∃ names,
              (ect_parse_dvfs_domain cfg mem pv address (ect_dvfs_domain_named e) al).2.1.list_clock
                = some names
              ∧ names.length
                = (ect_parse_dvfs_domain cfg mem pv address (ect_dvfs_domain_named e)
                    al).2.1.num_of_clock)
      ∧ ((ect_parse_dvfs_domain cfg mem pv address (ect_dvfs_domain_named e) al).2.1.mode
            ≠ cfg.e_dvfs_mode_sfr_address →
          (ect_parse_dvfs_domain cfg mem pv address (ect_dvfs_domain_named e) al).2.1.mode
            ≠ cfg.e_dvfs_mode_clock_name →
          (ect_parse_dvfs_domain cfg mem pv address (ect_dvfs_domain_named e) al).2.1.list_sfr = none
            ∧ (ect_parse_dvfs_domain cfg mem pv address (ect_dvfs_domain_named e)
                al).2.1.list_clock = none)
      ∧ (pv < 3 →
          (ect_parse_dvfs_domain cfg mem pv address (ect_dvfs_domain_named e) al).2.1.mode
            = cfg.e_dvfs_mode_clock_name) := by
  obtain ⟨-, -, -, -, h5, h6, -⟩ :=
    dvfs_domain_scalars cfg mem pv address (ect_dvfs_domain_named e) al
  rw [h5]
  refine ⟨?_, ?_, ?_, ?_⟩
  · intro hm
    simp only [ect_parse_dvfs_domain, ect_parse_integer] at hm ⊢
    rw [if_pos hm]
    exact ⟨by simp [ect_parse_dvfs_levels], rfl⟩
  · intro hs hc
    rw [h6]
    simp only [ect_parse_dvfs_domain, ect_parse_integer] at hs hc hok ⊢
    rw [if_neg hs, if_pos hc] at hok ⊢
    by_cases hk : (kzalloc al).1 = false
    · rw [if_pos hk] at hok
      exact absurd hok neg_enomem_ne
    · rw [if_neg hk]
      simp only [clock_names_ret, ne_eq, not_true_eq_false, if_false]
      exact ⟨rfl, _, rfl, clock_names_length _ _ _⟩
  · intro hs hc
    simp only [ect_parse_dvfs_domain, ect_parse_integer] at hs hc ⊢
    rw [if_neg hs, if_neg hc]
    exact ⟨rfl, rfl⟩
  · intro hlt
    have n3 : ¬ pv ≥ 3 := by omega
    simp only [n3, if_false]

theorem C23_dvfs_clock_or_sfr_list_witness :
    (ect_parse_dvfs_domain scenario_config dvfs_clock_mem 3 0 (ect_dvfs_domain_named (0, 0))
        []).2.1.list_sfr = none
      ∧ (ect_parse_dvfs_domain scenario_config dvfs_clock_mem 3 0 (ect_dvfs_domain_named (0, 0))
        []).2.1.list_clock = some [32] :=
  have h := C23_dvfs_clock_or_sfr_list scenario_config dvfs_clock_mem 3 0 (0, 0) [] (by decide)
  ⟨(h.2.1 (by decide) (by decide)).1, by decide⟩

/-- C24: for every voltage table decoded by `ect_parse_voltage_table`,
exactly one of the raw voltage matrix and the compact step-index matrix is
non-null: with `parser_version >= 3` the raw matrix is null, the step-index
matrix is set and `volt_step` is `PMIC_VOLTAGE_STEP`; with
`parser_version < 3` the raw matrix is set, the step-index matrix is null
and `volt_step` is 0.  The decoder always returns success. -/
theorem C24_voltage_table_one_matrix (cfg : ect_config) (mem : Mem) (pv : Int) (address : Nat)
    (domain : ect_voltage_domain) (table : ect_voltage_table) :
    (ect_parse_voltage_table cfg mem pv address domain table).1 = 0
      ∧ ((ect_parse_voltage_table cfg mem pv address domain table).2.2.voltages.isSome
          ≠ (ect_parse_voltage_table cfg mem pv address domain table).2.2.voltages_step.isSome)
      ∧ (3 ≤ pv →
          (ect_parse_voltage_table cfg mem pv address domain table).2.2.voltages = none
            ∧ (ect_parse_voltage_table cfg mem pv address domain table).2.2.voltages_step
              = some (address + 12 + 4 * domain.num_of_level)
            ∧ (ect_parse_voltage_table cfg mem pv address domain table).2.2.volt_step
              = cfg.PMIC_VOLTAGE_STEP)
      ∧ (pv < 3 →
          (ect_parse_voltage_table cfg mem pv address domain table).2.2.voltages
              = some (if 2 ≤ pv then address + 12 + 4 * domain.num_of_level else address + 4)
            ∧ (ect_parse_voltage_table cfg mem pv address domain table).2.2.voltages_step = none
            ∧ (ect_parse_voltage_table cfg mem pv address domain table).2.2.volt_step = 0) := by
  refine ⟨?_, ?_, fun h3 => ?_, fun h3 => ?_⟩
  · simp only [ect_parse_voltage_table]
    split_ifs <;> rfl
  · simp only [ect_parse_voltage_table]
    split_ifs <;> simp
  · have p3 : pv ≥ 3 := h3
    have p2 : pv ≥ 2 := by omega
    simp [ect_parse_voltage_table, ect_parse_integer, p3, p2, Nat.add_assoc]
  · have n3 : ¬ pv ≥ 3 := by omega
    by_cases p2 : pv ≥ 2
    · have q2 : 2 ≤ pv := p2
      simp [ect_parse_voltage_table, ect_parse_integer, n3, p2, q2, Nat.add_assoc]
    · have q2 : ¬ 2 ≤ pv := p2
      simp [ect_parse_voltage_table, ect_parse_integer, n3, p2, q2]

/-- C25: for every margin domain decoded by `ect_parse_margin_domain`,
exactly one of the raw offset matrix and the compact step-index matrix is
non-null: with `parser_version >= 2` the raw matrix is null, the compact
matrix starts right after the two count words and `volt_step` is
`PMIC_VOLTAGE_STEP`; below version 2 the raw matrix starts there and the
compact matrix is null.  The two count words are the first two words of the
body and the decoder always returns success. -/
theorem C25_margin_domain_one_matrix (cfg : ect_config) (mem : Mem) (pv : Int) (address : Nat)
    (domain : ect_margin_domain) :
    (ect_parse_margin_domain cfg mem pv address domain).1 = 0
      ∧ (ect_parse_margin_domain cfg mem pv address domain).2.num_of_group
        = raw_readl mem address
      ∧ (ect_parse_margin_domain cfg mem pv address domain).2.num_of_level
        = raw_readl mem (address + 4)
      ∧ ((ect_parse_margin_domain cfg mem pv address domain).2.offset.isSome
          ≠ (ect_parse_margin_domain cfg mem pv address domain).2.offset_compact.isSome)
      ∧ (2 ≤ pv →
          (ect_parse_margin_domain cfg mem pv address domain).2.offset = none
            ∧ (ect_parse_margin_domain cfg mem pv address domain).2.offset_compact
              = some (address + 8)
            ∧ (ect_parse_margin_domain cfg mem pv address domain).2.volt_step
              = cfg.PMIC_VOLTAGE_STEP)
      ∧ (pv < 2 →
          (ect_parse_margin_domain cfg mem pv address domain).2.offset = some (address + 8)
            ∧ (ect_parse_margin_domain cfg mem pv address domain).2.offset_compact = none
            ∧ (ect_parse_margin_domain cfg mem pv address domain).2.volt_step
              = domain.volt_step) := by
  by_cases p2 : pv ≥ 2
  · have n : ¬ pv < 2 := by omega
    have q : 2 ≤ pv := p2
    simp [ect_parse_margin_domain, ect_parse_integer, p2, q, n, Nat.add_assoc]
  · have n : ¬ 2 ≤ pv := p2
    have q : pv < 2 := by omega
    simp [ect_parse_margin_domain, ect_parse_integer, p2, n, q, Nat.add_assoc]

/-- C26: for every voltage table, `table_version` is the first word; below
parser version 2 the boot and resume level indices are `-1` and the
enable-mask is null; from parser version 2 on they are the two words that
follow `table_version`, read as C `int`, and the enable-mask points at the
`num_of_level` words that follow them: the voltage matrix (raw or compact)
starts `4 * num_of_level` bytes after the mask. -/
theorem C26_voltage_table_version_gated (cfg : ect_config) (mem : Mem) (pv : Int)
    (address : Nat) (domain : ect_voltage_domain) (table : ect_voltage_table) :
    (ect_parse_voltage_table cfg mem pv address domain table).2.2.table_version
        = raw_readl mem address
      ∧ (pv < 2 →
          (ect_parse_voltage_table cfg mem pv address domain table).2.2.boot_level_idx = -1
            ∧ (ect_parse_voltage_table cfg mem pv address domain table).2.2.resume_level_idx = -1
            ∧ (ect_parse_voltage_table cfg mem pv address domain table).2.2.level_en = none
            ∧ (ect_parse_voltage_table cfg mem pv address domain table).2.2.voltages
              = some (address + 4))
      ∧ (2 ≤ pv →
          (ect_parse_voltage_table cfg mem pv address domain table).2.2.boot_level_idx
              = toInt32 (raw_readl mem (address + 4))
            ∧ (ect_parse_voltage_table cfg mem pv address domain table).2.2.resume_level_idx
              = toInt32 (raw_readl mem (address + 8))
            ∧ (ect_parse_voltage_table cfg mem pv address domain table).2.2.level_en
              = some (address + 12)
            ∧ (if 3 ≤ pv then
                (ect_parse_voltage_table cfg mem pv address domain table).2.2.voltages_step
              else (ect_parse_voltage_table cfg mem pv address domain table).2.2.voltages)
              = some (address + 12 + 4 * domain.num_of_level)) := by
  refine ⟨?_, fun h2 => ?_, fun h2 => ?_⟩
  · simp only [ect_parse_voltage_table, ect_parse_integer]
    split_ifs <;> rfl
  · have n2 : ¬ pv ≥ 2 := by omega
    have n3 : ¬ pv ≥ 3 := by omega
    simp [ect_parse_voltage_table, ect_parse_integer, n2, n3]
  · have p2 : pv ≥ 2 := h2
    by_cases p3 : pv ≥ 3
    · have q3 : 3 ≤ pv := p3
      simp [ect_parse_voltage_table, ect_parse_integer, p2, p3, q3, Nat.add_assoc]
    · have q3 : ¬ 3 ≤ pv := p3
      simp [ect_parse_voltage_table, ect_parse_integer, p2, p3, q3, Nat.add_assoc]

theorem toInt32_small (w : Nat) (h : w < 2147483648) : toInt32 w = (w : Int) := by
  have h1 : w % 4294967296 = w := Nat.mod_eq_of_lt (by omega)
  simp only [toInt32, h1, h, if_true]

theorem read_value64_eq (mem : Mem) (address index : Nat) (h : index < 1073741824) :
    ect_read_value64 mem address (index : Int)
      = raw_readl mem (address + 8 * index + 4) * 4294967296
        + raw_readl mem (address + 8 * index) := by
  have hi : toInt32 (Int.toNat (((index : Int) * 2) % 4294967296)) = ((2 * index : Nat) : Int) := by
    have e : Int.toNat (((index : Int) * 2) % 4294967296) = 2 * index := by omega
    rw [e, toInt32_small _ (by omega)]
  have e1 : ptr_add address (4 * ((2 * index : Nat) : Int)) = address + 8 * index := by
    simp only [ptr_add]
    omega
  have e2 : ptr_add address (4 * (((2 * index : Nat) : Int) + 1)) = address + 8 * index + 4 := by
    simp only [ptr_add]
    omega
  have hl := raw_readl_lt mem (address + 8 * index)
  simp only [ect_read_value64, hi, e1, e2, Nat.shiftLeft_eq]
  rw [Nat.mul_comm, ← Nat.mul_add_lt_is_or (i := 32) hl]

/-- C30: for every cell index below `2 ^ 30` (so that doubling it does not
overflow a C `int`), `ect_read_value64 array index` is the 64-bit-pair
primitive applied at byte offset `8 * index` of the array: the word
`array[2 * index]` is the low half and `array[2 * index + 1]` the high half;
this holds in particular for the cell `row * num_of_timing_param + col` that
`ect_dump_new_timing_parameter` reads in extended mode. -/
theorem C30_read_value64_is_pair_primitive (mem : Mem) (address index : Nat)
    (h : index < 1073741824) :
    ect_read_value64 mem address (index : Int)
        = (ect_parse_integer64 mem (address + 8 * index)).1
      ∧ ect_read_value64 mem address (index : Int)
        = raw_readl mem (address + 4 * (2 * index + 1)) * 4294967296
          + raw_readl mem (address + 4 * (2 * index))
      ∧ (∀ (size : ect_new_timing_param_size) (row col : Nat),
          size.timing_parameter = some address →
          row * size.num_of_timing_param + col = index →
          ect_timing_cell64 mem size row col
            = (ect_parse_integer64 mem (address + 8 * index)).1) := by
  have hv := read_value64_eq mem address index h
  have hp := parse_integer64_value mem (address + 8 * index)
  refine ⟨?_, ?_, ?_⟩
  · rw [hv, hp]
  · have a1 : address + 4 * (2 * index + 1) = address + 8 * index + 4 := by omega
    have a2 : address + 4 * (2 * index) = address + 8 * index := by omega
    rw [hv, a1, a2]
  · intro size row col hs hidx
    simp only [ect_timing_cell64, hs, Option.getD_some, hidx]
    rw [toInt32_small _ (by omega), hv, hp]

theorem C30_read_value64_is_pair_primitive_witness :
    ect_read_value64 (enc_u64 1 ++ enc_u64 1311768467463790320) 0 1 = 1311768467463790320 :=
  (C30_read_value64_is_pair_primitive (enc_u64 1 ++ enc_u64 1311768467463790320) 0 1
    (by decide)).1.trans (by decide)

/-! ## Failure policy and dump order -/

theorem dispatch_call_index (cfg : ect_config) (mem : Mem) (name : List Nat)
    (address i j : Nat) (l : List ect_info) (al : Alloc) :
    ∀ c ∈ (ect_dispatch cfg mem name address i j l al).calls, c.i = i := by
  induction l generalizing j al with
  | nil => intro c hc; simp [ect_dispatch] at hc
  | cons e rest ih =>
    intro c hc
    simp only [ect_dispatch] at hc
    split_ifs at hc with h1 h2
    · exact ih _ _ c hc
    · simp only [List.mem_singleton] at hc
      rw [hc]
    · simp only [List.mem_cons] at hc
      rcases hc with hc | hc
      · rw [hc]
      · exact ih _ _ c hc

theorem run_call_index (cfg : ect_config) (mem : Mem) (dir : List (List Nat × Nat))
    (i : Nat) (l : List ect_info) (al : Alloc) :
    ∀ c ∈ (run_directory cfg mem dir i l al).calls, i ≤ c.i ∧ c.i < i + dir.length := by
  induction dir generalizing i l al with
  | nil => intro c hc; simp [run_directory] at hc
  | cons d rest ih =>
    intro c hc
    simp only [run_directory] at hc
    split_ifs at hc with h1
    · have := dispatch_call_index cfg mem d.1 d.2 i 0 l al c hc
      simp only [List.length_cons]
      omega
    · simp only [List.mem_append] at hc
      simp only [List.length_cons]
      rcases hc with hc | hc
      · have := dispatch_call_index cfg mem d.1 d.2 i 0 l al c hc
        omega
      · have := ih (i + 1) _ _ c hc
        omega

theorem dispatch_split (cfg : ect_config) (mem : Mem) (name : List Nat) (address i : Nat)
    (l1 l2 : List ect_info) (e : ect_info) (j : Nat) (al : Alloc)
    (h1 : (ect_dispatch cfg mem name address i j l1 al).ret = 0)
    (hm : ect_match name e = true)
    (hf : (invoke_decoder cfg mem e.parser address e
            (ect_dispatch cfg mem name address i j l1 al).alloc).1 ≠ 0) :
    ect_dispatch cfg mem name address i j (l1 ++ e :: l2) al
      = { ret := -EINVAL
          list := (ect_dispatch cfg mem name address i j l1 al).list ++ e :: l2
          alloc := (invoke_decoder cfg mem e.parser address e
            (ect_dispatch cfg mem name address i j l1 al).alloc).2.2
          calls := (ect_dispatch cfg mem name address i j l1 al).calls
            ++ [{ i := i, j := j + l1.length, address := address }] } := by
  induction l1 generalizing j al with
  | nil =>
    have hs : strncmp name e.block_name e.block_name_length = 0 := by
      simpa [ect_match] using hm
    simp only [ect_dispatch] at hf
    simp only [List.nil_append, ect_dispatch, hs, ne_eq, not_true_eq_false, if_false, hf,
      not_false_eq_true, if_true, invoke_decoder_fail cfg mem e.parser address e al hf,
      List.length_nil, Nat.add_zero]
  | cons x l1 ih =>
    simp only [List.cons_append, ect_dispatch, List.append_eq] at h1 hf ⊢
    by_cases hx : strncmp name x.block_name x.block_name_length = 0
    · simp only [hx, ne_eq, not_true_eq_false, if_false] at h1 hf ⊢
      by_cases hp : (invoke_decoder cfg mem x.parser address x al).1 = 0
      · simp only [hp, ne_eq, not_true_eq_false, if_false] at h1 hf ⊢
        rw [ih (j + 1) _ h1 hf]
        simp only [List.cons_append, List.length_cons, DispatchResult.mk.injEq, true_and,
          ParserCall.mk.injEq, List.cons.injEq, and_true, List.append_cancel_left_eq]
        omega
      · simp only [hp, ne_eq, not_false_eq_true, if_true] at h1
        exact absurd h1 neg_einval_ne
    · simp only [hx, ne_eq, not_false_eq_true, if_true] at h1 hf ⊢
      rw [ih (j + 1) _ h1 hf]
      simp only [List.cons_append, List.length_cons, DispatchResult.mk.injEq, true_and,
        ParserCall.mk.injEq, List.cons.injEq, and_true, List.append_cancel_left_eq]
      omega

theorem run_split (cfg : ect_config) (mem : Mem) (pre post : List (List Nat × Nat))
    (d : List Nat × Nat) (i : Nat) (l : List ect_info) (al : Alloc)
    (h0 : (run_directory cfg mem pre i l al).ret = 0)
    (hf : (ect_dispatch cfg mem d.1 d.2 (i + pre.length) 0
            (run_directory cfg mem pre i l al).list
            (run_directory cfg mem pre i l al).alloc).ret ≠ 0) :
    run_directory cfg mem (pre ++ d :: post) i l al
      = { ret := (ect_dispatch cfg mem d.1 d.2 (i + pre.length) 0
            (run_directory cfg mem pre i l al).list (run_directory cfg mem pre i l al).alloc).ret
          list := (ect_dispatch cfg mem d.1 d.2 (i + pre.length) 0
            (run_directory cfg mem pre i l al).list (run_directory cfg mem pre i l al).alloc).list
          alloc := (ect_dispatch cfg mem d.1 d.2 (i + pre.length) 0
            (run_directory cfg mem pre i l al).list (run_directory cfg mem pre i l al).alloc).alloc
          calls := (run_directory cfg mem pre i l al).calls
            ++ (ect_dispatch cfg mem d.1 d.2 (i + pre.length) 0
              (run_directory cfg mem pre i l al).list
              (run_directory cfg mem pre i l al).alloc).calls } := by
  induction pre generalizing i l al with
  | nil =>
    simp only [run_directory, List.length_nil, Nat.add_zero] at hf
    simp only [List.nil_append, run_directory, hf, ne_eq, not_false_eq_true, if_true,
      List.length_nil, Nat.add_zero]
  | cons x pre ih =>
    simp only [List.cons_append, run_directory, List.append_eq] at h0 hf ⊢
    by_cases hx : (ect_dispatch cfg mem x.1 x.2 i 0 l al).ret = 0
    · simp only [hx, ne_eq, not_true_eq_false, if_false, List.length_cons] at h0 hf ⊢
      have e1 : i + (pre.length + 1) = i + 1 + pre.length := by omega
      rw [e1] at hf ⊢
      rw [ih (i + 1) _ _ h0 hf, List.append_assoc]
    · simp only [hx, ne_eq, not_false_eq_true, if_true] at h0

theorem parse_as_run (cfg : ect_config) (mem : Mem) (a : Nat) (st : EctState) (al : Alloc)
    (ha : a ≠ 0) (hs : sign_bytes mem a = ect_signature) :
    ect_parse_binary_header cfg mem a st al
      = (if (run_directory cfg mem (ect_blocks_at mem a) 0 st.ect_list al).ret ≠ 0 then
           { ret := (run_directory cfg mem (ect_blocks_at mem a) 0 st.ect_list al).ret
             state := { st with
               ect_list := (run_directory cfg mem (ect_blocks_at mem a) 0 st.ect_list al).list }
             alloc := (run_directory cfg mem (ect_blocks_at mem a) 0 st.ect_list al).alloc
             calls := (run_directory cfg mem (ect_blocks_at mem a) 0 st.ect_list al).calls }
         else
           { ret := 0
             state :=
               { ect_list := (run_directory cfg mem (ect_blocks_at mem a) 0 st.ect_list al).list
                 ect_header_info := some (ect_header_at mem a) }
             alloc := (run_directory cfg mem (ect_blocks_at mem a) 0 st.ect_list al).alloc
             calls := (run_directory cfg mem (ect_blocks_at mem a) 0 st.ect_list al).calls }) := by
  rw [parse_good cfg mem a st al ha hs]
  simp only [parse_directory_run, ect_blocks_at, ect_directory_at]

/-- C28: the directory of the table is `pre ++ d :: post`; the entries of
`pre` are dispatched successfully and leave the registry `l1 ++ e :: l2`;
for entry `d`, at position `i = |pre|`, the decoders of `l1` succeed and the
decoder of the selected registry entry `e` fails.  Then
`ect_parse_binary_header` returns the error `-EINVAL`; the failing call is
the last decoder call (none is made for a later registry entry or a later
directory entry); the registry entry `e` is left as it was, without the
precedence `i`, and everything after it is untouched; the header handle is
not published. -/
theorem C28_decoder_failure_aborts_parse (cfg : ect_config) (mem : Mem) (ect_address : Nat)
    (st : EctState) (al : Alloc) (pre post : List (List Nat × Nat)) (d : List Nat × Nat)
    (l1 l2 : List ect_info) (e : ect_info)
    (ha : ect_address ≠ 0) (hs : sign_bytes mem ect_address = ect_signature)
    (hdir : ect_blocks_at mem ect_address = pre ++ d :: post)
    (hpre : (run_directory cfg mem pre 0 st.ect_list al).ret = 0)
    (hreg : (run_directory cfg mem pre 0 st.ect_list al).list = l1 ++ e :: l2)
    (hl1 : (ect_dispatch cfg mem d.1 d.2 pre.length 0 l1
              (run_directory cfg mem pre 0 st.ect_list al).alloc).ret = 0)
    (hm : ect_match d.1 e = true)
    (hfail : (invoke_decoder cfg mem e.parser d.2 e
                (ect_dispatch cfg mem d.1 d.2 pre.length 0 l1
                  (run_directory cfg mem pre 0 st.ect_list al).alloc).alloc).1 ≠ 0) :
    (ect_parse_binary_header cfg mem ect_address st al).ret = -EINVAL
      ∧ (ect_parse_binary_header cfg mem ect_address st al).calls
        = (run_directory cfg mem pre 0 st.ect_list al).calls
          ++ dispatch_calls d.1 d.2 pre.length 0 l1
          ++ [{ i := pre.length, j := l1.length, address := d.2 }]
      ∧ (∀ c ∈ (ect_parse_binary_header cfg mem ect_address st al).calls, c.i ≤ pre.length)
      ∧ (ect_parse_binary_header cfg mem ect_address st al).state.ect_list
        = l1.map (publish cfg mem d.1 d.2 pre.length) ++ e :: l2
      ∧ (ect_parse_binary_header cfg mem ect_address st al).state.ect_list[l1.length]? = some e
      ∧ (ect_parse_binary_header cfg mem ect_address st al).state.ect_header_info
        = st.ect_header_info := by
  have hd := dispatch_split cfg mem d.1 d.2 pre.length l1 l2 e 0
    (run_directory cfg mem pre 0 st.ect_list al).alloc hl1 hm hfail
  have hok := dispatch_ok cfg mem d.1 d.2 pre.length 0 l1
    (run_directory cfg mem pre 0 st.ect_list al).alloc hl1
  rw [hok.1, hok.2, Nat.zero_add, ← hreg] at hd
  have hne : (ect_dispatch cfg mem d.1 d.2 (0 + pre.length) 0
      (run_directory cfg mem pre 0 st.ect_list al).list
      (run_directory cfg mem pre 0 st.ect_list al).alloc).ret ≠ 0 := by
    rw [Nat.zero_add, hd]
    exact neg_einval_ne
  have hr := run_split cfg mem pre post d 0 st.ect_list al hpre hne
  rw [Nat.zero_add, hd] at hr
  have hp := parse_as_run cfg mem ect_address st al ha hs
  rw [hdir, hr] at hp
  simp only [ne_eq, neg_einval_ne, not_false_eq_true, if_true] at hp
  rw [hp]
  refine ⟨rfl, ?_, ?_, rfl, ?_, rfl⟩
  · simp only [List.append_assoc]
  · intro c hc
    simp only [List.mem_append, List.mem_singleton] at hc
    rcases hc with hc | hc | hc
    · have := run_call_index cfg mem pre 0 st.ect_list al c hc
      omega
    · rw [← hok.2] at hc
      have := dispatch_call_index cfg mem d.1 d.2 pre.length 0 l1 _ c hc
      omega
    · rw [hc]
  · show (l1.map (publish cfg mem d.1 d.2 pre.length) ++ e :: l2)[l1.length]? = some e
    rw [List.getElem?_append_right (by simp)]
    simp

theorem C28_decoder_failure_aborts_parse_witness :
    (ect_parse_binary_header scenario_config scenario_mem 16 (EctState.init scenario_config)
        [false]).ret = -EINVAL
      ∧ (ect_parse_binary_header scenario_config scenario_mem 16 (EctState.init scenario_config)
        [false]).calls = [{ i := 0, j := 4, address := 44 }]
      ∧ (ect_parse_binary_header scenario_config scenario_mem 16 (EctState.init scenario_config)
        [false]).state.ect_list[4]? = some (ect_info_init [80, 76, 76] .pll_header)
      ∧ (ect_parse_binary_header scenario_config scenario_mem 16 (EctState.init scenario_config)
        [false]).state.ect_header_info = none :=
  have h := C28_decoder_failure_aborts_parse scenario_config scenario_mem 16
    (EctState.init scenario_config) [false] [] [] ([80, 76, 76], 44)
    ((ect_list scenario_config).take 4) ((ect_list scenario_config).drop 5)
    (ect_info_init [80, 76, 76] .pll_header)
    (by decide) (by decide) (by decide) (by decide) (by decide) (by decide) (by decide)
    (by decide)
  ⟨h.1, h.2.1.trans (by decide), h.2.2.2.2.1, h.2.2.2.2.2⟩

theorem dump_row_mem (l : List ect_info) (i j : Nat) :
    j ∈ ect_dump_row l i ↔ ∃ e, l[j]? = some e ∧ e.block_precedence = (i : Int) := by
  simp only [ect_dump_row, List.mem_filter, List.mem_range, decide_eq_true_eq, Option.map_eq_some']
  constructor
  · rintro ⟨-, e, he, hp⟩
    exact ⟨e, he, hp⟩
  · rintro ⟨e, he, hp⟩
    exact ⟨(List.getElem?_eq_some.mp he).1, e, he, hp⟩

theorem dump_order_mem (l : List ect_info) (j : Nat) :
    j ∈ ect_dump_order l
      ↔ ∃ e, l[j]? = some e ∧ 0 ≤ e.block_precedence ∧ e.block_precedence < (l.length : Int) := by
  simp only [ect_dump_order, List.mem_flatMap, List.mem_range, dump_row_mem]
  constructor
  · rintro ⟨i, hi, e, he, hp⟩
    exact ⟨e, he, by omega, by omega⟩
  · rintro ⟨e, he, h0, h1⟩
    refine ⟨e.block_precedence.toNat, by omega, e, he, by omega⟩

theorem dump_order_nodup (l : List ect_info) : (ect_dump_order l).Nodup := by
  simp only [ect_dump_order]
  rw [List.nodup_flatMap]
  refine ⟨fun i _ => (List.nodup_range _).filter _, ?_⟩
  refine (List.nodup_range _).pairwise_of_forall_ne ?_
  intro a _ b _ hab
  show List.Disjoint (ect_dump_row l a) (ect_dump_row l b)
  intro j hja hjb
  obtain ⟨e, he, hp⟩ := (dump_row_mem l a j).mp hja
  obtain ⟨e1, he1, hp1⟩ := (dump_row_mem l b j).mp hjb
  rw [he] at he1
  cases he1
  rw [hp] at hp1
  exact hab (by exact_mod_cast hp1)

theorem dump_order_sorted (l : List ect_info) :
    (ect_dump_order l).Pairwise (fun j k => ∀ ej ek, l[j]? = some ej → l[k]? = some ek →
      ej.block_precedence ≤ ek.block_precedence) := by
  simp only [ect_dump_order]
  rw [List.pairwise_flatMap]
  refine ⟨fun i _ => ?_, ?_⟩
  · refine List.pairwise_of_forall_mem_list ?_
    intro j hj k hk ej ek hej hek
    obtain ⟨e, he, hp⟩ := (dump_row_mem l i j).mp hj
    obtain ⟨e1, he1, hp1⟩ := (dump_row_mem l i k).mp hk
    rw [hej] at he
    rw [hek] at he1
    cases he
    cases he1
    rw [hp, hp1]
  · refine (List.pairwise_lt_range _).imp ?_
    intro a b hab j hj k hk ej ek hej hek
    obtain ⟨e, he, hp⟩ := (dump_row_mem l a j).mp hj
    obtain ⟨e1, he1, hp1⟩ := (dump_row_mem l b k).mp hk
    rw [hej] at he
    rw [hek] at he1
    cases he
    cases he1
    rw [hp, hp1]
    exact_mod_cast Nat.le_of_lt hab

theorem ect_directory_length (mem : Mem) (n address : Nat) :
    (ect_directory mem n address).length = n := by
  induction n generalizing address with
  | zero => rfl
  | succ n ih => simp only [ect_directory, List.length_cons, ih]

theorem publish_fold_precedence (cfg : ect_config) (mem : Mem) (a : Nat)
    (dir : List (List Nat × Nat)) (i : Nat) (e : ect_info) :
    (publish_fold cfg mem a dir i e).block_precedence = e.block_precedence
      ∨ ((i : Int) ≤ (publish_fold cfg mem a dir i e).block_precedence
          ∧ (publish_fold cfg mem a dir i e).block_precedence < ((i + dir.length : Nat) : Int)) := by
  induction dir generalizing i e with
  | nil => exact Or.inl rfl
  | cons d rest ih =>
    simp only [publish_fold, List.length_cons]
    rcases ih (i + 1) (publish cfg mem d.1 (a + d.2) i e) with h | h
    · rw [h]
      simp only [publish]
      split_ifs
      · right
        show ((i : Int) ≤ (i : Int)) ∧ (i : Int) < ((i + (rest.length + 1) : Nat) : Int)
        omega
      · exact Or.inl rfl
    · right
      omega

/-- C29 (failing run): the directory has nine entries, eight unknown ones
and then "PLL"; the decode succeeds and publishes the PLL block with
precedence 8, and `ect_dump_all` calls the header dump and no block dump:
the decoded PLL block is missing from the dump. -/
theorem C29_counterexample :
    (ect_parse_binary_header scenario_config nine_entry_mem 16 (EctState.init scenario_config)
        []).ret = 0
      ∧ ((ect_parse_binary_header scenario_config nine_entry_mem 16
            (EctState.init scenario_config) []).state.ect_list[4]?).map
          (fun e => (e.block_name, e.block_precedence, e.block_handle.isSome))
        = some ([80, 76, 76], 8, true)
      ∧ (ect_dump_all (ect_parse_binary_header scenario_config nine_entry_mem 16
            (EctState.init scenario_config) []).state.ect_list).2 = [DumpVisit.header] := by
  decide

/-- C29: what `ect_dump_all` does.  It calls the header dump first and then
the dump of every registry entry whose precedence lies in
`0 .. ARRAY_SIZE32(ect_list) - 1`, each of them exactly once, in ascending
precedence, whatever the order of the registry; entries with precedence
`-1` (never decoded) are not visited, and neither are entries decoded at a
directory position from `ARRAY_SIZE32(ect_list)` on, which the outer loop
of the dump never reaches.  Only after a successful decode, from the
initial registry, of a directory with at most `ARRAY_SIZE32(ect_list)`
entries are the entries visited exactly the decoded ones. -/
theorem C29_dump_all_in_precedence_order (l : List ect_info) :
    (ect_dump_all l).1 = 0
      ∧ (ect_dump_all l).2 = DumpVisit.header :: (ect_dump_order l).map DumpVisit.block
      ∧ (ect_dump_order l).Nodup
      ∧ (∀ j e, l[j]? = some e →
          (j ∈ ect_dump_order l
            ↔ 0 ≤ e.block_precedence ∧ e.block_precedence < (l.length : Int)))
      ∧ (∀ j ∈ ect_dump_order l, j < l.length)
      ∧ (ect_dump_order l).Pairwise (fun j k => ∀ ej ek, l[j]? = some ej → l[k]? = some ek →
          ej.block_precedence ≤ ek.block_precedence)
      ∧ (∀ (cfg : ect_config) (mem : Mem) (a : Nat) (al : Alloc),
          l = (ect_parse_binary_header cfg mem a (EctState.init cfg) al).state.ect_list →
          (ect_parse_binary_header cfg mem a (EctState.init cfg) al).ret = 0 →
          (ect_header_at mem a).num_of_header ≤ (ect_list cfg).length →
          ∀ j e, l[j]? = some e → (j ∈ ect_dump_order l ↔ e.block_precedence ≠ -1)) := by
  refine ⟨rfl, rfl, dump_order_nodup l, ?_, ?_, dump_order_sorted l, ?_⟩
  · intro j e he
    rw [dump_order_mem]
    constructor
    · rintro ⟨e1, he1, h⟩
      rw [he] at he1
      cases he1
      exact h
    · intro h
      exact ⟨e, he, h⟩
  · intro j hj
    obtain ⟨e, he, -⟩ := (dump_order_mem l j).mp hj
    exact (List.getElem?_eq_some.mp he).1
  · intro cfg mem a al hl hok hn j e he
    have hst := parse_ok_list cfg mem a (EctState.init cfg) al hok
    rw [hst] at hl
    have hlen : l.length = 8 := by
      rw [hl]
      simp [EctState.init, ect_list]
    have hn8 : (ect_header_at mem a).num_of_header ≤ 8 := by
      simpa [ect_list] using hn
    rw [dump_order_mem]
    have hj : ∃ e0 ∈ ect_list cfg,
        e = publish_fold cfg mem a (ect_directory_at mem a) 0 e0 := by
      rw [hl] at he
      simp only [EctState.init, List.getElem?_map, Option.map_eq_some'] at he
      obtain ⟨e0, he0, rfl⟩ := he
      exact ⟨e0, List.getElem?_mem he0, rfl⟩
    obtain ⟨e0, he0, rfl⟩ := hj
    have hinit : e0.block_precedence = -1 := by
      simp only [ect_list, List.mem_cons, List.mem_singleton, List.not_mem_nil, or_false] at he0
      rcases he0 with h | h | h | h | h | h | h | h <;> rw [h] <;> rfl
    have hdl : (ect_directory_at mem a).length = (ect_header_at mem a).num_of_header := by
      simp only [ect_directory_at, ect_directory_length]
    have hp := publish_fold_precedence cfg mem a (ect_directory_at mem a) 0 e0
    rw [hdl, hinit] at hp
    constructor
    · rintro ⟨e1, he1, h0, -⟩
      rw [he] at he1
      cases he1
      omega
    · intro hne
      refine ⟨_, he, ?_, ?_⟩
      · omega
      · omega

/-! ## Relocation -/

theorem parse_string_eq (mem : Mem) (c : Nat) :
    ect_parse_string mem c
      = { ret := 0, value := c + 4, length := (raw_readl mem c + 1) % 4294967296,
          address := c + 4 + string_advance (raw_readl mem c) } := by
  simp only [ect_parse_string, ect_parse_integer, string_advance, ParsedString.mk.injEq,
    true_and]
  split_ifs <;> rfl

theorem rebase_add (a b k : Nat) : rebase a b (a + k) = b + k := by
  simp only [rebase]
  omega

theorem readl_rel (mem mem1 : Mem) (a b : Nat)
    (hmem : ∀ i, readb mem1 (b + i) = readb mem (a + i)) (k : Nat) :
    raw_readl mem1 (b + k) = raw_readl mem (a + k) := by
  simp only [raw_readl, Nat.add_assoc, hmem]

theorem names_rel (mem mem1 : Mem) (a b : Nat)
    (hmem : ∀ i, readb mem1 (b + i) = readb mem (a + i)) (n k : Nat) :
    ∃ k1, (ect_parse_name_offset_list mem n (a + k)).2.2 = a + k1
      ∧ ect_parse_name_offset_list mem1 n (b + k)
        = (0, (ect_parse_name_offset_list mem n (a + k)).2.1.map
                (fun e => (rebase a b e.1, e.2)), b + k1) := by
  induction n generalizing k with
  | zero => exact ⟨k, rfl, rfl⟩
  | succ n ih =>
    have hr := readl_rel mem mem1 a b hmem
    obtain ⟨k1, h1, h2⟩ := ih (k + (4 + (string_advance (raw_readl mem (a + k)) + 4)))
    refine ⟨k1, ?_, ?_⟩
    · simp only [ect_parse_name_offset_list, parse_string_eq, ne_eq, not_true_eq_false,
        if_false, ect_parse_integer, Nat.add_assoc, h1]
    · simp only [ect_parse_name_offset_list, parse_string_eq, ne_eq, not_true_eq_false,
        if_false, ect_parse_integer, Nat.add_assoc, hr, h2, List.map_cons, rebase_add]

theorem bodies_rel {α : Type} (R : α → α) (f f1 : α → Alloc → Int × α × Alloc)
    (xs : List α) (al : Alloc)
    (h : ∀ x ∈ xs, ∀ al, f1 (R x) al = ((f x al).1, R (f x al).2.1, (f x al).2.2)) :
    ect_parse_bodies f1 (xs.map R) al
      = ((ect_parse_bodies f xs al).1, (ect_parse_bodies f xs al).2.1.map R,
          (ect_parse_bodies f xs al).2.2) := by
  induction xs generalizing al with
  | nil => rfl
  | cons x xs ih =>
    have hx := h x (List.mem_cons_self _ _) al
    have ih1 := ih (f x al).2.2 (fun y hy => h y (List.mem_cons_of_mem _ hy))
    simp only [List.map_cons, ect_parse_bodies, hx]
    by_cases hz : (f x al).1 = 0
    · simp only [hz, ne_eq, not_true_eq_false, if_false, ih1, List.map_cons]
    · simp only [hz, ne_eq, not_false_eq_true, if_true, List.map_cons]

theorem named_header_rel {α : Type} (R : α → α) (mem mem1 : Mem) (a b : Nat)
    (hmem : ∀ i, readb mem1 (b + i) = readb mem (a + i)) (e1 e2 : Int)
    (named : Nat × Nat → α) (body body1 : Int → α → Alloc → Int × α × Alloc)
    (mk : Nat → Nat → Nat → List α → BlockHandle) (ha : a ≠ 0) (hb : b ≠ 0)
    (he1 : e1 ≠ 0) (he2 : e2 ≠ 0)
    (hnamed : ∀ e : Nat × Nat, named (rebase a b e.1, e.2) = R (named e))
    (hbody : ∀ pv, ∀ e ∈ ect_names_at mem a, ∀ al,
      body1 pv (R (named e)) al
        = ((body pv (named e) al).1, R (body pv (named e) al).2.1, (body pv (named e) al).2.2))
    (hmk : ∀ pv v n l, mk pv v n (l.map R) = BlockHandle.relocate (rebase a b) (mk pv v n l))
    (info : ect_info) (al : Alloc) :
    (ect_parse_named_header mem1 e1 e2 named body1 mk b info al).1
        = (ect_parse_named_header mem e1 e2 named body mk a info al).1
      ∧ (ect_parse_named_header mem1 e1 e2 named body1 mk b info al).2.2
        = (ect_parse_named_header mem e1 e2 named body mk a info al).2.2
      ∧ ((ect_parse_named_header mem e1 e2 named body mk a info al).1 = 0 →
          (ect_parse_named_header mem1 e1 e2 named body1 mk b info al).2.1
            = { info with
                block_handle :=
                  (ect_parse_named_header mem e1 e2 named body mk a info al).2.1.block_handle.map
                    (BlockHandle.relocate (rebase a b)) }) := by
  have hr := readl_rel mem mem1 a b hmem
  have h0 : raw_readl mem1 b = raw_readl mem a := hr 0
  have h4 : raw_readl mem1 (b + 4) = raw_readl mem (a + 4) := hr 4
  have h8 : raw_readl mem1 (b + 4 + 4) = raw_readl mem (a + 4 + 4) := hr 8
  obtain ⟨k1, -, hk2⟩ := names_rel mem mem1 a b hmem (raw_readl mem (a + 4 + 4)) 12
  have hk : ect_parse_name_offset_list mem1 (raw_readl mem (a + 4 + 4)) (b + 4 + 4 + 4)
      = (0, (ect_names_at mem a).map (fun e => (rebase a b e.1, e.2)), b + k1) := hk2
  have hmap : ((ect_names_at mem a).map (fun e => (rebase a b e.1, e.2))).map named
      = ((ect_names_at mem a).map named).map R := by
    simp only [List.map_map]
    exact List.map_congr_left (fun e _ => hnamed e)
  have hbod := fun al => bodies_rel R (body (toInt32 (raw_readl mem a)))
    (body1 (toInt32 (raw_readl mem a))) ((ect_names_at mem a).map named) al
    (by
      intro x hx al
      obtain ⟨e, he, rfl⟩ := List.mem_map.mp hx
      exact hbody _ e he al)
  have hn0 : (ect_parse_name_offset_list mem (raw_readl mem (a + 4 + 4)) (a + 4 + 4 + 4)).1 = 0 :=
    name_offset_list_ret _ _ _
  unfold ect_parse_named_header
  simp only [ect_parse_integer, h0, h4, h8, hk, hmap, hbod, if_neg ha, if_neg hb, hn0, ne_eq,
    not_true_eq_false, if_false]
  by_cases c1 : (kzalloc al).1 = false
  · simp only [if_pos c1, true_and]
    intro h
    exact absurd h he1
  · simp only [if_neg c1]
    by_cases c2 : (kzalloc (kzalloc al).2).1 = false
    · simp only [if_pos c2, true_and]
      intro h
      exact absurd h he2
    · simp only [if_neg c2]
      by_cases c3 : (ect_parse_bodies (body (toInt32 (raw_readl mem a)))
          ((ect_names_at mem a).map named) (kzalloc (kzalloc al).2).2).1 = 0
      · simp only [ect_names_at] at c3 hmk ⊢
        simp only [c3, not_true_eq_false, if_false, true_and, hmk, Option.map_some', forall_const]
      · simp only [ect_names_at] at c3 ⊢
        simp only [c3, not_false_eq_true, if_true, true_and]
        intro h
        exact absurd h neg_einval_ne

theorem pll_rel (mem mem1 : Mem) (a b : Nat)
    (hmem : ∀ i, readb mem1 (b + i) = readb mem (a + i)) (pv : Int) (k : Nat) (p : ect_pll) :
    ect_parse_pll mem1 pv (b + k) (ect_pll.relocate (rebase a b) p)
      = ((ect_parse_pll mem pv (a + k) p).1,
          ect_pll.relocate (rebase a b) (ect_parse_pll mem pv (a + k) p).2) := by
  have hr := readl_rel mem mem1 a b hmem
  simp only [ect_parse_pll, ect_parse_integer, ect_pll.relocate, Nat.add_assoc, hr, rebase_add,
    Option.map_some']

theorem minlock_rel (mem mem1 : Mem) (a b : Nat)
    (hmem : ∀ i, readb mem1 (b + i) = readb mem (a + i)) (pv : Int) (k : Nat)
    (d : ect_minlock_domain) :
    ect_parse_minlock_domain mem1 pv (b + k) (ect_minlock_domain.relocate (rebase a b) d)
      = ((ect_parse_minlock_domain mem pv (a + k) d).1,
          ect_minlock_domain.relocate (rebase a b) (ect_parse_minlock_domain mem pv (a + k) d).2) := by
  have hr := readl_rel mem mem1 a b hmem
  simp only [ect_parse_minlock_domain, ect_parse_integer, ect_minlock_domain.relocate,
    Nat.add_assoc, hr, rebase_add, Option.map_some']

theorem gen_param_rel (mem mem1 : Mem) (a b : Nat)
    (hmem : ∀ i, readb mem1 (b + i) = readb mem (a + i)) (pv : Int) (k : Nat)
    (t : ect_gen_param_table) :
    ect_parse_gen_param_table mem1 pv (b + k) (ect_gen_param_table.relocate (rebase a b) t)
      = ((ect_parse_gen_param_table mem pv (a + k) t).1,
          ect_gen_param_table.relocate (rebase a b)
            (ect_parse_gen_param_table mem pv (a + k) t).2) := by
  have hr := readl_rel mem mem1 a b hmem
  simp only [ect_parse_gen_param_table, ect_parse_integer, ect_gen_param_table.relocate,
    Nat.add_assoc, hr, rebase_add, Option.map_some']

theorem margin_rel (cfg : ect_config) (mem mem1 : Mem) (a b : Nat)
    (hmem : ∀ i, readb mem1 (b + i) = readb mem (a + i)) (pv : Int) (k : Nat)
    (d : ect_margin_domain) :
    ect_parse_margin_domain cfg mem1 pv (b + k) (ect_margin_domain.relocate (rebase a b) d)
      = ((ect_parse_margin_domain cfg mem pv (a + k) d).1,
          ect_margin_domain.relocate (rebase a b)
            (ect_parse_margin_domain cfg mem pv (a + k) d).2) := by
  have hr := readl_rel mem mem1 a b hmem
  simp only [ect_parse_margin_domain, ect_parse_integer, ect_margin_domain.relocate,
    Nat.add_assoc, hr, rebase_add]
  split_ifs <;> simp only [Option.map_some', Option.map_none', rebase_add]

theorem timing_size_rel (mem mem1 : Mem) (a b : Nat)
    (hmem : ∀ i, readb mem1 (b + i) = readb mem (a + i)) (pv : Int) (k : Nat)
    (x : ect_new_timing_param_size) :
    ect_parse_new_timing_param_size mem1 pv (b + k)
        (ect_new_timing_param_size.relocate (rebase a b) x)
      = ((ect_parse_new_timing_param_size mem pv (a + k) x).1,
          ect_new_timing_param_size.relocate (rebase a b)
            (ect_parse_new_timing_param_size mem pv (a + k) x).2) := by
  have hr := readl_rel mem mem1 a b hmem
  simp only [ect_parse_new_timing_param_size, ect_parse_integer,
    ect_new_timing_param_size.relocate, Nat.add_assoc, hr, rebase_add, Option.map_some']

theorem ap_thermal_ranges_rel (mem mem1 : Mem) (a b : Nat)
    (hmem : ∀ i, readb mem1 (b + i) = readb mem (a + i)) (n k : Nat) :
    ect_parse_ap_thermal_ranges mem1 n (b + k) = ect_parse_ap_thermal_ranges mem n (a + k) := by
  have hr := readl_rel mem mem1 a b hmem
  induction n generalizing k with
  | zero => rfl
  | succ n ih =>
    simp only [ect_parse_ap_thermal_ranges, ect_parse_integer, Nat.add_assoc, hr, ih]

theorem ap_thermal_rel (mem mem1 : Mem) (a b : Nat)
    (hmem : ∀ i, readb mem1 (b + i) = readb mem (a + i)) (pv : Int) (k : Nat)
    (x : ect_ap_thermal_function) (al : Alloc) :
    ect_parse_ap_thermal_function mem1 pv (b + k)
        (ect_ap_thermal_function.relocate (rebase a b) x) al
      = ((ect_parse_ap_thermal_function mem pv (a + k) x al).1,
          ect_ap_thermal_function.relocate (rebase a b)
            (ect_parse_ap_thermal_function mem pv (a + k) x al).2.1,
          (ect_parse_ap_thermal_function mem pv (a + k) x al).2.2) := by
  have hr := readl_rel mem mem1 a b hmem
  simp only [ect_parse_ap_thermal_function, ect_parse_integer,
    ect_ap_thermal_function.relocate, Nat.add_assoc, hr,
    ap_thermal_ranges_rel mem mem1 a b hmem]
  split_ifs <;> rfl

theorem clock_names_rel (mem mem1 : Mem) (a b : Nat)
    (hmem : ∀ i, readb mem1 (b + i) = readb mem (a + i)) (n k : Nat) :
    ∃ k1, (ect_parse_clock_names mem n (a + k)).2.2 = a + k1
      ∧ ect_parse_clock_names mem1 n (b + k)
        = (0, (ect_parse_clock_names mem n (a + k)).2.1.map (rebase a b), b + k1) := by
  induction n generalizing k with
  | zero => exact ⟨k, rfl, rfl⟩
  | succ n ih =>
    have hr := readl_rel mem mem1 a b hmem
    obtain ⟨k1, h1, h2⟩ := ih (k + (4 + string_advance (raw_readl mem (a + k))))
    refine ⟨k1, ?_, ?_⟩
    · simp only [ect_parse_clock_names, parse_string_eq, ne_eq, not_true_eq_false,
        if_false, Nat.add_assoc, h1]
    · simp only [ect_parse_clock_names, parse_string_eq, ne_eq, not_true_eq_false,
        if_false, Nat.add_assoc, hr, h2, List.map_cons, rebase_add]

theorem clock_names_sub (mem mem1 : Mem) (a b : Nat)
    (hmem : ∀ i, readb mem1 (b + i) = readb mem (a + i)) (n k : Nat) :
    ect_parse_clock_names mem1 n (b + k)
        = (0, (ect_parse_clock_names mem n (a + k)).2.1.map (rebase a b),
            rebase a b (ect_parse_clock_names mem n (a + k)).2.2) := by
  obtain ⟨k1, h1, h2⟩ := clock_names_rel mem mem1 a b hmem n k
  rw [h2, h1, rebase_add]

theorem clock_names_ge (mem : Mem) (a : Nat) (n k : Nat) :
    a ≤ (ect_parse_clock_names mem n (a + k)).2.2 := by
  obtain ⟨k1, h1, -⟩ := clock_names_rel mem mem a a (fun _ => rfl) n k
  omega

theorem ite_base (c : Prop) [Decidable c] (a x y : Nat) :
    (if c then a + x else a + y) = a + (if c then x else y) := by
  split_ifs <;> rfl

theorem rebase_add_right (a b p s : Nat) (h : a ≤ p) :
    rebase a b p + s = rebase a b (p + s) := by
  simp only [rebase]
  omega

theorem dvfs_rel (cfg : ect_config) (mem mem1 : Mem) (a b : Nat)
    (hmem : ∀ i, readb mem1 (b + i) = readb mem (a + i)) (pv : Int) (k : Nat)
    (d : ect_dvfs_domain) (al : Alloc) :
    ect_parse_dvfs_domain cfg mem1 pv (b + k) (ect_dvfs_domain.relocate (rebase a b) d) al
      = ((ect_parse_dvfs_domain cfg mem pv (a + k) d al).1,
          ect_dvfs_domain.relocate (rebase a b) (ect_parse_dvfs_domain cfg mem pv (a + k) d al).2.1,
          (ect_parse_dvfs_domain cfg mem pv (a + k) d al).2.2) := by
  have hr := readl_rel mem mem1 a b hmem
  simp only [ect_parse_dvfs_domain, ect_parse_integer, Nat.add_assoc, ite_base, hr,
    clock_names_sub mem mem1 a b hmem, clock_names_ret, ect_parse_dvfs_levels]
  split_ifs
  all_goals simp only [ect_dvfs_domain.relocate, Option.map_some', Option.map_none', rebase_add,
    Prod.mk.injEq, true_and, and_true, ect_dvfs_domain.mk.injEq]
  all_goals exact congrArg some (rebase_add_right a b _ _ (clock_names_ge mem a _ _))

theorem ptr_add_nonneg (x : Nat) (d : Int) (h : 0 ≤ d) : ptr_add x d = x + d.toNat := by
  simp only [ptr_add]
  omega

theorem voltage_table_rel (cfg : ect_config) (mem mem1 : Mem) (a b : Nat)
    (hmem : ∀ i, readb mem1 (b + i) = readb mem (a + i)) (pv : Int)
    (d d1 : ect_voltage_domain) (hg : d1.num_of_group = d.num_of_group)
    (hl : d1.num_of_level = d.num_of_level)
    (hsz : 0 ≤ toInt32 (d.num_of_group * d.num_of_level)) (t : ect_voltage_table) (k : Nat) :
    ∃ k1, (ect_parse_voltage_table cfg mem pv (a + k) d t).2.1 = a + k1
      ∧ ect_parse_voltage_table cfg mem1 pv (b + k) d1 (ect_voltage_table.relocate (rebase a b) t)
        = (0, b + k1,
            ect_voltage_table.relocate (rebase a b)
              (ect_parse_voltage_table cfg mem pv (a + k) d t).2.2) := by
  have hr := readl_rel mem mem1 a b hmem
  have h1 : (0 : Int) ≤ 1 * toInt32 (d.num_of_group * d.num_of_level) := by omega
  have h4 : (0 : Int) ≤ 4 * toInt32 (d.num_of_group * d.num_of_level) := by omega
  by_cases p2 : pv ≥ 2
  · by_cases p3 : pv ≥ 3
    · refine ⟨k + (4 + (4 + (4 + (4 * d.num_of_level
        + (1 * toInt32 (d.num_of_group * d.num_of_level)).toNat)))), ?_, ?_⟩
      · simp only [ect_parse_voltage_table, ect_parse_integer, p2, p3, if_true,
          ptr_add_nonneg _ _ h1, Nat.add_assoc]
      · simp only [ect_parse_voltage_table, ect_parse_integer, p2, p3, if_true, hg, hl,
          ptr_add_nonneg _ _ h1, Nat.add_assoc, hr, ect_voltage_table.relocate,
          Option.map_some', Option.map_none', rebase_add]
    · refine ⟨k + (4 + (4 + (4 + (4 * d.num_of_level
        + (4 * toInt32 (d.num_of_group * d.num_of_level)).toNat)))), ?_, ?_⟩
      · simp only [ect_parse_voltage_table, ect_parse_integer, p2, p3, if_true, if_false,
          ptr_add_nonneg _ _ h4, Nat.add_assoc]
      · simp only [ect_parse_voltage_table, ect_parse_integer, p2, p3, if_true, if_false, hg, hl,
          ptr_add_nonneg _ _ h4, Nat.add_assoc, hr, ect_voltage_table.relocate,
          Option.map_some', Option.map_none', rebase_add]
  · have p3 : ¬ pv ≥ 3 := by omega
    refine ⟨k + (4 + (4 * toInt32 (d.num_of_group * d.num_of_level)).toNat), ?_, ?_⟩
    · simp only [ect_parse_voltage_table, ect_parse_integer, p2, p3, if_false,
        ptr_add_nonneg _ _ h4, Nat.add_assoc]
    · simp only [ect_parse_voltage_table, ect_parse_integer, p2, p3, if_false, hg, hl,
        ptr_add_nonneg _ _ h4, Nat.add_assoc, hr, ect_voltage_table.relocate,
        Option.map_some', Option.map_none', rebase_add]

theorem relocate_table_zero (f : Nat → Nat) :
    ect_voltage_table.relocate f ect_voltage_table_zero = ect_voltage_table_zero := rfl

theorem voltage_tables_rel (cfg : ect_config) (mem mem1 : Mem) (a b : Nat)
    (hmem : ∀ i, readb mem1 (b + i) = readb mem (a + i)) (pv : Int)
    (d d1 : ect_voltage_domain) (hg : d1.num_of_group = d.num_of_group)
    (hl : d1.num_of_level = d.num_of_level)
    (hsz : 0 ≤ toInt32 (d.num_of_group * d.num_of_level)) (n k : Nat) :
    ∃ k1, (ect_parse_voltage_tables cfg mem pv d n (a + k)).2.2 = a + k1
      ∧ ect_parse_voltage_tables cfg mem1 pv d1 n (b + k)
        = (0, (ect_parse_voltage_tables cfg mem pv d n (a + k)).2.1.map
                (ect_voltage_table.relocate (rebase a b)), b + k1) := by
  induction n generalizing k with
  | zero => exact ⟨k, rfl, rfl⟩
  | succ n ih =>
    obtain ⟨k0, e0, e1⟩ := voltage_table_rel cfg mem mem1 a b hmem pv d d1 hg hl hsz
      ect_voltage_table_zero k
    rw [relocate_table_zero] at e1
    obtain ⟨k1, h1, h2⟩ := ih k0
    have hz : (ect_parse_voltage_table cfg mem pv (a + k) d ect_voltage_table_zero).1 = 0 := by
      simp only [ect_parse_voltage_table]
      split_ifs <;> rfl
    refine ⟨k1, ?_, ?_⟩
    · simp only [ect_parse_voltage_tables, hz, ne_eq, not_true_eq_false, if_false, e0, h1]
    · simp only [ect_parse_voltage_tables, e1, hz, ne_eq, not_true_eq_false, if_false, h2, e0,
        List.map_cons]

theorem voltage_domain_unfold (cfg : ect_config) (m : Mem) (pv : Int) (c : Nat)
    (dm : ect_voltage_domain) (al : Alloc) :
    ect_parse_voltage_domain cfg m pv c dm al
      = (if (kzalloc al).1 = false then
           (-ENOMEM,
             { dm with
               num_of_group := raw_readl m c, num_of_level := raw_readl m (c + 4),
               num_of_table := raw_readl m (c + 8), level_list := some (c + 12) },
             (kzalloc al).2)
         else
           (0,
             { dm with
               num_of_group := raw_readl m c, num_of_level := raw_readl m (c + 4),
               num_of_table := raw_readl m (c + 8), level_list := some (c + 12),
               table_list :=
                 (ect_parse_voltage_tables cfg m pv
                   { dm with
                     num_of_group := raw_readl m c, num_of_level := raw_readl m (c + 4),
                     num_of_table := raw_readl m (c + 8), level_list := some (c + 12) }
                   (raw_readl m (c + 8)) (c + (12 + 4 * raw_readl m (c + 4)))).2.1 },
             (kzalloc al).2)) := by
  have e : c + 4 + 4 + 4 + 4 * raw_readl m (c + 4) = c + (12 + 4 * raw_readl m (c + 4)) := by
    omega
  simp only [ect_parse_voltage_domain, ect_parse_integer, voltage_tables_ret, ne_eq,
    not_true_eq_false, if_false, e]

theorem voltage_domain_rel (cfg : ect_config) (mem mem1 : Mem) (a b : Nat)
    (hmem : ∀ i, readb mem1 (b + i) = readb mem (a + i)) (pv : Int) (k : Nat)
    (d : ect_voltage_domain) (al : Alloc)
    (hsz : 0 ≤ toInt32 (raw_readl mem (a + k) * raw_readl mem (a + k + 4))) :
    ect_parse_voltage_domain cfg mem1 pv (b + k) (ect_voltage_domain.relocate (rebase a b) d) al
      = ((ect_parse_voltage_domain cfg mem pv (a + k) d al).1,
          ect_voltage_domain.relocate (rebase a b)
            (ect_parse_voltage_domain cfg mem pv (a + k) d al).2.1,
          (ect_parse_voltage_domain cfg mem pv (a + k) d al).2.2) := by
  have hr := readl_rel mem mem1 a b hmem
  have r0 : raw_readl mem1 (b + k) = raw_readl mem (a + k) := hr k
  have r4 : raw_readl mem1 (b + k + 4) = raw_readl mem (a + k + 4) := by
    rw [Nat.add_assoc, Nat.add_assoc, hr]
  have r8 : raw_readl mem1 (b + k + 8) = raw_readl mem (a + k + 8) := by
    rw [Nat.add_assoc, Nat.add_assoc, hr]
  obtain ⟨k1, -, h2⟩ := voltage_tables_rel cfg mem mem1 a b hmem pv
    { d with
      num_of_group := raw_readl mem (a + k), num_of_level := raw_readl mem (a + k + 4),
      num_of_table := raw_readl mem (a + k + 8), level_list := some (a + k + 12) }
    { ect_voltage_domain.relocate (rebase a b) d with
      num_of_group := raw_readl mem (a + k), num_of_level := raw_readl mem (a + k + 4),
      num_of_table := raw_readl mem (a + k + 8), level_list := some (b + k + 12) }
    rfl rfl hsz (raw_readl mem (a + k + 8)) (k + (12 + 4 * raw_readl mem (a + k + 4)))
  have ea : a + (k + (12 + 4 * raw_readl mem (a + k + 4)))
      = a + k + (12 + 4 * raw_readl mem (a + k + 4)) := by omega
  have eb : b + (k + (12 + 4 * raw_readl mem (a + k + 4)))
      = b + k + (12 + 4 * raw_readl mem (a + k + 4)) := by omega
  rw [ea, eb] at h2
  have e12 : rebase a b (a + k + 12) = b + k + 12 := by
    simp only [rebase]
    omega
  rw [voltage_domain_unfold, voltage_domain_unfold, r0, r4, r8, h2]
  by_cases c1 : (kzalloc al).1 = false
  · simp only [if_pos c1, ect_voltage_domain.relocate, Option.map_some', e12]
  · simp only [if_neg c1, ect_voltage_domain.relocate, Option.map_some', e12]

theorem key_offset_list_rel (mem mem1 : Mem) (a b : Nat)
    (hmem : ∀ i, readb mem1 (b + i) = readb mem (a + i)) (n k : Nat) :
    ect_parse_key_offset_list mem1 n (b + k)
      = (ect_parse_key_offset_list mem n (a + k)).map
          (ect_new_timing_param_size.relocate (rebase a b)) := by
  have hr := readl_rel mem mem1 a b hmem
  induction n generalizing k with
  | zero => rfl
  | succ n ih =>
    simp only [ect_parse_key_offset_list, ect_parse_integer64, ect_parse_integer, Nat.add_assoc,
      hr, ih, List.map_cons, ect_new_timing_param_size.relocate, Option.map_none']

theorem timing_header_rel (mem mem1 : Mem) (a b : Nat)
    (hmem : ∀ i, readb mem1 (b + i) = readb mem (a + i)) (ha : a ≠ 0) (hb : b ≠ 0)
    (info : ect_info) (al : Alloc) :
    (ect_parse_new_timing_param_header mem1 b info al).1
        = (ect_parse_new_timing_param_header mem a info al).1
      ∧ (ect_parse_new_timing_param_header mem1 b info al).2.2
        = (ect_parse_new_timing_param_header mem a info al).2.2
      ∧ ((ect_parse_new_timing_param_header mem a info al).1 = 0 →
          (ect_parse_new_timing_param_header mem1 b info al).2.1
            = { info with
                block_handle :=
                  (ect_parse_new_timing_param_header mem a info al).2.1.block_handle.map
                    (BlockHandle.relocate (rebase a b)) }) := by
  have hr := readl_rel mem mem1 a b hmem
  have h0 : raw_readl mem1 b = raw_readl mem a := hr 0
  have h4 : raw_readl mem1 (b + 4) = raw_readl mem (a + 4) := hr 4
  have h8 : raw_readl mem1 (b + 4 + 4) = raw_readl mem (a + 4 + 4) := hr 8
  have hk : ect_parse_key_offset_list mem1 (raw_readl mem (a + 4 + 4)) (b + 4 + 4 + 4)
      = (ect_parse_key_offset_list mem (raw_readl mem (a + 4 + 4)) (a + 4 + 4 + 4)).map
          (ect_new_timing_param_size.relocate (rebase a b)) :=
    key_offset_list_rel mem mem1 a b hmem _ 12
  have hbod := fun al => bodies_rel (ect_new_timing_param_size.relocate (rebase a b))
    (fun s a1 =>
      ((ect_parse_new_timing_param_size mem (toInt32 (raw_readl mem a)) (a + s.offset) s).1,
        (ect_parse_new_timing_param_size mem (toInt32 (raw_readl mem a)) (a + s.offset) s).2, a1))
    (fun s a1 =>
      ((ect_parse_new_timing_param_size mem1 (toInt32 (raw_readl mem a)) (b + s.offset) s).1,
        (ect_parse_new_timing_param_size mem1 (toInt32 (raw_readl mem a)) (b + s.offset) s).2, a1))
    (ect_parse_key_offset_list mem (raw_readl mem (a + 4 + 4)) (a + 4 + 4 + 4)) al
    (by
      intro x _ al
      have := timing_size_rel mem mem1 a b hmem (toInt32 (raw_readl mem a)) x.offset x
      simp only [ect_new_timing_param_size.relocate] at this ⊢
      simp only [this])
  unfold ect_parse_new_timing_param_header
  simp only [ect_parse_integer, h0, h4, h8, hk, hbod, if_neg ha, if_neg hb]
  by_cases c1 : (kzalloc al).1 = false
  · simp only [if_pos c1, true_and]
    intro h
    exact absurd h neg_enomem_ne
  · simp only [if_neg c1]
    by_cases c2 : (kzalloc (kzalloc al).2).1 = false
    · simp only [if_pos c2, true_and]
      intro h
      exact absurd h neg_enomem_ne
    · simp only [if_neg c2]
      split_ifs with c3
      · simp only [true_and]
        intro h
        exact absurd h neg_einval_ne
      · simp only [true_and, BlockHandle.relocate, Option.map_some', forall_const]

theorem decoder_rel (cfg : ect_config) (mem mem1 : Mem) (a b : Nat)
    (hmem : ∀ i, readb mem1 (b + i) = readb mem (a + i)) (ha : a ≠ 0) (hb : b ≠ 0)
    (p : ParserId) (hv : p = ParserId.voltage_header → voltage_sizes_ok mem a)
    (info : ect_info) (al : Alloc) :
    (invoke_decoder cfg mem1 p b info al).1 = (invoke_decoder cfg mem p a info al).1
      ∧ (invoke_decoder cfg mem1 p b info al).2.2 = (invoke_decoder cfg mem p a info al).2.2
      ∧ ((invoke_decoder cfg mem p a info al).1 = 0 →
          (invoke_decoder cfg mem1 p b info al).2.1
            = { info with
                block_handle :=
                  (invoke_decoder cfg mem p a info al).2.1.block_handle.map
                    (BlockHandle.relocate (rebase a b)) }) := by
  cases p
  case new_timing_param_header =>
    exact timing_header_rel mem mem1 a b hmem ha hb info al
  case pll_header =>
    simp only [invoke_decoder, ect_parse_pll_header]
    refine named_header_rel (ect_pll.relocate (rebase a b)) mem mem1 a b hmem _ _ _ _ _ _
      ha hb neg_enomem_ne neg_enomem_ne ?_ ?_ ?_ info al
    · intro e
      rfl
    · intro pv e _ al
      have := pll_rel mem mem1 a b hmem pv e.2 (ect_pll_named e)
      simp only [ect_pll.relocate, ect_pll_named] at this ⊢
      simp only [this]
    · intro pv v n l
      rfl
  case minlock_header =>
    simp only [invoke_decoder, ect_parse_minlock_header]
    refine named_header_rel (ect_minlock_domain.relocate (rebase a b)) mem mem1 a b hmem
      _ _ _ _ _ _ ha hb neg_enomem_ne neg_enomem_ne ?_ ?_ ?_ info al
    · intro e
      rfl
    · intro pv e _ al
      have := minlock_rel mem mem1 a b hmem pv e.2 (ect_minlock_domain_named e)
      simp only [ect_minlock_domain.relocate, ect_minlock_domain_named] at this ⊢
      simp only [this]
    · intro pv v n l
      rfl
  case gen_param_header =>
    simp only [invoke_decoder, ect_parse_gen_param_header]
    refine named_header_rel (ect_gen_param_table.relocate (rebase a b)) mem mem1 a b hmem
      _ _ _ _ _ _ ha hb neg_enomem_ne neg_enomem_ne ?_ ?_ ?_ info al
    · intro e
      rfl
    · intro pv e _ al
      have := gen_param_rel mem mem1 a b hmem pv e.2 (ect_gen_param_table_named e)
      simp only [ect_gen_param_table.relocate, ect_gen_param_table_named] at this ⊢
      simp only [this]
    · intro pv v n l
      rfl
  case margin_header =>
    simp only [invoke_decoder, ect_parse_margin_header]
    refine named_header_rel (ect_margin_domain.relocate (rebase a b)) mem mem1 a b hmem
      _ _ _ _ _ _ ha hb neg_einval_ne neg_enomem_ne ?_ ?_ ?_ info al
    · intro e
      rfl
    · intro pv e _ al
      have := margin_rel cfg mem mem1 a b hmem pv e.2 (ect_margin_domain_named e)
      simp only [ect_margin_domain.relocate, ect_margin_domain_named] at this ⊢
      simp only [this]
    · intro pv v n l
      rfl
  case ap_thermal_header =>
    simp only [invoke_decoder, ect_parse_ap_thermal_header]
    refine named_header_rel (ect_ap_thermal_function.relocate (rebase a b)) mem mem1 a b hmem
      _ _ _ _ _ _ ha hb neg_einval_ne neg_enomem_ne ?_ ?_ ?_ info al
    · intro e
      rfl
    · intro pv e _ al
      have := ap_thermal_rel mem mem1 a b hmem pv e.2 (ect_ap_thermal_function_named e) al
      simp only [ect_ap_thermal_function.relocate, ect_ap_thermal_function_named] at this ⊢
      simp only [this]
    · intro pv v n l
      rfl
  case dvfs_header =>
    simp only [invoke_decoder, ect_parse_dvfs_header]
    refine named_header_rel (ect_dvfs_domain.relocate (rebase a b)) mem mem1 a b hmem
      _ _ _ _ _ _ ha hb neg_enomem_ne neg_einval_ne ?_ ?_ ?_ info al
    · intro e
      rfl
    · intro pv e _ al
      exact dvfs_rel cfg mem mem1 a b hmem pv e.2 (ect_dvfs_domain_named e) al
    · intro pv v n l
      rfl
  case voltage_header =>
    simp only [invoke_decoder, ect_parse_voltage_header]
    refine named_header_rel (ect_voltage_domain.relocate (rebase a b)) mem mem1 a b hmem
      _ _ _ _ _ _ ha hb neg_einval_ne neg_enomem_ne ?_ ?_ ?_ info al
    · intro e
      rfl
    · intro pv e he al
      exact voltage_domain_rel cfg mem mem1 a b hmem pv e.2 (ect_voltage_domain_named e) al
        (hv rfl e he)
    · intro pv v n l
      rfl

theorem block_value_two_pass (cfg : ect_config) (mem : Mem) (p : ParserId) (a : Nat)
    (ha : a ≠ 0) : block_value cfg mem p a = some (ect_two_pass cfg mem p a) := by
  unfold block_value
  cases p
  case new_timing_param_header =>
    simp only [invoke_decoder, ect_parse_new_timing_param_header, kzalloc, ha, if_false,
      (key_bodies_ret mem _ a _ _).1, (key_bodies_ret mem _ a _ _).2.1,
      Bool.true_eq_false, ne_eq, not_true_eq_false]
    rfl
  case dvfs_header =>
    simp only [invoke_decoder, ect_parse_dvfs_header]
    refine (named_header_nil mem _ _ _ _ _ a ?_ ?_ ha _).trans ?_
    · exact fun pv x al h => dvfs_domain_allok cfg mem pv _ x al h
    · exact fun pv x al h => dvfs_domain_value cfg mem pv _ x al h
    · simp only [ect_two_pass, ect_names_at, ect_parse_integer, List.map_map]
      rfl
  case voltage_header =>
    simp only [invoke_decoder, ect_parse_voltage_header]
    refine (named_header_nil mem _ _ _ _ _ a ?_ ?_ ha _).trans ?_
    · exact fun pv x al h => voltage_domain_allok cfg mem pv _ x al h
    · exact fun pv x al h => voltage_domain_value cfg mem pv _ x al h
    · simp only [ect_two_pass, ect_names_at, ect_parse_integer, List.map_map]
      rfl
  case margin_header =>
    simp only [invoke_decoder, ect_parse_margin_header]
    refine (named_header_nil mem _ _ _ _ _ a ?_ ?_ ha _).trans ?_
    · exact fun pv x al h => ⟨margin_domain_ret cfg mem pv _ x, h⟩
    · exact fun _ _ _ _ => rfl
    · simp only [ect_two_pass, ect_names_at, ect_parse_integer, List.map_map]
      rfl
  case ap_thermal_header =>
    simp only [invoke_decoder, ect_parse_ap_thermal_header]
    refine (named_header_nil mem _ _ _ _ _ a ?_ ?_ ha _).trans ?_
    · exact fun pv x al h =>
        ⟨by rw [(ap_thermal_allok mem pv _ x al h).1]; rfl, (ap_thermal_allok mem pv _ x al h).2⟩
    · exact fun pv x al h => ap_thermal_value mem pv _ x al h
    · simp only [ect_two_pass, ect_names_at, ect_parse_integer, List.map_map]
      rfl
  case pll_header =>
    simp only [invoke_decoder, ect_parse_pll_header]
    refine (named_header_nil mem _ _ _ _ _ a ?_ ?_ ha _).trans ?_
    · exact fun pv x al h => ⟨rfl, h⟩
    · exact fun _ _ _ _ => rfl
    · simp only [ect_two_pass, ect_names_at, ect_parse_integer, List.map_map]
      rfl
  case minlock_header =>
    simp only [invoke_decoder, ect_parse_minlock_header]
    refine (named_header_nil mem _ _ _ _ _ a ?_ ?_ ha _).trans ?_
    · exact fun pv x al h => ⟨rfl, h⟩
    · exact fun _ _ _ _ => rfl
    · simp only [ect_two_pass, ect_names_at, ect_parse_integer, List.map_map]
      rfl
  case gen_param_header =>
    simp only [invoke_decoder, ect_parse_gen_param_header]
    refine (named_header_nil mem _ _ _ _ _ a ?_ ?_ ha _).trans ?_
    · exact fun pv x al h => ⟨rfl, h⟩
    · exact fun _ _ _ _ => rfl
    · simp only [ect_two_pass, ect_names_at, ect_parse_integer, List.map_map]
      rfl

/-- C27 (counterexample): the same ASV block bytes stand at address 64 of one
image and at address 68 of another; the word in front of the block is 1 in
the first image and 2 in the second.  The data size of the domain is
negative, so the cursor steps back over the block base after the first
table and the second table is read from the word in front of the block: its
`table_version` is 1 in one decode and 2 in the other. -/
theorem C27_counterexample :
    asv_backward_mem_a.drop 64 = asv_backward_block
      ∧ asv_backward_mem_b.drop 68 = asv_backward_block
      ∧ (invoke_decoder scenario_config asv_backward_mem_a .voltage_header 64
          (ect_info_init [65, 83, 86] .voltage_header) []).2.1.block_handle
        = some (BlockHandle.voltage
            { parser_version := 1, version := 825241648, num_of_domain := 1,
              domain_list :=
                [{ domain_name := 80, domain_offset := 24, num_of_group := 4294967284,
                   num_of_level := 1, num_of_table := 2, level_list := some 100,
                   table_list :=
                     [{ table_version := 7, boot_level_idx := -1, resume_level_idx := -1,
                        level_en := none, voltages := some 108, voltages_step := none,
                        volt_step := 0 },
                      { table_version := 1, boot_level_idx := -1, resume_level_idx := -1,
                        level_en := none, voltages := some 64, voltages_step := none,
                        volt_step := 0 }] }] })
      ∧ (invoke_decoder scenario_config asv_backward_mem_b .voltage_header 68
          (ect_info_init [65, 83, 86] .voltage_header) []).2.1.block_handle
        = some (BlockHandle.voltage
            { parser_version := 1, version := 825241648, num_of_domain := 1,
              domain_list :=
                [{ domain_name := 84, domain_offset := 24, num_of_group := 4294967284,
                   num_of_level := 1, num_of_table := 2, level_list := some 104,
                   table_list :=
                     [{ table_version := 7, boot_level_idx := -1, resume_level_idx := -1,
                        level_en := none, voltages := some 112, voltages_step := none,
                        volt_step := 0 },
                      { table_version := 2, boot_level_idx := -1, resume_level_idx := -1,
                        level_en := none, voltages := some 68, voltages_step := none,
                        volt_step := 0 }] }] }) := by
  decide

/-- C27 (amended): two images hold the same bytes `blk` from the block base
on, at the bases `|pre|` and `|pre1|`.  For every block kind the two decodes
return the same code and consume the same allocations, and on success the
second block is the first one with every pointer moved from the one base to
the other, all counts, versions, keys, sub-offsets and decoded values being
equal; for an ASV block this needs the data size
`num_of_group * num_of_level` of every domain to be non-negative as a C
`int`.  On success the block is the one the two passes define: the table of
names (or keys) and sub-offsets is read first and record `i` is then decoded
at `block_base + sub_offset_i`; the decoder never receives the buffer
origin. -/
theorem C27_block_decode_is_relative (cfg : ect_config) (pre pre1 blk : List Nat)
    (p : ParserId) (info : ect_info) (al : Alloc) (hpre : pre ≠ []) (hpre1 : pre1 ≠ [])
    (hv : p = ParserId.voltage_header → voltage_sizes_ok (pre ++ blk) pre.length) :
    (invoke_decoder cfg (pre1 ++ blk) p pre1.length info al).1
        = (invoke_decoder cfg (pre ++ blk) p pre.length info al).1
      ∧ (invoke_decoder cfg (pre1 ++ blk) p pre1.length info al).2.2
        = (invoke_decoder cfg (pre ++ blk) p pre.length info al).2.2
      ∧ ((invoke_decoder cfg (pre ++ blk) p pre.length info al).1 = 0 →
          (invoke_decoder cfg (pre1 ++ blk) p pre1.length info al).2.1.block_handle
            = (invoke_decoder cfg (pre ++ blk) p pre.length info al).2.1.block_handle.map
                (BlockHandle.relocate (rebase pre.length pre1.length)))
      ∧ ((invoke_decoder cfg (pre ++ blk) p pre.length info al).1 = 0 →
          (invoke_decoder cfg (pre ++ blk) p pre.length info al).2.1.block_handle
            = some (ect_two_pass cfg (pre ++ blk) p pre.length)) := by
  have hmem : ∀ i, readb (pre1 ++ blk) (pre1.length + i) = readb (pre ++ blk) (pre.length + i) :=
    fun i => by rw [readb_append_right, readb_append_right]
  have ha : pre.length ≠ 0 := fun h => hpre (List.length_eq_zero.mp h)
  have hb : pre1.length ≠ 0 := fun h => hpre1 (List.length_eq_zero.mp h)
  obtain ⟨h1, h2, h3⟩ :=
    decoder_rel cfg (pre ++ blk) (pre1 ++ blk) pre.length pre1.length hmem ha hb p hv info al
  refine ⟨h1, h2, fun h => ?_, fun h => ?_⟩
  · rw [h3 h]
  · rw [invoke_decoder_value cfg (pre ++ blk) p pre.length info al h]
    exact block_value_two_pass cfg (pre ++ blk) p pre.length ha

theorem C27_block_decode_is_relative_witness :
    (invoke_decoder scenario_config ([0, 0, 0, 0, 0, 0, 0, 0] ++ scenario_pll_block) .pll_header
        8 (ect_info_init [80, 76, 76] .pll_header) []).1 = 0
      ∧ (invoke_decoder scenario_config ([0, 0, 0, 0] ++ scenario_pll_block) .pll_header
          4 (ect_info_init [80, 76, 76] .pll_header) []).2.1.block_handle
        = some (BlockHandle.pll
            { parser_version := 1, version := 825241648, num_of_pll := 1,
              pll_list := [{ pll_name := 20, pll_offset := 28, frequency_list := some 40,
                             type_pll := 0, num_of_frequency := 1 }] })
      ∧ (invoke_decoder scenario_config ([0, 0, 0, 0, 0, 0, 0, 0] ++ scenario_pll_block)
          .pll_header 8 (ect_info_init [80, 76, 76] .pll_header) []).2.1.block_handle
        = some (BlockHandle.pll
            { parser_version := 1, version := 825241648, num_of_pll := 1,
              pll_list := [{ pll_name := 24, pll_offset := 28, frequency_list := some 44,
                             type_pll := 0, num_of_frequency := 1 }] }) :=
  have h := C27_block_decode_is_relative scenario_config [0, 0, 0, 0] [0, 0, 0, 0, 0, 0, 0, 0]
    scenario_pll_block .pll_header (ect_info_init [80, 76, 76] .pll_header) []
    (by decide) (by decide) (fun h => absurd h (by decide))
  ⟨h.1.trans (by decide), by decide, (h.2.2.1 (by decide)).trans (by decide)⟩

/-! ## Record layouts -/

theorem ap_thermal_ranges_length (mem : Mem) (n a : Nat) :
    (ect_parse_ap_thermal_ranges mem n a).length = n := by
  induction n generalizing a with
  | zero => rfl
  | succ n ih => simp only [ect_parse_ap_thermal_ranges, List.length_cons, ih]

theorem ap_thermal_ranges_get (mem : Mem) (n a i : Nat) (h : i < n) :
    (ect_parse_ap_thermal_ranges mem n a)[i]?
      = some { lower_bound_temperature := raw_readl mem (a + 20 * i)
               upper_bound_temperature := raw_readl mem (a + 20 * i + 4)
               max_frequency := raw_readl mem (a + 20 * i + 8)
               sw_trip := raw_readl mem (a + 20 * i + 12)
               flag := raw_readl mem (a + 20 * i + 16) } := by
  induction n generalizing a i with
  | zero => omega
  | succ n ih =>
    cases i with
    | zero =>
      simp only [ect_parse_ap_thermal_ranges, ect_parse_integer, List.getElem?_cons_zero,
        Nat.mul_zero, Nat.add_zero]
    | succ i =>
      simp only [ect_parse_ap_thermal_ranges, ect_parse_integer, List.getElem?_cons_succ]
      rw [ih _ i (by omega)]
      have e : a + 4 + 4 + 4 + 4 + 4 + 20 * i = a + 20 * (i + 1) := by omega
      rw [e]

theorem ap_thermal_ranges_frame (mem mem2 : Mem) (n a : Nat)
    (h : ∀ k, k < 20 * n → readb mem2 (a + k) = readb mem (a + k)) :
    ect_parse_ap_thermal_ranges mem2 n a = ect_parse_ap_thermal_ranges mem n a := by
  induction n generalizing a with
  | zero => rfl
  | succ n ih =>
    have hr : ∀ k, k + 4 ≤ 20 * (n + 1) → raw_readl mem2 (a + k) = raw_readl mem (a + k) := by
      intro k hk
      simp only [raw_readl, Nat.add_assoc]
      rw [h k (by omega), h (k + 1) (by omega), h (k + 2) (by omega), h (k + 3) (by omega)]
    have h0 := hr 0 (by omega)
    have h4 := hr 4 (by omega)
    have h8 := hr 8 (by omega)
    have h12 := hr 12 (by omega)
    have h16 := hr 16 (by omega)
    have ih1 := ih (a + 20) (fun k hk => by
      have := h (20 + k) (by omega)
      simpa only [Nat.add_assoc] using this)
    simp only [ect_parse_ap_thermal_ranges, ect_parse_integer]
    have e4 : a + 4 + 4 = a + 8 := rfl
    have e8 : a + 8 + 4 = a + 12 := rfl
    have e12 : a + 12 + 4 = a + 16 := rfl
    have e16 : a + 16 + 4 = a + 20 := rfl
    simp only [e4, e8, e12, e16, h4, h8, h12, h16, ih1]
    rw [show raw_readl mem2 a = raw_readl mem a from h0]

/-- C31: `ect_parse_ap_thermal_function` does not test the result of the
`kzalloc` of its range array.  When that allocation yields a pointer, or the
body has no range, the function returns 0, `num_of_range` is the first word
of the body, the range list has exactly `num_of_range` entries, and entry
`i` holds, by value, the five consecutive words at `body + 4 + 20 * i` as
lower bound, upper bound, maximum frequency, software trip and flag; the
entries are fixed by the `4 + 20 * num_of_range` bytes of the body as they
were when it was decoded.  When the allocation yields `NULL` and the body
has at least one range, the function stores through the null pointer: it
has no return value and yields no range. -/
theorem C31_ap_thermal_ranges_unless_null_store (mem : Mem) (pv : Int) (address : Nat)
    (function : ect_ap_thermal_function) (al : Alloc) :
    ((kzalloc al).1 = true ∨ raw_readl mem address = 0 →
        (ect_parse_ap_thermal_function mem pv address function al).1 = some 0
          ∧ (ect_parse_ap_thermal_function mem pv address function al).2.1.num_of_range
            = raw_readl mem address
          ∧ (ect_parse_ap_thermal_function mem pv address function al).2.1.range_list.length
            = raw_readl mem address
          ∧ (∀ i, i < raw_readl mem address →
              (ect_parse_ap_thermal_function mem pv address function al).2.1.range_list[i]?
                = some { lower_bound_temperature := raw_readl mem (address + 4 + 20 * i)
                         upper_bound_temperature := raw_readl mem (address + 4 + 20 * i + 4)
                         max_frequency := raw_readl mem (address + 4 + 20 * i + 8)
                         sw_trip := raw_readl mem (address + 4 + 20 * i + 12)
                         flag := raw_readl mem (address + 4 + 20 * i + 16) })
          ∧ (∀ mem2 : Mem,
              (∀ k, k < 4 + 20 * raw_readl mem address →
                readb mem2 (address + k) = readb mem (address + k)) →
              (ect_parse_ap_thermal_function mem2 pv address function al).2.1.range_list
                = (ect_parse_ap_thermal_function mem pv address function al).2.1.range_list))
      ∧ ((kzalloc al).1 = false → raw_readl mem address ≠ 0 →
          (ect_parse_ap_thermal_function mem pv address function al).1 = none
            ∧ (ect_parse_ap_thermal_function mem pv address function al).2.1.range_list = [])
      ∧ (ect_parse_ap_thermal_function (le32 4294967295) pv 0 function [false]).1 = none
      ∧ (ect_parse_ap_thermal_function (le32 1 ++ List.replicate 20 0) pv 0 function
          [false]).1 = none := by
  refine ⟨fun hk => ?_, fun hk hn => ?_, ?_, ?_⟩
  · have hc : ¬ ((kzalloc al).1 = false ∧ raw_readl mem address ≠ 0) := by
      rintro ⟨h1, h2⟩
      rcases hk with h | h
      · rw [h] at h1
        exact absurd h1 (by decide)
      · exact h2 h
    refine ⟨?_, ?_, ?_, ?_, ?_⟩
    · simp only [ect_parse_ap_thermal_function, ect_parse_integer, hc, if_false]
    · simp only [ect_parse_ap_thermal_function, ect_parse_integer, hc, if_false]
    · simp only [ect_parse_ap_thermal_function, ect_parse_integer, hc, if_false,
        ap_thermal_ranges_length]
    · intro i hi
      simp only [ect_parse_ap_thermal_function, ect_parse_integer, hc, if_false]
      exact ap_thermal_ranges_get mem _ _ i hi
    · intro mem2 h
      have hw : raw_readl mem2 address = raw_readl mem address := by
        have h0 := h 0 (by omega)
        have h1 := h 1 (by omega)
        have h2 := h 2 (by omega)
        have h3 := h 3 (by omega)
        simp only [Nat.add_zero] at h0
        simp only [raw_readl, h0, h1, h2, h3]
      simp only [ect_parse_ap_thermal_function, ect_parse_integer, hw, hc, if_false]
      refine ap_thermal_ranges_frame mem mem2 _ _ (fun k hk => ?_)
      have := h (4 + k) (by omega)
      simpa only [Nat.add_assoc] using this
  · have hc : (kzalloc al).1 = false ∧ raw_readl mem address ≠ 0 := ⟨hk, hn⟩
    simp only [ect_parse_ap_thermal_function, ect_parse_integer]
    rw [if_pos hc]
    exact ⟨rfl, rfl⟩
  · have h1 : raw_readl (le32 4294967295) 0 = 4294967295 := by decide
    simp only [ect_parse_ap_thermal_function, ect_parse_integer, kzalloc, h1]
    rfl
  · have h1 : raw_readl (le32 1 ++ List.replicate 20 0) 0 = 1 := by decide
    simp only [ect_parse_ap_thermal_function, ect_parse_integer, kzalloc, h1]
    rfl

/-- C32: for every Generic-Parameter table body, `num_of_col` is the first
word and `num_of_row` the second, the parameter matrix is borrowed and
starts at `body + 8`, and the cell `(row, col)` that the dump reads is the
word at index `row * num_of_col + col` of the matrix, for every index below
`2 ^ 32`; the index is row-major: with `col < num_of_col` it determines the
row and the column. -/
theorem C32_gen_param_matrix_row_major (mem : Mem) (pv : Int) (address : Nat)
    (size : ect_gen_param_table) :
    (ect_parse_gen_param_table mem pv address size).1 = 0
      ∧ (ect_parse_gen_param_table mem pv address size).2.num_of_col = raw_readl mem address
      ∧ (ect_parse_gen_param_table mem pv address size).2.num_of_row
        = raw_readl mem (address + 4)
      ∧ (ect_parse_gen_param_table mem pv address size).2.parameter = some (address + 8)
      ∧ (∀ row col, row * raw_readl mem address + col < 4294967296 →
          ect_gen_param_cell mem (ect_parse_gen_param_table mem pv address size).2 row col
            = raw_readl mem (address + 8 + 4 * (row * raw_readl mem address + col)))
      ∧ (∀ row col row1 col1, col < raw_readl mem address → col1 < raw_readl mem address →
          row * raw_readl mem address + col = row1 * raw_readl mem address + col1 →
          row = row1 ∧ col = col1) := by
  refine ⟨rfl, rfl, rfl, rfl, ?_, ?_⟩
  · intro row col h
    simp only [ect_gen_param_cell, ect_parse_gen_param_table, ect_parse_integer,
      Option.getD_some, Nat.mod_eq_of_lt h]
  · intro row col row1 col1 hc hc1 he
    have hpos : 0 < raw_readl mem address := by omega
    have d1 : (row * raw_readl mem address + col) / raw_readl mem address = row := by
      rw [Nat.add_comm, Nat.add_mul_div_right _ _ hpos, Nat.div_eq_of_lt hc, Nat.zero_add]
    have d2 : (row1 * raw_readl mem address + col1) / raw_readl mem address = row1 := by
      rw [Nat.add_comm, Nat.add_mul_div_right _ _ hpos, Nat.div_eq_of_lt hc1, Nat.zero_add]
    have hrow : row = row1 := by rw [← d1, ← d2, he]
    subst hrow
    exact ⟨rfl, by omega⟩

theorem named_header_codes {α : Type} (mem : Mem) (e1 e2 : Int) (named : Nat × Nat → α)
    (body : Int → α → Alloc → Int × α × Alloc) (mk : Nat → Nat → Nat → List α → BlockHandle)
    (address : Nat) (info : ect_info) (al : Alloc) :
    ((ect_parse_named_header mem e1 e2 named body mk address info al).1 = 0
        ∨ (ect_parse_named_header mem e1 e2 named body mk address info al).1 = e1
        ∨ (ect_parse_named_header mem e1 e2 named body mk address info al).1 = e2
        ∨ (ect_parse_named_header mem e1 e2 named body mk address info al).1 = -EINVAL)
      ∧ (address = 0 →
          (ect_parse_named_header mem e1 e2 named body mk address info al).1 = -EINVAL)
      ∧ (address ≠ 0 → (kzalloc al).1 = false →
          (ect_parse_named_header mem e1 e2 named body mk address info al).1 = e1)
      ∧ (address ≠ 0 → (kzalloc al).1 = true → (kzalloc (kzalloc al).2).1 = false →
          (ect_parse_named_header mem e1 e2 named body mk address info al).1 = e2) := by
  unfold ect_parse_named_header
  dsimp only
  refine ⟨?_, ?_, ?_, ?_⟩
  · split_ifs <;> simp
  · intro h
    rw [if_pos h]
  · intro h k
    rw [if_neg h, if_pos k]
  · intro h k1 k2
    rw [if_neg h, if_neg (by rw [k1]; decide), if_pos k2]

theorem timing_header_codes (mem : Mem) (address : Nat) (info : ect_info) (al : Alloc) :
    ((ect_parse_new_timing_param_header mem address info al).1 = 0
        ∨ (ect_parse_new_timing_param_header mem address info al).1 = -ENOMEM
        ∨ (ect_parse_new_timing_param_header mem address info al).1 = -EINVAL)
      ∧ (address = 0 → (ect_parse_new_timing_param_header mem address info al).1 = -EINVAL)
      ∧ (address ≠ 0 → (kzalloc al).1 = false →
          (ect_parse_new_timing_param_header mem address info al).1 = -ENOMEM)
      ∧ (address ≠ 0 → (kzalloc al).1 = true → (kzalloc (kzalloc al).2).1 = false →
          (ect_parse_new_timing_param_header mem address info al).1 = -ENOMEM) := by
  unfold ect_parse_new_timing_param_header
  dsimp only
  refine ⟨?_, ?_, ?_, ?_⟩
  · split_ifs <;> simp
  · intro h
    rw [if_pos h]
  · intro h k
    rw [if_neg h, if_pos k]
  · intro h k1 k2
    rw [if_neg h, if_neg (by rw [k1]; decide), if_pos k2]

/-- C33 (failing run): `ect_parse_dvfs_header` returns `-22` (`-EINVAL`),
which is neither 0 nor `-12`, the two values its `@retval` line documents,
for a null block address and also when the allocation of its domain list
fails. -/
theorem C33_counterexample :
    (ect_parse_dvfs_header scenario_config scenario_mem 0
        (ect_info_init [68, 86, 70, 83] .dvfs_header) []).1 = -22
      ∧ (ect_parse_dvfs_header scenario_config scenario_mem 44
        (ect_info_init [68, 86, 70, 83] .dvfs_header) [true, false]).1 = -22 := by
  decide

/-- C33: the return values of the six header decoders documented with the
return values 0 and `-12`.  Each returns 0, `-12` (`-ENOMEM`) or `-22`
(`-EINVAL`), a run of the AP-Thermal decoder that stores through a null
range list being counted with the failures.  All six return `-22`, which
their `@retval` lines do not list, for a null block address.  When the
allocation of the header record fails, the DVFS, PLL, Generic-Parameter and
New-Timing-Parameter decoders return `-12` and the voltage and AP-Thermal
decoders `-22`; when the allocation of the record list fails, the DVFS
decoder returns `-22` and the other five `-12`. -/
theorem C33_header_decoder_return_codes (cfg : ect_config) (mem : Mem) (address : Nat)
    (info : ect_info) (al : Alloc) :
    (∀ r ∈ [(ect_parse_dvfs_header cfg mem address info al).1,
            (ect_parse_pll_header mem address info al).1,
            (ect_parse_voltage_header cfg mem address info al).1,
            (ect_parse_ap_thermal_header mem address info al).1,
            (ect_parse_gen_param_header mem address info al).1,
            (ect_parse_new_timing_param_header mem address info al).1],
        r = 0 ∨ r = -12 ∨ r = -22)
      ∧ (address = 0 →
          (ect_parse_dvfs_header cfg mem address info al).1 = -22
            ∧ (ect_parse_pll_header mem address info al).1 = -22
            ∧ (ect_parse_voltage_header cfg mem address info al).1 = -22
            ∧ (ect_parse_ap_thermal_header mem address info al).1 = -22
            ∧ (ect_parse_gen_param_header mem address info al).1 = -22
            ∧ (ect_parse_new_timing_param_header mem address info al).1 = -22)
      ∧ (address ≠ 0 → (kzalloc al).1 = false →
          (ect_parse_dvfs_header cfg mem address info al).1 = -12
            ∧ (ect_parse_pll_header mem address info al).1 = -12
            ∧ (ect_parse_voltage_header cfg mem address info al).1 = -22
            ∧ (ect_parse_ap_thermal_header mem address info al).1 = -22
            ∧ (ect_parse_gen_param_header mem address info al).1 = -12
            ∧ (ect_parse_new_timing_param_header mem address info al).1 = -12)
      ∧ (address ≠ 0 → (kzalloc al).1 = true → (kzalloc (kzalloc al).2).1 = false →
          (ect_parse_dvfs_header cfg mem address info al).1 = -22
            ∧ (ect_parse_pll_header mem address info al).1 = -12
            ∧ (ect_parse_voltage_header cfg mem address info al).1 = -12
            ∧ (ect_parse_ap_thermal_header mem address info al).1 = -12
            ∧ (ect_parse_gen_param_header mem address info al).1 = -12
            ∧ (ect_parse_new_timing_param_header mem address info al).1 = -12) := by
  have hd := named_header_codes mem (-ENOMEM) (-EINVAL) ect_dvfs_domain_named
    (fun pv d a => ect_parse_dvfs_domain cfg mem pv (address + d.domain_offset) d a)
    (fun pv v n l => BlockHandle.dvfs
      { parser_version := pv, version := v, num_of_domain := n, domain_list := l })
    address info al
  have hp := named_header_codes mem (-ENOMEM) (-ENOMEM) ect_pll_named
    (fun pv p a => ((ect_parse_pll mem pv (address + p.pll_offset) p).1,
      (ect_parse_pll mem pv (address + p.pll_offset) p).2, a))
    (fun pv v n l => BlockHandle.pll
      { parser_version := pv, version := v, num_of_pll := n, pll_list := l })
    address info al
  have hv := named_header_codes mem (-EINVAL) (-ENOMEM) ect_voltage_domain_named
    (fun pv d a => ect_parse_voltage_domain cfg mem pv (address + d.domain_offset) d a)
    (fun pv v n l => BlockHandle.voltage
      { parser_version := pv, version := v, num_of_domain := n, domain_list := l })
    address info al
  have ht := named_header_codes mem (-EINVAL) (-ENOMEM) ect_ap_thermal_function_named
    (fun pv f a =>
      ((ect_parse_ap_thermal_function mem pv (address + f.function_offset) f a).1.getD (-EINVAL),
        (ect_parse_ap_thermal_function mem pv (address + f.function_offset) f a).2.1,
        (ect_parse_ap_thermal_function mem pv (address + f.function_offset) f a).2.2))
    (fun pv v n l => BlockHandle.ap_thermal
      { parser_version := pv, version := v, num_of_function := n, function_list := l })
    address info al
  have hg := named_header_codes mem (-ENOMEM) (-ENOMEM) ect_gen_param_table_named
    (fun pv t a => ((ect_parse_gen_param_table mem pv (address + t.offset) t).1,
      (ect_parse_gen_param_table mem pv (address + t.offset) t).2, a))
    (fun pv v n l => BlockHandle.gen_param
      { parser_version := pv, version := v, num_of_table := n, table_list := l })
    address info al
  have hn := timing_header_codes mem address info al
  have e12 : -ENOMEM = (-12 : Int) := rfl
  have e22 : -EINVAL = (-22 : Int) := rfl
  rw [e12, e22] at hd hp hv ht hg
  rw [e12, e22] at hn
  refine ⟨?_, fun h0 => ?_, fun h0 k1 => ?_, fun h0 k1 k2 => ?_⟩
  · intro r hr
    simp only [List.mem_cons, List.mem_singleton, List.not_mem_nil, or_false] at hr
    rcases hr with h | h | h | h | h | h
    · rw [h]
      rcases hd.1 with x | x | x | x
      · exact Or.inl x
      · exact Or.inr (Or.inl x)
      · exact Or.inr (Or.inr x)
      · exact Or.inr (Or.inr x)
    · rw [h]
      rcases hp.1 with x | x | x | x
      · exact Or.inl x
      · exact Or.inr (Or.inl x)
      · exact Or.inr (Or.inl x)
      · exact Or.inr (Or.inr x)
    · rw [h]
      rcases hv.1 with x | x | x | x
      · exact Or.inl x
      · exact Or.inr (Or.inr x)
      · exact Or.inr (Or.inl x)
      · exact Or.inr (Or.inr x)
    · rw [h]
      rcases ht.1 with x | x | x | x
      · exact Or.inl x
      · exact Or.inr (Or.inr x)
      · exact Or.inr (Or.inl x)
      · exact Or.inr (Or.inr x)
    · rw [h]
      rcases hg.1 with x | x | x | x
      · exact Or.inl x
      · exact Or.inr (Or.inl x)
      · exact Or.inr (Or.inl x)
      · exact Or.inr (Or.inr x)
    · rw [h]
      exact hn.1
  · exact ⟨hd.2.1 h0, hp.2.1 h0, hv.2.1 h0, ht.2.1 h0, hg.2.1 h0, hn.2.1 h0⟩
  · exact ⟨hd.2.2.1 h0 k1, hp.2.2.1 h0 k1, hv.2.2.1 h0 k1, ht.2.2.1 h0 k1, hg.2.2.1 h0 k1,
      hn.2.2.1 h0 k1⟩
  · exact ⟨hd.2.2.2 h0 k1 k2, hp.2.2.2 h0 k1 k2, hv.2.2.2 h0 k1 k2, ht.2.2.2 h0 k1 k2,
      hg.2.2.2 h0 k1 k2, hn.2.2.2 h0 k1 k2⟩

theorem voltage_table_same_sizes (cfg : ect_config) (mem : Mem) (pv : Int) (a : Nat)
    (d d1 : ect_voltage_domain) (t : ect_voltage_table)
    (hg : d1.num_of_group = d.num_of_group) (hl : d1.num_of_level = d.num_of_level) :
    ect_parse_voltage_table cfg mem pv a d1 t = ect_parse_voltage_table cfg mem pv a d t := by
  simp only [ect_parse_voltage_table, hg, hl]

theorem voltage_tables_same_sizes (cfg : ect_config) (mem : Mem) (pv : Int)
    (d d1 : ect_voltage_domain) (n a : Nat)
    (hg : d1.num_of_group = d.num_of_group) (hl : d1.num_of_level = d.num_of_level) :
    ect_parse_voltage_tables cfg mem pv d1 n a = ect_parse_voltage_tables cfg mem pv d n a := by
  induction n generalizing a with
  | zero => rfl
  | succ n ih =>
    simp only [ect_parse_voltage_tables, voltage_table_same_sizes cfg mem pv _ d d1 _ hg hl, ih]

theorem voltage_table_end (cfg : ect_config) (mem : Mem) (pv : Int) (a : Nat)
    (d : ect_voltage_domain) (t : ect_voltage_table)
    (hsz : d.num_of_group * d.num_of_level < 2147483648) :
    (ect_parse_voltage_table cfg mem pv a d t).1 = 0
      ∧ (ect_parse_voltage_table cfg mem pv a d t).2.1
        = a + voltage_table_size pv d.num_of_group d.num_of_level := by
  have hi : toInt32 (d.num_of_group * d.num_of_level)
      = ((d.num_of_group * d.num_of_level : Nat) : Int) := toInt32_small _ hsz
  simp only [ect_parse_voltage_table, ect_parse_integer, hi, voltage_table_size, ptr_add]
  split_ifs <;> refine ⟨rfl, ?_⟩ <;> simp only [] <;> omega

theorem voltage_tables_layout (cfg : ect_config) (mem : Mem) (pv : Int)
    (d : ect_voltage_domain) (hsz : d.num_of_group * d.num_of_level < 2147483648)
    (n a : Nat) :
    ect_parse_voltage_tables cfg mem pv d n a
      = (0,
          (List.range n).map (fun k =>
            (ect_parse_voltage_table cfg mem pv
              (a + k * voltage_table_size pv d.num_of_group d.num_of_level) d
              ect_voltage_table_zero).2.2),
          a + n * voltage_table_size pv d.num_of_group d.num_of_level) := by
  induction n generalizing a with
  | zero => simp [ect_parse_voltage_tables]
  | succ n ih =>
    have he := voltage_table_end cfg mem pv a d ect_voltage_table_zero hsz
    simp only [ect_parse_voltage_tables, he.1, he.2, ne_eq, not_true_eq_false, if_false, ih,
      List.range_succ_eq_map, List.map_cons, List.map_map, Nat.zero_mul, Nat.add_zero,
      Prod.mk.injEq, true_and, List.cons.injEq]
    refine ⟨?_, ?_⟩
    · apply List.map_congr_left
      intro k _
      simp only [Function.comp]
      rw [Nat.add_assoc, Nat.succ_mul, Nat.add_comm (k * _)]
    · rw [Nat.succ_mul]
      omega

/-- C34 (counterexample): the domain has `num_of_group` = `num_of_level` =
65536 and parser version 1, so that a table should occupy
`4 + 4 * 65536 * 65536` bytes; the decoder computes the data size as a
32-bit `int`, which is 0, and the second table starts four bytes after the
first. -/
theorem C34_counterexample :
    (ect_parse_voltage_domain scenario_config wide_domain_mem 1 0
        (ect_voltage_domain_named (0, 0)) []).1 = 0
      ∧ (ect_parse_voltage_domain scenario_config wide_domain_mem 1 0
        (ect_voltage_domain_named (0, 0)) []).2.1.table_list.map (fun t => t.voltages)
        = [some 262160, some 262164]
      ∧ voltage_table_size 1 65536 65536 = 17179869188 := by
  decide

/-- C34 (amended): in a voltage domain that is decoded successfully and
whose data size `num_of_group * num_of_level` is below `2 ^ 31`, the tables
stand back to back: the level words start at `body + 12`, table 0 starts
right after the `num_of_level` level words, table `k` is decoded at
`body + 12 + 4 * num_of_level + k * size` with
`size = 4 + (8 + 4 * num_of_level from version 2 on) + (num_of_group *
num_of_level` bytes from version 3 on, four times as many before`)`, and it
ends where table `k + 1` starts.  There is no padding: from version 3 on the
size is not a multiple of 4 whenever the data size is not. -/
theorem C34_voltage_tables_back_to_back (cfg : ect_config) (mem : Mem) (pv : Int)
    (address : Nat) (domain : ect_voltage_domain) (al : Alloc)
    (hok : (ect_parse_voltage_domain cfg mem pv address domain al).1 = 0)
    (hsz : raw_readl mem address * raw_readl mem (address + 4) < 2147483648) :
    (ect_parse_voltage_domain cfg mem pv address domain al).2.1.num_of_group
        = raw_readl mem address
      ∧ (ect_parse_voltage_domain cfg mem pv address domain al).2.1.num_of_level
        = raw_readl mem (address + 4)
      ∧ (ect_parse_voltage_domain cfg mem pv address domain al).2.1.num_of_table
        = raw_readl mem (address + 8)
      ∧ (ect_parse_voltage_domain cfg mem pv address domain al).2.1.level_list
        = some (address + 12)
      ∧ (ect_parse_voltage_domain cfg mem pv address domain al).2.1.table_list
        = (List.range (raw_readl mem (address + 8))).map (fun k =>
            (ect_parse_voltage_table cfg mem pv
              (address + (12 + 4 * raw_readl mem (address + 4))
                + k * voltage_table_size pv (raw_readl mem address) (raw_readl mem (address + 4)))
              (ect_parse_voltage_domain cfg mem pv address domain al).2.1
              ect_voltage_table_zero).2.2)
      ∧ (∀ k,
          (ect_parse_voltage_table cfg mem pv
              (address + (12 + 4 * raw_readl mem (address + 4))
                + k * voltage_table_size pv (raw_readl mem address) (raw_readl mem (address + 4)))
              (ect_parse_voltage_domain cfg mem pv address domain al).2.1
              ect_voltage_table_zero).2.1
            = address + (12 + 4 * raw_readl mem (address + 4))
                + (k + 1)
                  * voltage_table_size pv (raw_readl mem address) (raw_readl mem (address + 4)))
      ∧ (3 ≤ pv → (raw_readl mem address * raw_readl mem (address + 4)) % 4 ≠ 0 →
          voltage_table_size pv (raw_readl mem address) (raw_readl mem (address + 4)) % 4 ≠ 0) := by
  rw [voltage_domain_unfold] at hok ⊢
  by_cases c1 : (kzalloc al).1 = false
  · rw [if_pos c1] at hok
    exact absurd hok neg_enomem_ne
  · rw [if_neg c1]
    have hl := voltage_tables_layout cfg mem pv
      { domain with
        num_of_group := raw_readl mem address, num_of_level := raw_readl mem (address + 4),
        num_of_table := raw_readl mem (address + 8), level_list := some (address + 12) }
      hsz (raw_readl mem (address + 8)) (address + (12 + 4 * raw_readl mem (address + 4)))
    refine ⟨rfl, rfl, rfl, rfl, ?_, ?_, ?_⟩
    · show (ect_parse_voltage_tables cfg mem pv _ _ _).2.1 = _
      rw [hl]
      apply List.map_congr_left
      intro k _
      simp only [ect_parse_voltage_table]
    · intro k
      refine (voltage_table_end cfg mem pv _ _ ect_voltage_table_zero hsz).2.trans ?_
      show _ + voltage_table_size pv (raw_readl mem address) (raw_readl mem (address + 4)) = _
      have e : (k + 1) * voltage_table_size pv (raw_readl mem address) (raw_readl mem (address + 4))
          = k * voltage_table_size pv (raw_readl mem address) (raw_readl mem (address + 4))
            + voltage_table_size pv (raw_readl mem address) (raw_readl mem (address + 4)) := by
        rw [Nat.add_mul, Nat.one_mul]
      omega
    · intro h3 hm
      have p3 : pv ≥ 3 := h3
      have p2 : pv ≥ 2 := by omega
      simp only [voltage_table_size, p2, p3, if_true]
      omega

theorem C34_voltage_tables_back_to_back_witness :
    (ect_parse_voltage_domain scenario_config byte_matrix_mem 3 0
        (ect_voltage_domain_named (0, 0)) []).2.1.table_list.map
        (fun t => (t.table_version, t.voltages_step))
      = [(7, some 32), (9, some 49)]
      ∧ voltage_table_size 3 1 1 = 17 :=
  have h := C34_voltage_tables_back_to_back scenario_config byte_matrix_mem 3 0
    (ect_voltage_domain_named (0, 0)) [] (by decide) (by decide)
  ⟨(congrArg (List.map (fun t => (t.table_version, t.voltages_step))) h.2.2.2.2.1).trans
      (by decide), by decide⟩

/-! ## Lookups, names and platforms -/

/-- C35: on the special SoC revision `ect_rename` appends three bytes, on
every other platform none.  A name of 17 bytes passes the length check of
`ect_dvfs_get_domain` and `ect_asv_get_domain`, and on the special SoC
revision its renamed form with the terminator takes 21 bytes, one more than
the `NAME_MAX_LEN` bytes of the compare buffer; the renamed form fits for
every platform exactly when the name has at most 16 bytes. -/
theorem C35_rename_can_overflow_buffer :
    (∀ (soc : exynos_soc_info) (name : List Nat),
        soc.product_id = soc.EXYNOSAUTOV920_SOC_ID ∧ soc.main_rev = 0 →
        (ect_rename soc name).length = name.length + 3)
      ∧ (∀ (soc : exynos_soc_info) (name : List Nat),
          ¬ (soc.product_id = soc.EXYNOSAUTOV920_SOC_ID ∧ soc.main_rev = 0) →
          (ect_rename soc name).length = name.length)
      ∧ (∀ (soc : exynos_soc_info) (name : List Nat), name.length + 4 ≤ NAME_MAX_LEN →
          (ect_rename soc name).length + 1 ≤ NAME_MAX_LEN)
      ∧ (∀ name : List Nat, 17 ≤ name.length →
          ¬ (ect_rename special_soc name).length + 1 ≤ NAME_MAX_LEN)
      ∧ ¬ ((List.replicate 17 65).length ≥ NAME_MAX_LEN)
      ∧ (ect_rename special_soc (List.replicate 17 65)).length + 1 = 21 := by
  refine ⟨?_, ?_, ?_, ?_, by decide, by decide⟩
  · intro soc name h
    simp [ect_rename, h]
  · intro soc name h
    simp [ect_rename, h]
  · intro soc name h
    simp only [ect_rename, NAME_MAX_LEN] at h ⊢
    split_ifs
    · simp only [List.length_append, List.length_cons, List.length_nil]
      omega
    · omega
  · intro name h
    have hs : special_soc.product_id = special_soc.EXYNOSAUTOV920_SOC_ID
        ∧ special_soc.main_rev = 0 := by decide
    simp only [ect_rename, hs, and_self, if_true, List.length_append, List.length_cons,
      List.length_nil, NAME_MAX_LEN]
    omega

/-- C36: `ect_dvfs_get_domain` and `ect_asv_get_domain` return not-found for
every query of `NAME_MAX_LEN` = 20 or more bytes, on every platform and
whatever the block holds; the AP-Thermal, Margin, Min-Lock,
Generic-Parameter and PLL lookups have no length test: for a query of any
length they return the first record whose stored name equals the query (for
the PLL lookup: occurs in the query), so a record stored under a name of 20
or more bytes is found by them. -/
theorem C36_only_dvfs_and_asv_limit_length (soc : exynos_soc_info) (mem : Mem)
    (q : List Nat) (hq : NAME_MAX_LEN ≤ q.length) :
    (∀ h : ect_dvfs_header, ect_dvfs_get_domain soc mem (some h) (some q) = .ok none)
      ∧ (∀ h : ect_voltage_header, ect_asv_get_domain soc mem (some h) (some q) = .ok none)
      ∧ (∀ h : ect_ap_thermal_header, ect_ap_thermal_get_function mem (some h) (some q)
          = (h.function_list.take h.num_of_function).find?
              (fun f => decide (cstr mem f.function_name = q)))
      ∧ (∀ h : ect_margin_header, ect_margin_get_domain mem (some h) (some q)
          = (h.domain_list.take h.num_of_domain).find?
              (fun d => decide (cstr mem d.domain_name = q)))
      ∧ (∀ h : ect_minlock_header, ect_minlock_get_domain mem (some h) (some q)
          = (h.domain_list.take h.num_of_domain).find?
              (fun d => decide (cstr mem d.domain_name = q)))
      ∧ (∀ h : ect_gen_param_header, ect_gen_param_get_table mem (some h) q
          = (h.table_list.take h.num_of_table).find?
              (fun t => decide (cstr mem t.table_name = q)))
      ∧ (∀ h : ect_pll_header, ect_pll_get_pll mem (some h) (some q)
          = (h.pll_list.take h.num_of_pll).find?
              (fun p => decide (cstr mem p.pll_name <:+: q))) := by
  refine ⟨fun h => ?_, fun h => ?_, fun h => ?_, fun h => ?_, fun h => ?_, fun h => ?_,
    fun h => ?_⟩
  · simp only [ect_dvfs_get_domain, ge_iff_le, hq, if_true]
  · simp only [ect_asv_get_domain, ge_iff_le, hq, if_true]
  · exact (scan_by_name mem (fun f : ect_ap_thermal_function => f.function_name) q _).1
  · exact (scan_by_name mem (fun d : ect_margin_domain => d.domain_name) q _).1
  · exact (scan_by_name mem (fun d : ect_minlock_domain => d.domain_name) q _).1
  · exact (scan_by_name mem (fun t : ect_gen_param_table => t.table_name) q _).2
  · simp only [ect_pll_get_pll, ect_pll_scan_find]

theorem C36_only_dvfs_and_asv_limit_length_witness :
    cstr long_name_mem 30 = List.replicate 20 65
      ∧ ect_dvfs_get_domain plain_soc long_name_mem (some (dvfs_block_named 30))
          (some (List.replicate 20 65)) = .ok none
      ∧ ect_margin_get_domain long_name_mem (some (margin_block_named 30))
          (some (List.replicate 20 65)) = some (ect_margin_domain_named (30, 0)) :=
  have h := C36_only_dvfs_and_asv_limit_length plain_soc long_name_mem (List.replicate 20 65)
    (by decide)
  ⟨by decide, h.1 (dvfs_block_named 30),
    (h.2.2.2.1 (margin_block_named 30)).trans (by decide)⟩

/-- C37: a call of the AP-Thermal, Margin, Min-Lock, Generic-Parameter, PLL
or New-Timing-Parameter lookup returns the same record on every two platform
identities; the DVFS and ASV lookups depend on the platform through
`ect_rename` only (they agree on two platforms that rename the query alike),
and they do depend on it: the domain stored as "CPU_E0" is found for the
query "CPU" on the special SoC revision and not on another platform. -/
theorem C37_platform_only_affects_renaming_lookups (soc soc1 : exynos_soc_info) (mem : Mem) :
    (∀ call : EctLookup, call.renames = false →
        ect_lookup soc mem call = ect_lookup soc1 mem call)
      ∧ (∀ (b : Option ect_dvfs_header) (q : List Nat),
          ect_rename soc q = ect_rename soc1 q →
          ect_lookup soc mem (.dvfs_get_domain b (some q))
            = ect_lookup soc1 mem (.dvfs_get_domain b (some q)))
      ∧ (∀ (b : Option ect_voltage_header) (q : List Nat),
          ect_rename soc q = ect_rename soc1 q →
          ect_lookup soc mem (.asv_get_domain b (some q))
            = ect_lookup soc1 mem (.asv_get_domain b (some q)))
      ∧ ect_lookup special_soc short_name_mem
          (.dvfs_get_domain (some (dvfs_block_named 5)) (some [67, 80, 85]))
        = .dvfs_domain (.ok (some (ect_dvfs_domain_named (5, 0))))
      ∧ ect_lookup plain_soc short_name_mem
          (.dvfs_get_domain (some (dvfs_block_named 5)) (some [67, 80, 85]))
        = .dvfs_domain (.ok none) := by
  refine ⟨?_, ?_, ?_, by decide, by decide⟩
  · intro call h
    cases call <;> first | rfl | exact absurd h (by simp [EctLookup.renames])
  · intro b q h
    cases b with
    | none => rfl
    | some hd => simp only [ect_lookup, ect_dvfs_get_domain, h]
  · intro b q h
    cases b with
    | none => rfl
    | some hd => simp only [ect_lookup, ect_asv_get_domain, h]

theorem ect_strcmp_swap (a b : List Nat) : ect_strcmp a b = -ect_strcmp b a := by
  induction a generalizing b with
  | nil =>
    cases b with
    | nil => rfl
    | cons y ys => rfl
  | cons x xs ih =>
    cases b with
    | nil => rfl
    | cons y ys =>
      simp only [ect_strcmp]
      by_cases h : x = y
      · subst h
        simp only [if_true]
        exact ih ys
      · have h1 : ¬ y = x := fun e => h e.symm
        simp only [h, h1, if_false]
        by_cases hl : x < y
        · have : ¬ y < x := by omega
          simp only [hl, this, if_true, if_false]
        · have : y < x := by omega
          simp only [hl, this, if_true, if_false]
          rfl

theorem ect_strcmp_common (p a b : List Nat) :
    ect_strcmp (p ++ a) (p ++ b) = ect_strcmp a b := by
  induction p with
  | nil => rfl
  | cons x p ih => simp only [List.cons_append, ect_strcmp, if_true, List.append_eq, ih]

/-- C40: `ect_strcmp` returns 0, `-1` or 1; it returns 0 exactly when the two
strings are equal; when they first differ in the bytes `x` and `y` after a
common part it returns `-1` if `x < y` and 1 otherwise; a proper prefix
compares as smaller; and `ect_strcmp a b = -ect_strcmp b a`. -/
theorem C40_strcmp_three_valued_order (a b : List Nat) :
    (ect_strcmp a b = 0 ∨ ect_strcmp a b = -1 ∨ ect_strcmp a b = 1)
      ∧ (ect_strcmp a b = 0 ↔ a = b)
      ∧ (∀ p x y r s, a = p ++ x :: r → b = p ++ y :: s → x ≠ y →
          ect_strcmp a b = if x < y then -1 else 1)
      ∧ (∀ y s, b = a ++ y :: s → ect_strcmp a b = -1)
      ∧ (∀ x r, a = b ++ x :: r → ect_strcmp a b = 1)
      ∧ ect_strcmp a b = -ect_strcmp b a := by
  refine ⟨?_, ect_strcmp_eq_zero a b, ?_, ?_, ?_, ect_strcmp_swap a b⟩
  · induction a generalizing b with
    | nil =>
      cases b with
      | nil => exact Or.inl rfl
      | cons y ys => exact Or.inr (Or.inl rfl)
    | cons x xs ih =>
      cases b with
      | nil => exact Or.inr (Or.inr rfl)
      | cons y ys =>
        simp only [ect_strcmp]
        split_ifs
        · exact ih ys
        · exact Or.inr (Or.inl rfl)
        · exact Or.inr (Or.inr rfl)
  · intro p x y r s ha hb hxy
    rw [ha, hb, ect_strcmp_common]
    simp only [ect_strcmp, hxy, if_false]
  · intro y s hb
    have := ect_strcmp_common a [] (y :: s)
    rw [List.append_nil] at this
    rw [hb, this]
    rfl
  · intro x r ha
    have := ect_strcmp_common b (x :: r) []
    rw [List.append_nil] at this
    rw [ha, this]
    rfl

/-! ## Publication of decoded blocks -/

theorem get_block_at (l pre post : List ect_info) (e : ect_info) (name : List Nat)
    (hl : l = pre ++ e :: post) (hpre : ∀ x ∈ pre, x.block_name ≠ name)
    (he : e.block_name = name) : ect_get_block l name = e.block_handle := by
  subst hl
  induction pre with
  | nil =>
    have : ect_strcmp name e.block_name = 0 := (ect_strcmp_eq_zero _ _).mpr he.symm
    simp only [List.nil_append, ect_get_block, this, if_true]
  | cons x pre ih =>
    have hx : ¬ ect_strcmp name x.block_name = 0 := fun h =>
      hpre x (List.mem_cons_self _ _) ((ect_strcmp_eq_zero _ _).mp h).symm
    simp only [List.cons_append, ect_get_block, hx, if_false, List.append_eq]
    exact ih (fun y hy => hpre y (List.mem_cons_of_mem _ hy))

theorem get_block_absent (l : List ect_info) (name : List Nat)
    (h : ∀ e ∈ l, e.block_name ≠ name) : ect_get_block l name = none := by
  induction l with
  | nil => rfl
  | cons x l ih =>
    have hx : ¬ ect_strcmp name x.block_name = 0 := fun h0 =>
      h x (List.mem_cons_self _ _) ((ect_strcmp_eq_zero _ _).mp h0).symm
    simp only [ect_get_block, hx, if_false]
    exact ih (fun y hy => h y (List.mem_cons_of_mem _ hy))

theorem get_block_cases (l : List ect_info) (name : List Nat) :
    ect_get_block l name = none
      ∨ ∃ e ∈ l, ect_get_block l name = e.block_handle := by
  induction l with
  | nil => exact Or.inl rfl
  | cons x l ih =>
    simp only [ect_get_block]
    split_ifs
    · exact Or.inr ⟨x, List.mem_cons_self _ _, rfl⟩
    · rcases ih with h | ⟨e, he, h⟩
      · exact Or.inl h
      · exact Or.inr ⟨e, List.mem_cons_of_mem _ he, h⟩

theorem last_match_split {α : Type} (p : α → Bool) (l : List α) :
    (∀ x ∈ l, p x = false)
      ∨ ∃ pre d post, l = pre ++ d :: post ∧ p d = true ∧ ∀ x ∈ post, p x = false := by
  induction l with
  | nil => exact Or.inl (fun _ h => absurd h (List.not_mem_nil _))
  | cons x l ih =>
    rcases ih with h | ⟨pre, d, post, hl, hd, hp⟩
    · cases hx : p x with
      | true => exact Or.inr ⟨[], x, l, rfl, hx, h⟩
      | false =>
        refine Or.inl (fun y hy => ?_)
        rcases List.mem_cons.mp hy with e | e
        · rw [e]
          exact hx
        · exact h y e
    · exact Or.inr ⟨x :: pre, d, post, by rw [hl]; rfl, hd, hp⟩

theorem ect_list_name_length (cfg : ect_config) (e : ect_info) (h : e ∈ ect_list cfg) :
    e.block_name_length = e.block_name.length ∧ e.block_handle = none := by
  simp only [ect_list, List.mem_cons, List.mem_singleton, List.not_mem_nil, or_false] at h
  rcases h with h | h | h | h | h | h | h | h <;> rw [h] <;> exact ⟨rfl, rfl⟩

theorem parse_final_entry (cfg : ect_config) (mem : Mem) (a : Nat) (al : Alloc)
    (h : (ect_parse_binary_header cfg mem a (EctState.init cfg) al).ret = 0)
    (j i : Nat) (e : ect_info) (d : List Nat × Nat)
    (he : (ect_list cfg)[j]? = some e) (hd : (ect_directory_at mem a)[i]? = some d)
    (hm : ect_match d.1 e = true)
    (hlast : ∀ d1 ∈ (ect_directory_at mem a).drop (i + 1), ect_match d1.1 e = false) :
    (ect_parse_binary_header cfg mem a (EctState.init cfg) al).state.ect_list
        = ((ect_list cfg).take j).map (publish_fold cfg mem a (ect_directory_at mem a) 0)
          ++ { e with
               block_handle := block_value cfg mem e.parser (a + d.2)
               block_precedence := (i : Int) }
            :: ((ect_list cfg).drop (j + 1)).map
                (publish_fold cfg mem a (ect_directory_at mem a) 0) := by
  rw [parse_ok_list cfg mem a (EctState.init cfg) al h]
  obtain ⟨hl, -⟩ := getElem?_split (ect_list cfg) j e he
  obtain ⟨hdir, hlen⟩ := getElem?_split (ect_directory_at mem a) i d hd
  have hf : publish_fold cfg mem a (ect_directory_at mem a) 0 e
      = { e with
          block_handle := block_value cfg mem e.parser (a + d.2)
          block_precedence := (i : Int) } := by
    have := publish_fold_last cfg mem a ((ect_directory_at mem a).take i)
      ((ect_directory_at mem a).drop (i + 1)) d 0 e hm hlast
    rw [← hdir, Nat.zero_add, hlen] at this
    exact this
  show List.map _ (EctState.init cfg).ect_list = _
  have hi : (EctState.init cfg).ect_list = ect_list cfg := rfl
  rw [hi]
  conv_lhs => rw [hl]
  rw [List.map_append, List.map_cons, hf]

/-- C39: the registry entry `e` (position `j`) is selected by the directory
entry at position `i` and by no later one, whatever earlier entries select
it.  After a successful decode from the initial registry its handle is the
block decoded from entry `i` and its precedence is `i`.  Every handle
`ect_get_block` can return after the decode is the block decoded from the
last directory entry that selects some registry entry: a block decoded from
an earlier matching entry is returned by no lookup. -/
theorem C39_last_matching_entry_wins (cfg : ect_config) (mem : Mem) (ect_address : Nat)
    (al : Alloc) (j i : Nat) (e : ect_info) (d : List Nat × Nat)
    (h : (ect_parse_binary_header cfg mem ect_address (EctState.init cfg) al).ret = 0)
    (he : (ect_list cfg)[j]? = some e)
    (hd : (ect_directory_at mem ect_address)[i]? = some d)
    (hm : ect_match d.1 e = true)
    (hlast : ∀ d1 ∈ (ect_directory_at mem ect_address).drop (i + 1), ect_match d1.1 e = false) :
    (ect_parse_binary_header cfg mem ect_address (EctState.init cfg) al).state.ect_list[j]?
        = some { e with
                 block_handle := block_value cfg mem e.parser (ect_address + d.2)
                 block_precedence := (i : Int) }
      ∧ (∀ name,
          ect_get_block
              (ect_parse_binary_header cfg mem ect_address (EctState.init cfg) al).state.ect_list
              name = none
            ∨ ∃ e0 ∈ ect_list cfg, ∃ pre d0 post,
                ect_directory_at mem ect_address = pre ++ d0 :: post
                  ∧ ect_match d0.1 e0 = true
                  ∧ (∀ x ∈ post, ect_match x.1 e0 = false)
                  ∧ ect_get_block
                      (ect_parse_binary_header cfg mem ect_address (EctState.init cfg)
                        al).state.ect_list name
                    = block_value cfg mem e0.parser (ect_address + d0.2)) := by
  refine ⟨?_, ?_⟩
  · rw [parse_final_entry cfg mem ect_address al h j i e d he hd hm hlast]
    have hj : j < (ect_list cfg).length := (List.getElem?_eq_some.mp he).1
    have hl : (((ect_list cfg).take j).map
        (publish_fold cfg mem ect_address (ect_directory_at mem ect_address) 0)).length = j := by
      rw [List.length_map, List.length_take]
      omega
    rw [List.getElem?_append_right (by omega), hl, Nat.sub_self, List.getElem?_cons_zero]
  · intro name
    rw [parse_ok_list cfg mem ect_address (EctState.init cfg) al h]
    rcases get_block_cases ((EctState.init cfg).ect_list.map
        (publish_fold cfg mem ect_address (ect_directory_at mem ect_address) 0)) name
      with hn | ⟨x, hx, hg⟩
    · exact Or.inl hn
    · obtain ⟨e0, he0, rfl⟩ := List.mem_map.mp hx
      have he0' : e0 ∈ ect_list cfg := he0
      rcases last_match_split (fun x : List Nat × Nat => ect_match x.1 e0)
          (ect_directory_at mem ect_address) with hno | ⟨pre, d0, post, hsplit, hd0, hpost⟩
      · left
        rw [hg, publish_fold_unmatched cfg mem ect_address _ 0 e0 hno]
        exact (ect_list_name_length cfg e0 he0').2
      · right
        refine ⟨e0, he0', pre, d0, post, hsplit, hd0, hpost, ?_⟩
        rw [hg]
        have := publish_fold_last cfg mem ect_address pre post d0 0 e0 hd0 hpost
        rw [← hsplit] at this
        rw [this]

theorem C39_last_matching_entry_wins_witness :
    (ect_directory_at twice_pll_mem 16).map (fun d => d.1) = [[80, 76, 76], [80, 76, 76]]
      ∧ (ect_parse_binary_header scenario_config twice_pll_mem 16
          (EctState.init scenario_config) []).state.ect_list[4]?
        = some { ect_info_init [80, 76, 76] .pll_header with
                 block_handle := some (BlockHandle.pll
                   { parser_version := 1, version := 825241648, num_of_pll := 0,
                     pll_list := [] })
                 block_precedence := 1 } :=
  have h := C39_last_matching_entry_wins scenario_config twice_pll_mem 16 [] 4 1
    (ect_info_init [80, 76, 76] .pll_header) ([80, 76, 76], 96)
    (by decide) (by decide) (by decide) (by decide) (by decide)
  ⟨by decide, h.1.trans (by decide)⟩

/-! ## Dispatch and retrieval under the registry's name invariants -/

theorem match_iff_name_starts (l : List ect_info) (hreg : registry_names_apart l)
    (name : List Nat) (e : ect_info) (he : e ∈ l) :
    ect_match name e = true ↔ e.block_name <+: name := by
  obtain ⟨hl, hz⟩ := hreg.1 e he
  simp only [ect_match, decide_eq_true_eq, hl]
  exact strncmp_eq_zero_iff e.block_name name hz

theorem dispatch_calls_none (name : List Nat) (address i j : Nat) (l : List ect_info)
    (h : ∀ e ∈ l, ect_match name e = false) : dispatch_calls name address i j l = [] := by
  induction l generalizing j with
  | nil => rfl
  | cons e rest ih =>
    have he := h e (List.mem_cons_self _ _)
    simp only [dispatch_calls, he, Bool.false_eq_true, if_false]
    exact ih _ (fun x hx => h x (List.mem_cons_of_mem _ hx))

theorem dispatch_calls_single (name : List Nat) (address i : Nat) (l : List ect_info)
    (hreg : registry_names_apart l) (j0 : Nat) :
    (dispatch_calls name address i j0 l = [] ∧ ∀ e ∈ l, ¬ e.block_name <+: name)
      ∨ ∃ j e, l[j]? = some e ∧ e.block_name <+: name
          ∧ (∀ j1 e1, l[j1]? = some e1 → e1.block_name <+: name → j1 = j)
          ∧ dispatch_calls name address i j0 l = [{ i := i, j := j0 + j, address := address }] := by
  induction l generalizing j0 with
  | nil => exact Or.inl ⟨rfl, fun e he => absurd he (List.not_mem_nil _)⟩
  | cons x rest ih =>
    have hrest : registry_names_apart rest :=
      ⟨fun e he => hreg.1 e (List.mem_cons_of_mem _ he), (List.pairwise_cons.mp hreg.2).2⟩
    have hx := match_iff_name_starts (x :: rest) hreg name x (List.mem_cons_self _ _)
    by_cases hm : x.block_name <+: name
    · right
      have hno : ∀ y ∈ rest, ¬ y.block_name <+: name := by
        intro y hy hyn
        have hp := (List.pairwise_cons.mp hreg.2).1 y hy
        rcases List.prefix_or_prefix_of_prefix hm hyn with h1 | h1
        · exact hp.1 h1
        · exact hp.2 h1
      refine ⟨0, x, List.getElem?_cons_zero, hm, ?_, ?_⟩
      · intro j1 e1 h1 h2
        cases j1 with
        | zero => rfl
        | succ j1 =>
          rw [List.getElem?_cons_succ] at h1
          exact absurd h2 (hno e1 (List.getElem?_mem h1))
      · have hmt : ect_match name x = true := hx.mpr hm
        simp only [dispatch_calls, hmt, if_true, Nat.add_zero]
        rw [dispatch_calls_none name address i (j0 + 1) rest (fun y hy => by
          cases hc : ect_match name y with
          | false => rfl
          | true =>
            exact absurd ((match_iff_name_starts rest hrest name y hy).mp hc) (hno y hy))]
    · have hmf : ect_match name x = false := by
        cases hc : ect_match name x with
        | false => rfl
        | true => exact absurd (hx.mp hc) hm
      simp only [dispatch_calls, hmf, Bool.false_eq_true, if_false]
      rcases ih hrest (j0 + 1) with ⟨h1, h2⟩ | ⟨j, e, h1, h2, h3, h4⟩
      · left
        refine ⟨h1, fun e he => ?_⟩
        rcases List.mem_cons.mp he with rfl | he
        · exact hm
        · exact h2 e he
      · right
        refine ⟨j + 1, e, by rw [List.getElem?_cons_succ]; exact h1, h2, ?_, ?_⟩
        · intro j1 e1 hj1 he1
          cases j1 with
          | zero =>
            rw [List.getElem?_cons_zero] at hj1
            cases hj1
            exact absurd he1 hm
          | succ j1 =>
            rw [List.getElem?_cons_succ] at hj1
            rw [h3 j1 e1 hj1 he1]
        · rw [h4]
          have e : j0 + 1 + j = j0 + (j + 1) := by omega
          rw [e]

theorem dispatch_calls_i (name : List Nat) (address i j : Nat) (l : List ect_info) :
    ∀ c ∈ dispatch_calls name address i j l, c.i = i := by
  induction l generalizing j with
  | nil => exact fun c hc => absurd hc (List.not_mem_nil _)
  | cons e rest ih =>
    intro c hc
    simp only [dispatch_calls] at hc
    split_ifs at hc
    · rcases List.mem_cons.mp hc with rfl | hc
      · rfl
      · exact ih _ c hc
    · exact ih _ c hc

theorem directory_calls_i_ge (a : Nat) (dir : List (List Nat × Nat)) (i0 : Nat)
    (l : List ect_info) : ∀ c ∈ directory_calls a dir i0 l, i0 ≤ c.i := by
  induction dir generalizing i0 with
  | nil => exact fun c hc => absurd hc (List.not_mem_nil _)
  | cons d rest ih =>
    intro c hc
    simp only [directory_calls, List.mem_append] at hc
    rcases hc with hc | hc
    · rw [dispatch_calls_i _ _ _ _ _ c hc]
    · have := ih (i0 + 1) c hc
      omega

theorem directory_calls_filter (a : Nat) (dir : List (List Nat × Nat)) (i0 k : Nat)
    (l : List ect_info) (d : List Nat × Nat) (hd : dir[k]? = some d) :
    (directory_calls a dir i0 l).filter (fun c => decide (c.i = i0 + k))
      = dispatch_calls d.1 (a + d.2) (i0 + k) 0 l := by
  induction dir generalizing i0 k with
  | nil => simp at hd
  | cons d0 rest ih =>
    simp only [directory_calls, List.filter_append]
    cases k with
    | zero =>
      rw [List.getElem?_cons_zero] at hd
      have hd0 : d0 = d := Option.some.inj hd
      rw [hd0]
      have h1 : (dispatch_calls d.1 (a + d.2) i0 0 l).filter (fun c => decide (c.i = i0 + 0))
          = dispatch_calls d.1 (a + d.2) i0 0 l := by
        rw [List.filter_eq_self]
        intro c hc
        simp [dispatch_calls_i _ _ _ _ _ c hc]
      have h2 : (directory_calls a rest (i0 + 1) l).filter (fun c => decide (c.i = i0 + 0))
          = [] := by
        rw [List.filter_eq_nil_iff]
        intro c hc
        have := directory_calls_i_ge a rest (i0 + 1) l c hc
        simp only [decide_eq_true_eq]
        omega
      rw [h1, h2, List.append_nil]
      rfl
    | succ k =>
      rw [List.getElem?_cons_succ] at hd
      have h1 : (dispatch_calls d0.1 (a + d0.2) i0 0 l).filter
          (fun c => decide (c.i = i0 + (k + 1))) = [] := by
        rw [List.filter_eq_nil_iff]
        intro c hc
        rw [dispatch_calls_i _ _ _ _ _ c hc]
        simp only [decide_eq_true_eq]
        omega
      have e : i0 + (k + 1) = i0 + 1 + k := by omega
      rw [h1, List.nil_append, e]
      exact ih (i0 + 1) k hd

theorem registry_earlier_names (l : List ect_info) (hreg : registry_names_apart l) (j : Nat)
    (e : ect_info) (he : l[j]? = some e) :
    ∀ e1 ∈ l.take j, e1.block_name ≠ e.block_name := by
  intro e1 h1 hn
  obtain ⟨hl, -⟩ := getElem?_split l j e he
  have hp := hreg.2
  rw [hl] at hp
  have := (List.pairwise_append.mp hp).2.2 e1 h1 e (List.mem_cons_self _ _)
  exact this.1 (by rw [hn])

theorem registry_no_longer_name (l : List ect_info) (hreg : registry_names_apart l)
    (e : ect_info) (he : e ∈ l) (s : List Nat) (hs : s ≠ []) :
    ∀ e1 ∈ l, e1.block_name ≠ e.block_name ++ s := by
  intro e1 h1 hn
  have hsym : Symmetric (fun x y : ect_info =>
      ¬ x.block_name <+: y.block_name ∧ ¬ y.block_name <+: x.block_name) :=
    fun _ _ h => ⟨h.2, h.1⟩
  by_cases hee : e = e1
  · rw [← hee] at hn
    exact hs (List.append_right_eq_self.mp hn.symm)
  · have := hreg.2.forall hsym he h1 hee
    exact this.1 (by rw [hn]; exact List.prefix_append _ _)

theorem get_block_registry_name (cfg : ect_config) (mem : Mem) (a : Nat) (al : Alloc)
    (hreg : registry_names_apart (ect_list cfg))
    (h : (ect_parse_binary_header cfg mem a (EctState.init cfg) al).ret = 0)
    (j i : Nat) (e : ect_info) (d : List Nat × Nat)
    (he : (ect_list cfg)[j]? = some e) (hd : (ect_directory_at mem a)[i]? = some d)
    (hm : ect_match d.1 e = true)
    (hlast : ∀ d1 ∈ (ect_directory_at mem a).drop (i + 1), ect_match d1.1 e = false) :
    ect_get_block (ect_parse_binary_header cfg mem a (EctState.init cfg) al).state.ect_list
        e.block_name
      = block_value cfg mem e.parser (a + d.2) := by
  have hfin := parse_final_entry cfg mem a al h j i e d he hd hm hlast
  refine (get_block_at _ _ _ _ e.block_name hfin ?_ rfl).trans rfl
  intro x hx
  obtain ⟨x0, hx0, rfl⟩ := List.mem_map.mp hx
  rw [(publish_fold_name cfg mem a _ 0 x0).1]
  exact registry_earlier_names (ect_list cfg) hreg j e he x0 hx0

end Ect
